import Mathlib

/-!
The options-to-argument serialisation of go-astiffmpeg.

A shallow embedding of `src/options.go` and `src/ffmpeg.go`.

* `*exec.Cmd` is the record `Cmd` of the two slices the code appends to, `Args` and `Env`;
  every `adaptCmd` method is a function from the command before the call to the command
  after it, paired with what the call returned.
* A Go `error` is its `Error()` text; `errors.Wrap(err, msg)` is `msg ++ ": " ++ text`.
  A run-time panic is recorded as `Failure.panic`.
* A nullable pointer (`*int`, `*bool`, `*Number`, ...) is an `Option`.
* An `interface{}` value is the tagged union `Value`.
* A Go `map` is the list of its entries in the order the `range` statement visits them.
* A Go `string` that the code indexes byte by byte is the list of its bytes (`Byte`); the
  bytes of a text are its UTF-8 encoding (`utf8`).
-/

namespace Astiffmpeg

/-! ## Go values -/

/-- A Go `float64`: `finite neg m e` stands for `(-1)^neg * m * 2^e`. -/
inductive Float64
  | finite (neg : Bool) (mant : Nat) (exp : Int)
  | inf (neg : Bool)
  | nan
  deriving DecidableEq

/-- Decimal text of a Go `int`, as `strconv.Itoa` and the verb `%d` print it. -/
def Itoa (v : Int) : String := toString v

/-- Left-pads `s` with the character `0` up to `width` characters. -/
def padZeros (width : Nat) (s : String) : String :=
  String.mk (List.replicate (width - s.length) '0') ++ s

/-- Text of `strconv.FormatFloat(x, 'f', prec, 64)`: the exact value rounded to `prec`
decimals, ties to even, with the sign of the float in front. -/
def FormatFloat (x : Float64) (prec : Nat) : String :=
  match x with
  | .nan => "NaN"
  | .inf false => "+Inf"
  | .inf true => "-Inf"
  | .finite neg m e =>
    let num : Nat := match e with
      | .ofNat k => m * 2 ^ k * 10 ^ prec
      | .negSucc _ => m * 10 ^ prec
    let den : Nat := match e with
      | .ofNat _ => 1
      | .negSucc k => 2 ^ (k + 1)
    let q := num / den
    let r := num % den
    let n := if den < 2 * r ∨ (2 * r = den ∧ q % 2 = 1) then q + 1 else q
    let frac := if prec = 0 then "" else "." ++ padZeros prec (toString (n % 10 ^ prec))
    (if neg then "-" else "") ++ (toString (n / 10 ^ prec) ++ frac)

/-- The conversion `int(x)` of a `float64`: truncation towards zero. For a value outside
the range of a 64-bit `int`, an infinity or a NaN the result is the one of amd64,
`-2^63`. -/
def Float64.toInt (x : Float64) : Int :=
  match x with
  | .finite neg m e =>
    let a : Nat := match e with
      | .ofNat k => m * 2 ^ k
      | .negSucc k => m / 2 ^ (k + 1)
    let v : Int := if neg then -(a : Int) else (a : Int)
    if -(2 : Int) ^ 63 ≤ v ∧ v < (2 : Int) ^ 63 then v else -(2 : Int) ^ 63
  | _ => -(2 : Int) ^ 63

/-- `Ratio` represents a ratio. -/
structure Ratio where
  Antecedent : Int
  Consequent : Int
  deriving DecidableEq

/-- `Scale` represents a scale. -/
structure Scale where
  Width : Int
  Height : Int
  deriving DecidableEq

/-- `FilterOptions` represents filter options. -/
structure FilterOptions where
  SAR : Option Ratio := none
  ScaleNPP : Option Scale := none
  deriving DecidableEq

/-- A Go `interface{}` value, by dynamic type. `number` is a `Number` (whose own `Value`
is again an `interface{}`), `other` any dynamic type the code never asserts. -/
inductive Value
  | nil
  | int (v : Int)
  | float64 (v : Float64)
  | string (v : String)
  | bool (v : Bool)
  | number (binaryMultiple byteMultiple : Bool) (pfx : String) (value : Value)
  | filterOptions (v : FilterOptions)
  | other (typeName : String)
  deriving DecidableEq

/-- `Number` represents a number which value can be shortened using string shortcuts. -/
structure Number where
  BinaryMultiple : Bool := false
  ByteMultiple : Bool := false
  Prefix : String := ""
  Value : Value := Value.nil
  deriving DecidableEq

/-- A `Number` stored in an `interface{}`. -/
def Number.toValue (n : Number) : Astiffmpeg.Value :=
  Astiffmpeg.Value.number n.BinaryMultiple n.ByteMultiple n.Prefix n.Value

/-! ## Commands and failures -/

/-- The part of `*exec.Cmd` the code writes to. -/
structure Cmd where
  Args : List String
  Env : List String
  deriving DecidableEq

/-- `cmd.Args = append(cmd.Args, ts...)`. -/
def Cmd.append (cmd : Cmd) (ts : List String) : Cmd :=
  { cmd with Args := cmd.Args ++ ts }

/-- `cmd.Env = append(cmd.Env, es...)`. -/
def Cmd.appendEnv (cmd : Cmd) (es : List String) : Cmd :=
  { cmd with Env := cmd.Env ++ es }

/-- How a call can fail: a returned `error` (its `Error()` text) or a run-time panic. -/
inductive Failure
  | error (msg : String)
  | panic (msg : String)
  deriving DecidableEq

/-- `errors.Wrap(err, msg)` / `errors.Wrapf`: the text becomes `msg: <text of err>`.
A panic never reaches the wrapping statement and propagates unchanged. -/
def Failure.wrap (f : Failure) (msg : String) : Failure :=
  match f with
  | .error e => .error (msg ++ ": " ++ e)
  | .panic p => .panic p

/-- A statement that works on the command: the command after it and `none` when control
goes on, the failure when it leaves the function. -/
abbrev Step := Cmd → Cmd × Option Failure

/-- A statement that cannot fail. -/
def Step.ofFn (f : Cmd → Cmd) : Step := fun cmd => (f cmd, none)

/-- `if err = s(cmd); err != nil { err = errors.Wrap(err, msg); return }`. -/
def Step.wrapped (s : Step) (msg : String) : Step := fun cmd =>
  match s cmd with
  | (cmd', none) => (cmd', none)
  | (cmd', some f) => (cmd', some (f.wrap msg))

/-- Statements in sequence; the first failure leaves the function. -/
def runSteps : List Step → Step
  | [], cmd => (cmd, none)
  | s :: ss, cmd =>
    match s cmd with
    | (cmd', none) => runSteps ss cmd'
    | (cmd', some f) => (cmd', some f)

/-- The loop `for idx, x := range xs { body }`, started at index `idx`. -/
def rangeLoop {α : Type} (body : Nat → α → Step) : Nat → List α → Step
  | _, [], cmd => (cmd, none)
  | idx, x :: xs, cmd =>
    match body idx x cmd with
    | (cmd', none) => rangeLoop body (idx + 1) xs cmd'
    | (cmd', some f) => (cmd', some f)

/-! ## `Number` and `StreamSpecifier` -/

/-- The loop `for o[len(o)-1] == '0' { o = o[:len(o)-1] }` on the characters of `o` in
reverse order; `none` is the panic of indexing the empty string. -/
def trimZerosRev : List Char → Option (List Char)
  | [] => none
  | c :: cs => if c = '0' then trimZerosRev cs else some (c :: cs)

/-- `strings.TrimSuffix(o, ".")` on the characters of `o` in reverse order. -/
def trimDotRev : List Char → List Char
  | c :: cs => if c = '.' then cs else c :: cs
  | [] => []

/-- `Number.string`; `none` is a run-time panic. -/
def Number.string (n : Number) : Option String :=
  let tail := n.Prefix ++ (if n.BinaryMultiple then "i" else "")
    ++ (if n.ByteMultiple then "B" else "")
  match n.Value with
  | .float64 v =>
    match trimZerosRev (FormatFloat v 3).data.reverse with
    | none => none
    | some cs => some (String.mk (trimDotRev cs).reverse ++ tail)
  | .int v => some (Itoa v ++ tail)
  | _ => some ""

/-- `StreamSpecifier` represents a stream specifier; `Typ` is the field `Type` of the source
(a reserved word here). -/
structure StreamSpecifier where
  Index : Option Int := none
  Name : String := ""
  Typ : String := ""
  deriving DecidableEq

/-- `StreamSpecifier.string`. -/
def StreamSpecifier.string (s : StreamSpecifier) : String :=
  if s.Name.length > 0 then s.Name
  else
    let o := if s.Typ.length > 0 then s.Typ else ""
    match s.Index with
    | some idx => (if s.Typ.length > 0 then o ++ ":" else o) ++ Itoa idx
    | none => o

/-! ## Stream options, filters and maps -/

/-- `StreamOption` represents an option that can be specific to a stream. -/
structure StreamOption where
  Stream : Option StreamSpecifier := none
  Value : Value := Value.nil
  deriving DecidableEq

/-- `StreamOption.adaptCmd(cmd, name, fn)`; `fn` answers its text or fails. -/
def StreamOption.adaptCmd (o : StreamOption) (name : String)
    (fn : Astiffmpeg.Value → Except Failure String) : Step := fun cmd =>
  let f := match o.Stream with
    | some s => name ++ (":" ++ s.string)
    | none => name
  match fn o.Value with
  | .error e =>
    (cmd, some (e.wrap ("astiffmpeg: adapting cmd for stream option " ++ name ++ " failed")))
  | .ok v => (cmd.append [f, v], none)

/-- `Ratio.string`: `fmt.Sprintf("%d/%d", ...)`. -/
def Ratio.string (r : Ratio) : String := Itoa r.Antecedent ++ "/" ++ Itoa r.Consequent

/-- `Scale.string`: `fmt.Sprintf("%d:%d", ...)`. -/
def Scale.string (s : Scale) : String := Itoa s.Width ++ ":" ++ Itoa s.Height

/-- `FilterOptions.add`: `fmt.Sprintf("%s=%s", k, v)`. -/
def FilterOptions.add (_o : FilterOptions) (k v : String) : String := k ++ "=" ++ v

/-- `FilterOptions.string`. -/
def FilterOptions.string (o : FilterOptions) : String :=
  let items : List String := []
  let items := match o.SAR with
    | some r => items ++ [o.add "setsar" r.string]
    | none => items
  let items := match o.ScaleNPP with
    | some s => items ++ [o.add "scale_npp" s.string]
    | none => items
  String.intercalate "," items

/-- `MapOption` represents a map option. -/
structure MapOption where
  Name : String := ""
  InputFileID : Int := 0
  Stream : Option StreamSpecifier := none
  deriving DecidableEq

/-- `MapOption.adaptCmd`. -/
def MapOption.adaptCmd (o : MapOption) (cmd : Cmd) : Cmd :=
  if o.Name.length > 0 then cmd.append ["-map", o.Name]
  else
    let v := Itoa o.InputFileID
    let v := match o.Stream with
      | some s => v ++ (":" ++ s.string)
      | none => v
    cmd.append ["-map", v]

/-- `MapOptions` represents a set of map options. -/
abbrev MapOptions := List MapOption

/-- `MapOptions.adaptCmd`. -/
def MapOptions.adaptCmd (os : MapOptions) (cmd : Cmd) : Cmd :=
  os.foldl (fun c o => o.adaptCmd c) cmd

/-! ## Global and log options -/

/-- `LogOptions` represents log options. -/
structure LogOptions where
  Color : Option Bool := none
  Level : String := ""
  Repeated : Bool := false
  deriving DecidableEq

/-- `LogOptions.adaptCmd`. -/
def LogOptions.adaptCmd (o : LogOptions) (cmd : Cmd) : Cmd :=
  let cmd := match o.Color with
    | some true => cmd.appendEnv ["AV_LOG_FORCE_COLOR=1"]
    | some false => cmd.appendEnv ["AV_LOG_FORCE_NOCOLOR=1"]
    | none => cmd
  if o.Level.length > 0 then
    let v := if o.Repeated then "repeat+" else ""
    let v := v ++ o.Level
    cmd.append ["-loglevel", v]
  else cmd

/-- `GlobalOptions` represents global options. -/
structure GlobalOptions where
  Log : Option LogOptions := none
  NoStats : Bool := false
  Overwrite : Option Bool := none
  Report : Bool := false
  deriving DecidableEq

/-- `GlobalOptions.adaptCmd`. -/
def GlobalOptions.adaptCmd (o : GlobalOptions) (cmd : Cmd) : Cmd :=
  let cmd := cmd.append ["-hide_banner"]
  let cmd := match o.Log with
    | some l => l.adaptCmd cmd
    | none => cmd
  let cmd := match o.Overwrite with
    | some true => cmd.append ["-y"]
    | some false => cmd.append ["-n"]
    | none => cmd
  let cmd := if o.NoStats then cmd.append ["-nostats"] else cmd
  let cmd := if o.Report then cmd.append ["-report"] else cmd
  cmd

/-! ## Decoding options and inputs -/

/-- The formatter of the options whose value must be a `string`. -/
def fnString (i : Astiffmpeg.Value) : Except Failure String :=
  match i with
  | .string v => .ok v
  | _ => .error (.error "astiffmpeg: value should be a string")

/-- The formatter of the options whose value must be a `Number`. -/
def fnNumber (i : Astiffmpeg.Value) : Except Failure String :=
  match i with
  | .number bin byte pfx v =>
    match Number.string { BinaryMultiple := bin, ByteMultiple := byte, Prefix := pfx, Value := v } with
    | some t => .ok t
    | none => .error (.panic "index out of range")
  | _ => .error (.error "astiffmpeg: value should be a Number")

/-- The formatter of the options whose value must be a `FilterOptions`. -/
def fnFilterOptions (i : Astiffmpeg.Value) : Except Failure String :=
  match i with
  | .filterOptions v => .ok v.string
  | _ => .error (.error "astiffmpeg: value should be a FilterOptions")

/-- `if len(s) > 0 { cmd.Args = append(cmd.Args, flag, s) }`. -/
def stepString (flag : String) (s : String) : Step :=
  Step.ofFn (fun cmd => if s.length > 0 then cmd.append [flag, s] else cmd)

/-- `DecodingOptions` represents decoding options. -/
structure DecodingOptions where
  Codec : Option StreamOption := none
  DeinterlacingMode : String := ""
  DropSecondField : Option Bool := none
  Duration : String := ""
  HardwareAcceleration : String := ""
  HardwareAccelerationDevice : Option Int := none
  Position : String := ""
  deriving DecidableEq

/-- `DecodingOptions.adaptCmd`. -/
def DecodingOptions.adaptCmd (o : DecodingOptions) : Step :=
  runSteps [
    Step.ofFn (fun cmd =>
      if o.HardwareAcceleration.length > 0 then
        let cmd := cmd.append ["-hwaccel", o.HardwareAcceleration]
        match o.HardwareAccelerationDevice with
        | some d => cmd.append ["-hwaccel_device", Itoa d]
        | none => cmd
      else cmd),
    stepString "-deint" o.DeinterlacingMode,
    stepString "-t" o.Duration,
    stepString "-ss" o.Position,
    Step.ofFn (fun cmd =>
      match o.DropSecondField with
      | some b => cmd.append ["-drop_second_field", if b then "1" else "0"]
      | none => cmd),
    match o.Codec with
    | some c => (c.adaptCmd "-c" fnString).wrapped "astiffmpeg: adapting cmd for -c option failed"
    | none => Step.ofFn id ]

/-- `InputOptions` represents input options. -/
structure InputOptions where
  Decoding : Option DecodingOptions := none
  deriving DecidableEq

/-- `InputOptions.adaptCmd`. -/
def InputOptions.adaptCmd (o : InputOptions) : Step :=
  match o.Decoding with
  | some d => d.adaptCmd.wrapped "astiffmpeg: adapting cmd for decoding options failed"
  | none => Step.ofFn id

/-- `Input` represents an input. -/
structure Input where
  Options : Option InputOptions := none
  Path : String := ""
  deriving DecidableEq

/-- `Input.adaptCmd`. -/
def Input.adaptCmd (i : Input) : Step :=
  runSteps [
    match i.Options with
    | some o => o.adaptCmd.wrapped "astiffmpeg: adapting cmd for options failed"
    | none => Step.ofFn id,
    Step.ofFn (fun cmd => cmd.append ["-i", i.Path]) ]

/-! ## Encoding options -/

/-- `EncodingOptions` represents encoding options. `Customize` holds the entries of the
map in the order the `range` statement of `adaptCmd` visits them. -/
structure EncodingOptions where
  AudioSamplerate : Option Int := none
  AudioChannels : Option Int := none
  BFrames : Option Int := none
  Bitrate : List StreamOption := []
  BStrategy : Option Int := none
  BufSize : Option Number := none
  Codec : List StreamOption := []
  Coder : String := ""
  ConstantQuality : Option Float64 := none
  CRF : Option Int := none
  Filters : List StreamOption := []
  Framerate : Option Float64 := none
  FrameSize : String := ""
  GOP : Option Int := none
  KeyintMin : Option Int := none
  Level : Option Float64 := none
  Maxrate : List StreamOption := []
  Minrate : List StreamOption := []
  Preset : String := ""
  Profile : List StreamOption := []
  RateControl : String := ""
  SCThreshold : Option Int := none
  Tune : String := ""
  MaxMuxingQSize : Option Int := none
  Customize : List (String × Value) := []
  RemoveAudio : String := ""
  HlsTime : Option Int := none
  HlsListSize : Option Int := none
  HlsKeyInfoFile : String := ""
  HlsSegmentFileName : String := ""
  deriving DecidableEq

/-- `if p != nil { cmd.Args = append(cmd.Args, flag, strconv.Itoa(*p)) }`. -/
def stepInt (flag : String) (p : Option Int) : Step :=
  Step.ofFn (fun cmd =>
    match p with
    | some v => cmd.append [flag, Itoa v]
    | none => cmd)

/-- `if p != nil { cmd.Args = append(cmd.Args, flag, strconv.FormatFloat(*p, 'f', prec, 64)) }`. -/
def stepFloat (flag : String) (p : Option Float64) (prec : Nat) : Step :=
  Step.ofFn (fun cmd =>
    match p with
    | some v => cmd.append [flag, FormatFloat v prec]
    | none => cmd)

/-- The body of the loop of a repeated option: `ro.adaptCmd(cmd, flag, fn)`, its error
wrapped with the flag and `idx`. -/
def streamOptionStep (flag : String) (fn : Astiffmpeg.Value → Except Failure String)
    (idx : Nat) (ro : StreamOption) : Step :=
  (ro.adaptCmd flag fn).wrapped
    ("astiffmpeg: adapting cmd for " ++ flag ++ " option #" ++ toString idx ++ " failed")

/-- A repeated option: `for idx, ro := range xs { ... }`. -/
def stepStreamOptions (flag : String) (fn : Astiffmpeg.Value → Except Failure String)
    (xs : List StreamOption) : Step :=
  rangeLoop (streamOptionStep flag fn) 0 xs

/-- The body of `for key, value := range o.Customize`: `reflect.TypeOf(nil)` is `nil` and
its `Kind()` panics; in the `default` case `value.(string)` panics unless the dynamic type
is `string`. -/
def stepCustomize (key : String) (value : Astiffmpeg.Value) : Step := fun cmd =>
  match value with
  | .nil => (cmd, some (.panic "invalid memory address or nil pointer dereference"))
  | .int v => (cmd.append ["-" ++ key, Itoa v], none)
  | .float64 v => (cmd.append ["-" ++ key, Itoa v.toInt], none)
  | .string v => (cmd.append ["-" ++ key, v], none)
  | _ => (cmd, some (.panic "interface conversion: interface {} is not string"))

/-- `EncodingOptions.adaptCmd`. -/
def EncodingOptions.adaptCmd (o : EncodingOptions) : Step :=
  runSteps [
    stepInt "-ar" o.AudioSamplerate,
    stepInt "-ac" o.AudioChannels,
    stepInt "-bf" o.BFrames,
    stepStreamOptions "-b" fnNumber o.Bitrate,
    stepInt "-b_strategy" o.BStrategy,
    (fun cmd =>
      match o.BufSize with
      | some n =>
        match n.string with
        | some t => (cmd.append ["-bufsize", t], none)
        | none => (cmd, some (.panic "index out of range"))
      | none => (cmd, none)),
    stepStreamOptions "-codec" fnString o.Codec,
    stepString "-coder" o.Coder,
    stepFloat "-cq" o.ConstantQuality 3,
    stepInt "-crf" o.CRF,
    stepStreamOptions "-filter" fnFilterOptions o.Filters,
    stepFloat "-r" o.Framerate 3,
    stepString "-s" o.FrameSize,
    stepInt "-g" o.GOP,
    stepInt "-keyint_min" o.KeyintMin,
    stepFloat "-level" o.Level 1,
    stepStreamOptions "-maxrate" fnNumber o.Maxrate,
    stepStreamOptions "-minrate" fnNumber o.Minrate,
    stepString "-preset" o.Preset,
    stepStreamOptions "-profile" fnString o.Profile,
    stepString "-rc" o.RateControl,
    stepInt "-sc_threshold" o.SCThreshold,
    stepString "-tune" o.Tune,
    stepInt "-max_muxing_queue_size" o.MaxMuxingQSize,
    stepInt "-hls_time" o.HlsTime,
    stepInt "-hls_list_size" o.HlsListSize,
    stepString "-hls_key_info_file" o.HlsKeyInfoFile,
    stepString "-hls_segment_filename" o.HlsSegmentFileName,
    rangeLoop (fun _ kv => stepCustomize kv.1 kv.2) 0 o.Customize,
    Step.ofFn (fun cmd => if o.RemoveAudio = "y" then cmd.append ["-an"] else cmd) ]

/-! ## Outputs -/

/-- `OutputOptions` represents output options. -/
structure OutputOptions where
  Encoding : Option EncodingOptions := none
  Format : String := ""
  Map : Option MapOptions := none
  deriving DecidableEq

/-- `OutputOptions.adaptCmd`. -/
def OutputOptions.adaptCmd (o : OutputOptions) : Step :=
  runSteps [
    Step.ofFn (fun cmd =>
      match o.Map with
      | some m => MapOptions.adaptCmd m cmd
      | none => cmd),
    match o.Encoding with
    | some e => e.adaptCmd.wrapped "astiffmpeg: adapting cmd for encoding options failed"
    | none => Step.ofFn id,
    stepString "-f" o.Format ]

/-- `Output` represents an output. -/
structure Output where
  Options : Option OutputOptions := none
  Path : String := ""
  deriving DecidableEq

/-- `Output.adaptCmd`. -/
def Output.adaptCmd (o : Output) : Step :=
  runSteps [
    match o.Options with
    | some opts => opts.adaptCmd.wrapped "astiffmpeg: adapting cmd for output failed"
    | none => Step.ofFn id,
    Step.ofFn (fun cmd => cmd.append ["-y", o.Path]) ]

/-! ## Complex filters -/

/-- One chain of a complex filter graph. -/
structure ComplexFilter where
  Filters : List String := []
  InputStreams : List StreamSpecifier := []
  OutputStreams : List StreamSpecifier := []
  deriving DecidableEq

/-- `ComplexFilterOptions` represents complex filter option. -/
structure ComplexFilterOptions where
  OutputNum : Option Int := none
  ComplexFilters : List ComplexFilter := []
  deriving DecidableEq

/-- The text `s` built when `OutputNum` is set: `fmt.Sprintf("split=%d", n)` followed by
`fmt.Sprintf("[out%d]", index)` for `index := 0; index < n; index++`. -/
def splitChain (n : Int) : String :=
  (List.range n.toNat).foldl (fun s index => s ++ ("[out" ++ Itoa index ++ "]"))
    ("split=" ++ Itoa n)

/-- The text `v` the body of `for _, cf := range o.ComplexFilters` builds for one chain. -/
def ComplexFilter.render (cf : ComplexFilter) : String :=
  let v := cf.InputStreams.foldl (fun v i => v ++ ("[" ++ i.string ++ "]")) ""
  let v := v ++ String.intercalate "," cf.Filters
  cf.OutputStreams.foldl (fun v o => v ++ ("[" ++ o.string ++ "]")) v

/-- The value of `vs` after `for _, cf := range filters`. -/
def renderChains (filters : List ComplexFilter) : List String :=
  filters.foldl (fun vs cf =>
    let v := cf.render
    if v.length ≠ 0 then vs ++ [v] else vs) []

/-- The chains `ComplexFilterOptions.adaptCmd` renders: `o.ComplexFilters` after the
`append` it performs when `OutputNum` is set. -/
def ComplexFilterOptions.chains (o : ComplexFilterOptions) : List ComplexFilter :=
  match o.OutputNum with
  | some n => o.ComplexFilters ++ [{ Filters := [splitChain n] }]
  | none => o.ComplexFilters

/-- `ComplexFilterOptions.adaptCmd`; the error it returns is always `nil`. -/
def ComplexFilterOptions.adaptCmd (o : ComplexFilterOptions) : Step := fun cmd =>
  let filters := o.chains
  if filters.length > 0 then
    (cmd.append ["-filter_complex", String.intercalate "," (renderChains filters)], none)
  else (cmd, none)

/-! ## Building the command -/

/-- The body of the loop over the inputs or outputs: `x.adaptCmd(cmd)`, its error wrapped
with `idx`. -/
def eachStep {α : Type} (kind : String) (adapt : α → Step) (idx : Nat) (x : α) : Step :=
  (adapt x).wrapped ("astiffmpeg: adapting cmd for " ++ kind ++ " #" ++ toString idx ++ " failed")

/-- The loop over the inputs or outputs of `BuildCmd` and `Exec`. -/
def stepEach {α : Type} (kind : String) (adapt : α → Step) (xs : List α) : Step :=
  rangeLoop (eachStep kind adapt) 0 xs

/-- `FFMpeg.BuildCmd`: `binaryPath` is the field of the receiver, `env` what `os.Environ()`
returns. The command comes back with the error, as in the source. -/
def BuildCmd (binaryPath : String) (env : List String) (g : GlobalOptions) (ins : List Input)
    (complex : ComplexFilterOptions) (out : List Output) : Cmd × Option Failure :=
  let cmd : Cmd := { Args := [binaryPath], Env := env }
  runSteps [
    Step.ofFn g.adaptCmd,
    stepEach "input" Input.adaptCmd ins,
    Step.ofFn (fun cmd => (complex.adaptCmd cmd).1),
    stepEach "output" Output.adaptCmd out ] cmd

/-- `FFMpeg.Exec` up to the statement `cmd.Run()`: the command it has assembled, or the
failure that made it return before. The goroutine that feeds the stderr parser and the run
of the process do not touch `cmd.Args` and are left out. -/
def Exec (binaryPath : String) (env : List String) (g : GlobalOptions) (ins : List Input)
    (out : List Output) : Cmd × Option Failure :=
  let cmd : Cmd := { Args := [binaryPath], Env := env }
  runSteps [
    Step.ofFn g.adaptCmd,
    stepEach "input" Input.adaptCmd ins,
    stepEach "output" Output.adaptCmd out ] cmd

/-! ## Parsing a `Number` -/

/-- The error of `strconv.ParseFloat`, a `*strconv.NumError`, by its field `Err`. -/
inductive NumError
  | ErrSyntax
  | ErrRange
  deriving DecidableEq

/-- What a call of `numberFromString` does: it returns `n` and `err`, or it panics. -/
inductive ParseOutcome
  | returned (n : Number) (err : Option NumError)
  | panicked (msg : String)
  deriving DecidableEq

/-- A byte of a Go `string`. -/
abbrev Byte := Fin 256

/-- The UTF-8 encoding of a character. -/
def utf8EncodeChar (c : Char) : List Byte :=
  let v := c.toNat
  if v < 0x80 then [Fin.ofNat v]
  else if v < 0x800 then [Fin.ofNat (0xC0 + v / 0x40), Fin.ofNat (0x80 + v % 0x40)]
  else if v < 0x10000 then
    [Fin.ofNat (0xE0 + v / 0x1000), Fin.ofNat (0x80 + v / 0x40 % 0x40),
      Fin.ofNat (0x80 + v % 0x40)]
  else
    [Fin.ofNat (0xF0 + v / 0x40000), Fin.ofNat (0x80 + v / 0x1000 % 0x40),
      Fin.ofNat (0x80 + v / 0x40 % 0x40), Fin.ofNat (0x80 + v % 0x40)]

/-- The bytes of a Go `string` that holds the text `s`: its UTF-8 encoding. -/
def utf8 (s : String) : List Byte := s.data.flatMap utf8EncodeChar

/-- `strings.HasSuffix(i, s)` for a suffix `s` of the one byte `c`. -/
def hasSuffixByte (bs : List Byte) (c : Byte) : Bool := bs.getLast? == some c

/-- `strings.TrimSuffix(i, s)` for a suffix `s` of the one byte `c`. -/
def trimSuffixByte (bs : List Byte) (c : Byte) : List Byte :=
  if hasSuffixByte bs c then bs.dropLast else bs

/-- The last two statements of `numberFromString`, on the bytes `bs` left of the text.

`i[len(i)-1]` is the last byte `c` of the text: indexing the empty text panics.
`string(c)` is the text of the one character with the code `c`, and `strconv.Atoi` accepts
it exactly when `c` is one of the digits `'0'` to `'9'`; otherwise that text is the prefix
and the last byte is cut off. -/
def numberFromRest (ParseFloat : List Byte → Float64 × Option NumError)
    (binaryMultiple byteMultiple : Bool) (bs : List Byte) : ParseOutcome :=
  match bs.getLast? with
  | none => .panicked "index out of range [-1]"
  | some c =>
    if 0x30 ≤ c.val ∧ c.val ≤ 0x39 then
      let r := ParseFloat bs
      .returned { BinaryMultiple := binaryMultiple, ByteMultiple := byteMultiple, Prefix := "",
                  Value := .float64 r.1 } r.2
    else
      let r := ParseFloat bs.dropLast
      .returned { BinaryMultiple := binaryMultiple, ByteMultiple := byteMultiple,
                  Prefix := String.singleton (Char.ofNat c.val), Value := .float64 r.1 } r.2

/-- `numberFromString` on the bytes `i` of the text. `ParseFloat s` is what
`strconv.ParseFloat(s, 64)` returns, the value and the error; `strconv.ParseFloat` below is
the function of the library. -/
def numberFromString (ParseFloat : List Byte → Float64 × Option NumError) (i : List Byte) :
    ParseOutcome :=
  let byteMultiple := hasSuffixByte i 0x42
  let bs := trimSuffixByte i 0x42
  let binaryMultiple := hasSuffixByte bs 0x69
  let bs := trimSuffixByte bs 0x69
  numberFromRest ParseFloat binaryMultiple byteMultiple bs

/-! ## `float64` arithmetic and `Number.float64` -/

/-- The number of binary digits of `n`, counted with `fuel` halvings at most. -/
def bitLengthAux : Nat → Nat → Nat
  | 0, _ => 0
  | fuel + 1, n => if n = 0 then 0 else bitLengthAux fuel (n / 2) + 1

/-- The number of binary digits of `m`: `0` for `0`, and `2^(b-1) ≤ m < 2^b` otherwise. -/
def bitLength (m : Nat) : Nat := bitLengthAux m m

/-- The `float64` nearest to `(-1)^neg * m * 2^e` (IEEE 754 round to nearest, ties to even):
at most 53 significant bits, no bit below `2^-1074`, and an infinity from `2^1024` on. -/
def Float64.round (neg : Bool) (m : Nat) (e : Int) : Float64 :=
  if m = 0 then .finite neg 0 e
  else
    let k : Int := max ((bitLength m : Int) - 53) (-1074 - e)
    if k ≤ 0 then
      if 1024 < (bitLength m : Int) + e then .inf neg else .finite neg m e
    else
      let d := 2 ^ k.toNat
      let q := m / d
      let r := m % d
      let q' := if d < 2 * r ∨ (2 * r = d ∧ q % 2 = 1) then q + 1 else q
      if q' = 0 then .finite neg 0 (e + k)
      else if q' = 2 ^ 53 then
        if 1024 < (54 : Int) + (e + k) then .inf neg else .finite neg (2 ^ 52) (e + k + 1)
      else if 1024 < (bitLength q' : Int) + (e + k) then .inf neg
      else .finite neg q' (e + k)

/-- The conversion `float64(v)` of an `int`. -/
def Float64.ofInt (v : Int) : Float64 := Float64.round (decide (v < 0)) v.natAbs 0

/-- The product `x * y` of two `float64`. -/
def Float64.mul (x y : Float64) : Float64 :=
  match x, y with
  | .nan, _ => .nan
  | _, .nan => .nan
  | .inf a, .inf b => .inf (a != b)
  | .inf a, .finite b m _ => if m = 0 then .nan else .inf (a != b)
  | .finite a m _, .inf b => if m = 0 then .nan else .inf (a != b)
  | .finite a m e, .finite b m' e' => Float64.round (a != b) (m * m') (e + e')

/-- `math.Pow(x, y)` for a whole exponent `y`, as the exact power rounded to a `float64`;
the powers the code asks for, of 1000 and of 1024 up to the fifth, are exact. -/
def Pow (x : Float64) (y : Nat) : Float64 :=
  if y = 0 then .finite false 1 0
  else
    match x with
    | .finite neg m e => Float64.round (neg && decide (y % 2 = 1)) (m ^ y) (e * y)
    | .inf neg => .inf (neg && decide (y % 2 = 1))
    | .nan => .nan

/-- The comparison `x < y` of two `float64`: false when one is a NaN, and zeros of both
signs are equal. -/
def Float64.lt (x y : Float64) : Bool :=
  match x, y with
  | .nan, _ => false
  | _, .nan => false
  | .inf a, .inf b => a && !b
  | .inf a, .finite _ _ _ => a
  | .finite _ _ _, .inf b => !b
  | .finite a m e, .finite b m' e' =>
    let emin := min e e'
    let s : Int := (if a then -1 else 1) * ((m * 2 ^ (e - emin).toNat : Nat) : Int)
    let s' : Int := (if b then -1 else 1) * ((m' * 2 ^ (e' - emin).toNat : Nat) : Int)
    decide (s < s')

/-- The part of `Number.float64` after the initial value `o` is read. `ToLower` is
`strings.ToLower`. -/
def Number.scale (ToLower : String → String) (n : Number) (o : Float64) : Float64 :=
  let o := if n.ByteMultiple then o.mul (.finite false 8 0) else o
  let m : Float64 := if n.BinaryMultiple then .finite false 1024 0 else .finite false 1000 0
  let p := ToLower n.Prefix
  if p = "k" then o.mul m
  else if p = "m" then o.mul (Pow m 2)
  else if p = "g" then o.mul (Pow m 3)
  else if p = "t" then o.mul (Pow m 4)
  else if p = "p" then o.mul (Pow m 5)
  else o

/-- `Number.float64`. `ToLower` is `strings.ToLower`. -/
def Number.float64 (ToLower : String → String) (n : Number) : Float64 :=
  match n.Value with
  | .float64 v => n.scale ToLower v
  | .int v => n.scale ToLower (Float64.ofInt v)
  | _ => .finite false 0 0

/-! ## `strconv.ParseFloat` -/

/-- The `float64` nearest to `(-1)^neg * n / d` for `d > 0` (IEEE 754 round to nearest, ties
to even): the quotient is taken with at least 56 binary digits and one more digit that
records whether a remainder is left, which `Float64.round` then rounds. -/
def Float64.ofRatio (neg : Bool) (n d : Nat) : Float64 :=
  let s := bitLength d + 56 - bitLength n
  let q := n * 2 ^ s / d
  let r := n * 2 ^ s % d
  Float64.round neg (2 * q + (if r = 0 then 0 else 1)) (-(s : Int) - 1)

/-- Whether `c` is one of the bytes `'0'` to `'9'`. -/
def strconv.isDigit (c : Byte) : Bool := decide (0x30 ≤ c.val ∧ c.val ≤ 0x39)

/-- `lower(c)`: `c | ('x' ^ 'X')`, the byte `c` with the bit `0x20` set. -/
def strconv.lower (c : Byte) : Byte := if c.val / 0x20 % 2 = 0 then c + 0x20 else c

/-- Whether `lower(c)` is one of the bytes `'a'` to `'f'`. -/
def strconv.isHexLetter (c : Byte) : Bool :=
  decide (0x61 ≤ (strconv.lower c).val ∧ (strconv.lower c).val ≤ 0x66)

/-- `commonPrefixLenIgnoreCase(s, prefix)`. -/
def strconv.commonPrefixLenIgnoreCase : List Byte → List Byte → Nat
  | c :: s, p :: ps =>
    let c := if 0x41 ≤ c.val ∧ c.val ≤ 0x5A then c + 0x20 else c
    if c = p then strconv.commonPrefixLenIgnoreCase s ps + 1 else 0
  | _, _ => 0

/-- The common part of the two `inf` cases of `special`: the value and the length read. -/
def strconv.specialInf (neg : Bool) (nsign : Nat) (s : List Byte) : Option (Float64 × Nat) :=
  let n := strconv.commonPrefixLenIgnoreCase s (utf8 "infinity")
  let n := if 3 < n ∧ n < 8 then 3 else n
  if n = 3 ∨ n = 8 then some (.inf neg, nsign + n) else none

/-- `special(s)`: the value and the length of the text read when a prefix of `s` is a signed
`inf` or `infinity` or is `nan`, whatever the case of the letters. -/
def strconv.special (s : List Byte) : Option (Float64 × Nat) :=
  match s with
  | [] => none
  | c :: rest =>
    if c = 0x2B then strconv.specialInf false 1 rest
    else if c = 0x2D then strconv.specialInf true 1 rest
    else if c = 0x69 ∨ c = 0x49 then strconv.specialInf false 0 s
    else if c = 0x6E ∨ c = 0x4E then
      if strconv.commonPrefixLenIgnoreCase s (utf8 "nan") = 3 then some (.nan, 3) else none
    else none

/-- The variables of the digit loop of `readFloat`. `mantissa` holds all the digits read:
the code keeps the first 19 (16 in base 16) and a flag for a non-zero digit among the
others, and goes back to all the digits when the flag could change the result. -/
structure strconv.Digits where
  mantissa : Nat := 0
  nd : Nat := 0
  dp : Int := 0
  sawdot : Bool := false
  sawdigits : Bool := false
  underscores : Bool := false
  deriving DecidableEq

/-- The digit loop of `readFloat` in base 16 (`hex`) or 10: the variables after the loop and
the bytes not read. -/
def strconv.readDigits (hex : Bool) : List Byte → strconv.Digits → strconv.Digits × List Byte
  | [], st => (st, [])
  | c :: cs, st =>
    if c = 0x5F then strconv.readDigits hex cs { st with underscores := true }
    else if c = 0x2E then
      if st.sawdot then (st, c :: cs)
      else strconv.readDigits hex cs { st with sawdot := true, dp := st.nd }
    else if strconv.isDigit c then
      if c = 0x30 ∧ st.nd = 0 then
        strconv.readDigits hex cs { st with sawdigits := true, dp := st.dp - 1 }
      else
        strconv.readDigits hex cs
          { st with sawdigits := true, nd := st.nd + 1,
                    mantissa := st.mantissa * (if hex then 16 else 10) + (c.val - 0x30) }
    else if hex ∧ strconv.isHexLetter c then
      strconv.readDigits hex cs
        { st with sawdigits := true, nd := st.nd + 1,
                  mantissa := st.mantissa * 16 + ((strconv.lower c).val - 0x61 + 10) }
    else (st, c :: cs)

/-- The loop of `readFloat` over the digits of the exponent: the exponent, which stops
growing at 10000, whether an underscore was read, and the bytes not read. -/
def strconv.readExponent : List Byte → Nat → Bool → Nat × Bool × List Byte
  | [], e, u => (e, u, [])
  | c :: cs, e, u =>
    if c = 0x5F then strconv.readExponent cs e true
    else if strconv.isDigit c then
      strconv.readExponent cs (if e < 10000 then e * 10 + (c.val - 0x30) else e) u
    else (e, u, c :: cs)

/-- The loop of `underscoreOK`; `saw` is `'^'`, `'0'`, `'_'` or `'!'`. -/
def strconv.underscoreLoop (hex : Bool) : List Byte → Char → Bool
  | [], saw => saw != '_'
  | c :: cs, saw =>
    if strconv.isDigit c ∨ (hex ∧ strconv.isHexLetter c) then strconv.underscoreLoop hex cs '0'
    else if c = 0x5F then
      if saw != '0' then false else strconv.underscoreLoop hex cs '_'
    else if saw = '_' then false
    else strconv.underscoreLoop hex cs '!'

/-- `underscoreOK(s)`: an underscore stands only between digits or between a base prefix and
a digit. -/
def strconv.underscoreOK (s : List Byte) : Bool :=
  let s := match s with
    | c :: cs => if c = 0x2D ∨ c = 0x2B then cs else s
    | [] => s
  match s with
  | c0 :: c1 :: cs =>
    if c0 = 0x30 ∧ (strconv.lower c1 = 0x62 ∨ strconv.lower c1 = 0x6F ∨ strconv.lower c1 = 0x78)
    then strconv.underscoreLoop (strconv.lower c1 = 0x78) cs '0'
    else strconv.underscoreLoop false s '^'
  | _ => strconv.underscoreLoop false s '^'

/-- What `readFloat` returns when `ok`: the sign, the base, all the digits as a number, the
exponent of the base (10, or 2 when `hex`) and the bytes not read. -/
structure strconv.Read where
  neg : Bool
  hex : Bool
  mantissa : Nat
  exp : Int
  rest : List Byte
  deriving DecidableEq

/-- `readFloat(s)`, `none` when not `ok`. -/
def strconv.readFloat (s : List Byte) : Option strconv.Read :=
  match s with
  | [] => none
  | c :: cs =>
    let neg := decide (c = 0x2D)
    let s1 := if c = 0x2B ∨ c = 0x2D then cs else s
    let hex := match s1 with
      | c0 :: c1 :: _ :: _ => decide (c0 = 0x30 ∧ strconv.lower c1 = 0x78)
      | _ => false
    let s2 := if hex then s1.drop 2 else s1
    let (st, s3) := strconv.readDigits hex s2 {}
    if ¬ st.sawdigits then none
    else
      let dp : Int := if st.sawdot then st.dp else st.nd
      let dp : Int := if hex then dp * 4 else dp
      let nd : Int := if hex then st.nd * 4 else st.nd
      let fin (dp : Int) (underscores : Bool) (rest : List Byte) : Option strconv.Read :=
        if underscores ∧ ¬ strconv.underscoreOK (s.take (s.length - rest.length)) then none
        else some { neg := neg, hex := hex, mantissa := st.mantissa,
                    exp := if st.mantissa = 0 then 0 else dp - nd, rest := rest }
      match s3 with
      | x :: s4 =>
        if strconv.lower x = (if hex then 0x70 else 0x65) then
          match s4 with
          | [] => none
          | y :: s5 =>
            let esign : Int := if y = 0x2D then -1 else 1
            let s6 := if y = 0x2B ∨ y = 0x2D then s5 else s4
            match s6 with
            | [] => none
            | z :: _ =>
              if ¬ strconv.isDigit z then none
              else
                let (e, u, s7) := strconv.readExponent s6 0 st.underscores
                fin (dp + e * esign) u s7
        else if hex then none
        else fin dp st.underscores s3
      | [] => if hex then none else fin dp st.underscores s3

/-- `strconv.ParseFloat(s, 64)`: the value and the error. A text that is well formed
stands for a number `(-1)^neg * mantissa * 10^exp`, or `* 2^exp` in base 16, and the value
is the `float64` nearest to it, ties to even; an infinity comes with the range error, and a
text that is not well formed gives 0 and the syntax error. The library reaches the nearest
`float64` through faster paths and, when they give up, through a conversion that keeps the
first 800 digits: on a text of at most 800 bytes this is the value it returns. -/
def strconv.ParseFloat (s : List Byte) : Float64 × Option NumError :=
  match strconv.special s with
  | some (v, n) => if n = s.length then (v, none) else (.finite false 0 0, some .ErrSyntax)
  | none =>
    match strconv.readFloat s with
    | none => (.finite false 0 0, some .ErrSyntax)
    | some r =>
      if r.rest ≠ [] then (.finite false 0 0, some .ErrSyntax)
      else
        let v : Float64 :=
          if r.mantissa = 0 then .finite r.neg 0 0
          else if r.hex then Float64.round r.neg r.mantissa r.exp
          else if 0 ≤ r.exp then Float64.round r.neg (r.mantissa * 10 ^ r.exp.toNat) 0
          else Float64.ofRatio r.neg r.mantissa (10 ^ (-r.exp).toNat)
        match v with
        | .inf _ => (v, some .ErrRange)
        | _ => (v, none)

/-! ## Specification-side definitions -/

/-- `Emits s ts es out`: on every command `s` appends the tokens `ts` to `Args` and `es` to
`Env`, changes nothing else, and ends with `out`. -/
def Emits (s : Step) (ts es : List String) (out : Option Failure) : Prop :=
  ∀ cmd : Cmd, s cmd = ({ Args := cmd.Args ++ ts, Env := cmd.Env ++ es }, out)

/-- `Uniform s`: what `s` appends and how it ends do not depend on the command. -/
def Uniform (s : Step) : Prop := ∃ ts es out, Emits s ts es out

/-- The tokens a statement appends to `Args`, read off the empty command. -/
def appended (s : Step) : List String := (s { Args := [], Env := [] }).1.Args

/-- The tokens `LogOptions.adaptCmd` appends to `Args`. -/
def LogOptions.tokens (o : LogOptions) : List String :=
  if o.Level = "" then [] else ["-loglevel", (if o.Repeated then "repeat+" else "") ++ o.Level]

/-- The variables `LogOptions.adaptCmd` appends to `Env`. -/
def LogOptions.env (o : LogOptions) : List String :=
  match o.Color with
  | some true => ["AV_LOG_FORCE_COLOR=1"]
  | some false => ["AV_LOG_FORCE_NOCOLOR=1"]
  | none => []

/-- The tokens `GlobalOptions.adaptCmd` appends to `Args`. -/
def GlobalOptions.tokens (g : GlobalOptions) : List String :=
  ["-hide_banner"]
    ++ (match g.Log with | some l => l.tokens | none => [])
    ++ (match g.Overwrite with | some true => ["-y"] | some false => ["-n"] | none => [])
    ++ (if g.NoStats then ["-nostats"] else [])
    ++ (if g.Report then ["-report"] else [])

/-- The variables `GlobalOptions.adaptCmd` appends to `Env`. -/
def GlobalOptions.env (g : GlobalOptions) : List String :=
  match g.Log with
  | some l => l.env
  | none => []

/-- The token pair `MapOption.adaptCmd` appends. -/
def MapOption.tokens (o : MapOption) : List String :=
  if o.Name = "" then
    ["-map", match o.Stream with
      | some s => Itoa o.InputFileID ++ (":" ++ s.string)
      | none => Itoa o.InputFileID]
  else ["-map", o.Name]

/-- Tokens of an optional integer field: the flag and the decimal text when present. -/
def intTokens (flag : String) (p : Option Int) : List String :=
  match p with
  | some v => [flag, Itoa v]
  | none => []

/-- Tokens of an optional float field: the flag and the text with `prec` decimals. -/
def floatTokens (flag : String) (p : Option Float64) (prec : Nat) : List String :=
  match p with
  | some v => [flag, FormatFloat v prec]
  | none => []

/-- Tokens of a string field: the flag and the text unless the text is empty. -/
def stringTokens (flag : String) (s : String) : List String :=
  if s = "" then [] else [flag, s]

/-- Tokens of an optional `Number` field. -/
def numberTokens (flag : String) (p : Option Number) : List String :=
  match p with
  | some n =>
    match n.string with
    | some t => [flag, t]
    | none => []
  | none => []

/-- The flag of a stream option: the name, then `:` and the stream specifier if any. -/
def StreamOption.flag (o : StreamOption) (name : String) : String :=
  match o.Stream with
  | some s => name ++ (":" ++ s.string)
  | none => name

/-- Tokens of a repeated option: one pair, flag and formatted value, per entry in list
order (nothing for an entry the formatter rejects). -/
def streamTokens (name : String) (fn : Astiffmpeg.Value → Except Failure String)
    (xs : List StreamOption) : List String :=
  xs.flatMap (fun ro =>
    match fn ro.Value with
    | .ok v => [ro.flag name, v]
    | .error _ => [])

/-- The error a repeated option returns when the formatter fails with `e` on entry `idx`. -/
def streamOptionError (flag : String) (idx : Nat) (e : Failure) : Failure :=
  (e.wrap ("astiffmpeg: adapting cmd for stream option " ++ flag ++ " failed")).wrap
    ("astiffmpeg: adapting cmd for " ++ flag ++ " option #" ++ toString idx ++ " failed")

/-- The tokens `ComplexFilterOptions.adaptCmd` appends. -/
def ComplexFilterOptions.tokens (o : ComplexFilterOptions) : List String :=
  if o.chains = [] then [] else ["-filter_complex", String.intercalate "," (renderChains o.chains)]

/-- The variables a statement appends to `Env`, read off the empty command. -/
def appendedEnv (s : Step) : List String := (s { Args := [], Env := [] }).1.Env

/-- How a statement ends, read off the empty command. -/
def outcome (s : Step) : Option Failure := (s { Args := [], Env := [] }).2

/-- The tokens of an `EncodingOptions` with an empty `Customize`, field by field in the
documented order. -/
def encodingTokens (o : EncodingOptions) : List String :=
  intTokens "-ar" o.AudioSamplerate
    ++ intTokens "-ac" o.AudioChannels
    ++ intTokens "-bf" o.BFrames
    ++ streamTokens "-b" fnNumber o.Bitrate
    ++ intTokens "-b_strategy" o.BStrategy
    ++ numberTokens "-bufsize" o.BufSize
    ++ streamTokens "-codec" fnString o.Codec
    ++ stringTokens "-coder" o.Coder
    ++ floatTokens "-cq" o.ConstantQuality 3
    ++ intTokens "-crf" o.CRF
    ++ streamTokens "-filter" fnFilterOptions o.Filters
    ++ floatTokens "-r" o.Framerate 3
    ++ stringTokens "-s" o.FrameSize
    ++ intTokens "-g" o.GOP
    ++ intTokens "-keyint_min" o.KeyintMin
    ++ floatTokens "-level" o.Level 1
    ++ streamTokens "-maxrate" fnNumber o.Maxrate
    ++ streamTokens "-minrate" fnNumber o.Minrate
    ++ stringTokens "-preset" o.Preset
    ++ streamTokens "-profile" fnString o.Profile
    ++ stringTokens "-rc" o.RateControl
    ++ intTokens "-sc_threshold" o.SCThreshold
    ++ stringTokens "-tune" o.Tune
    ++ intTokens "-max_muxing_queue_size" o.MaxMuxingQSize
    ++ intTokens "-hls_time" o.HlsTime
    ++ intTokens "-hls_list_size" o.HlsListSize
    ++ stringTokens "-hls_key_info_file" o.HlsKeyInfoFile
    ++ stringTokens "-hls_segment_filename" o.HlsSegmentFileName
    ++ (if o.RemoveAudio = "y" then ["-an"] else [])

/-- `Appends s ts`: on every command, `s` either goes on having appended exactly `ts` to
`Args`, or fails. -/
def Appends (s : Step) (ts : List String) : Prop :=
  Emits s ts [] none ∨ ∃ ts' f, Emits s ts' [] (some f)

/-- The repeated options of `EncodingOptions`, in emission order. -/
inductive Repeated
  | bitrate
  | codec
  | filters
  | maxrate
  | minrate
  | profile
  deriving DecidableEq

/-- The flag of a repeated option. -/
def Repeated.flag : Repeated → String
  | .bitrate => "-b"
  | .codec => "-codec"
  | .filters => "-filter"
  | .maxrate => "-maxrate"
  | .minrate => "-minrate"
  | .profile => "-profile"

/-- The list a repeated option is stored in. -/
def Repeated.entries : Repeated → EncodingOptions → List StreamOption
  | .bitrate, o => o.Bitrate
  | .codec, o => o.Codec
  | .filters, o => o.Filters
  | .maxrate, o => o.Maxrate
  | .minrate, o => o.Minrate
  | .profile, o => o.Profile

/-- The formatter `adaptCmd` passes for a repeated option. -/
def Repeated.fn : Repeated → Astiffmpeg.Value → Except Failure String
  | .bitrate => fnNumber
  | .codec => fnString
  | .filters => fnFilterOptions
  | .maxrate => fnNumber
  | .minrate => fnNumber
  | .profile => fnString

/-- The name of the dynamic type a repeated option requires, as the error text spells it. -/
def Repeated.typeName : Repeated → String
  | .bitrate => "a Number"
  | .codec => "a string"
  | .filters => "a FilterOptions"
  | .maxrate => "a Number"
  | .minrate => "a Number"
  | .profile => "a string"

/-- Whether a value has the dynamic type a repeated option requires. -/
def Repeated.wellTyped : Repeated → Astiffmpeg.Value → Bool
  | .bitrate, .number _ _ _ _ => true
  | .maxrate, .number _ _ _ _ => true
  | .minrate, .number _ _ _ _ => true
  | .codec, .string _ => true
  | .profile, .string _ => true
  | .filters, .filterOptions _ => true
  | _, _ => false

/-- The repeated options emitted before a given one. -/
def Repeated.earlier : Repeated → List Repeated
  | .bitrate => []
  | .codec => [.bitrate]
  | .filters => [.bitrate, .codec]
  | .maxrate => [.bitrate, .codec, .filters]
  | .minrate => [.bitrate, .codec, .filters, .maxrate]
  | .profile => [.bitrate, .codec, .filters, .maxrate, .minrate]

/-- The tokens of the fields that come before a repeated option in the emission order. -/
def tokensBefore (r : Repeated) (o : EncodingOptions) : List String :=
  let beforeBitrate :=
    intTokens "-ar" o.AudioSamplerate ++ intTokens "-ac" o.AudioChannels
      ++ intTokens "-bf" o.BFrames
  let beforeCodec :=
    beforeBitrate ++ streamTokens "-b" fnNumber o.Bitrate
      ++ intTokens "-b_strategy" o.BStrategy ++ numberTokens "-bufsize" o.BufSize
  let beforeFilters :=
    beforeCodec ++ streamTokens "-codec" fnString o.Codec
      ++ stringTokens "-coder" o.Coder ++ floatTokens "-cq" o.ConstantQuality 3
      ++ intTokens "-crf" o.CRF
  let beforeMaxrate :=
    beforeFilters ++ streamTokens "-filter" fnFilterOptions o.Filters
      ++ floatTokens "-r" o.Framerate 3 ++ stringTokens "-s" o.FrameSize
      ++ intTokens "-g" o.GOP ++ intTokens "-keyint_min" o.KeyintMin
      ++ floatTokens "-level" o.Level 1
  let beforeMinrate := beforeMaxrate ++ streamTokens "-maxrate" fnNumber o.Maxrate
  let beforeProfile :=
    beforeMinrate ++ streamTokens "-minrate" fnNumber o.Minrate
      ++ stringTokens "-preset" o.Preset
  match r with
  | .bitrate => beforeBitrate
  | .codec => beforeCodec
  | .filters => beforeFilters
  | .maxrate => beforeMaxrate
  | .minrate => beforeMinrate
  | .profile => beforeProfile

/-- The text of the error `EncodingOptions.adaptCmd` returns when entry `idx` of a repeated
option is badly typed. -/
def badEntryError (r : Repeated) (idx : Nat) : String :=
  "astiffmpeg: adapting cmd for " ++ r.flag ++ " option #" ++ toString idx
    ++ " failed: astiffmpeg: adapting cmd for stream option " ++ r.flag
    ++ " failed: astiffmpeg: value should be " ++ r.typeName

/-- The text of one chain as the specification words it: every input specifier in brackets,
then the filters joined by `,`, then every output specifier in brackets. -/
def chainText (cf : ComplexFilter) : String :=
  String.join (cf.InputStreams.map (fun i => "[" ++ i.string ++ "]"))
    ++ String.intercalate "," cf.Filters
    ++ String.join (cf.OutputStreams.map (fun o => "[" ++ o.string ++ "]"))

/-- The chain texts that are not the empty string, in declaration order. -/
def chainTexts (fs : List ComplexFilter) : List String :=
  (fs.map chainText).filter (fun v => v ≠ "")

/-- The synthetic chain as the specification words it: `split=N[out0]...[out(N-1)]`. -/
def splitText (n : Int) : String :=
  "split=" ++ Itoa n ++ String.join ((List.range n.toNat).map (fun i => "[out" ++ Itoa i ++ "]"))

/-- The text left when the trailing `0` characters of `s` and then one trailing `.` are
removed. -/
def trimNumeric (s : String) : String :=
  String.mk (trimDotRev (s.data.reverse.dropWhile (fun c => c = '0'))).reverse

/-- The markers `Number.string` puts after the numeric part: the prefix, `i` when binary,
`B` when byte. -/
def Number.markers (n : Number) : String :=
  n.Prefix ++ (if n.BinaryMultiple then "i" else "") ++ (if n.ByteMultiple then "B" else "")

/-- Whether `adaptCmd` renders a `Customize` value: its dynamic type is `int`, `float64` or
`string`. -/
def Value.customizable : Astiffmpeg.Value → Bool
  | .int _ => true
  | .float64 _ => true
  | .string _ => true
  | _ => false

/-- Two `EncodingOptions` values that stand for the same Go value: the fields agree and
`Customize` is the same map, whose entries a `range` statement may visit in another order. -/
def EncodingOptions.sameAs (a b : EncodingOptions) : Prop :=
  { a with Customize := [] } = { b with Customize := [] } ∧ a.Customize.Perm b.Customize

/-- Two `OutputOptions` values that stand for the same Go value. -/
def OutputOptions.sameAs (a b : OutputOptions) : Prop :=
  a.Format = b.Format ∧ a.Map = b.Map ∧
    match a.Encoding, b.Encoding with
    | none, none => True
    | some x, some y => x.sameAs y
    | _, _ => False

/-- Two `Output` values that stand for the same Go value. -/
def Output.sameAs (a b : Output) : Prop :=
  a.Path = b.Path ∧
    match a.Options, b.Options with
    | none, none => True
    | some x, some y => x.sameAs y
    | _, _ => False

/-- The `Customize` map of an output, empty when the output has no encoding options. -/
def Output.customize (o : Output) : List (String × Astiffmpeg.Value) :=
  match o.Options with
  | some opts =>
    match opts.Encoding with
    | some e => e.Customize
    | none => []
  | none => []

/-- The bytes left of a text once a trailing `B` and then a trailing `i` are stripped. -/
def stripMarkers (i : List Byte) : List Byte :=
  trimSuffixByte (trimSuffixByte i 0x42) 0x69

/-- The text of `string(c)` for every byte `c` of `bs`: the characters with those codes. -/
def runeText (bs : List Byte) : String := String.mk (bs.map (fun c => Char.ofNat c.val))

/-- The text that comes back when the text `t` is parsed and the number is formatted:
`string()` of the `Number` that `numberFromString` returns with no error; `none` when the
parse returns an error or panics, or `string()` panics. -/
def roundTrip (t : List Byte) : Option String :=
  match numberFromString strconv.ParseFloat t with
  | .returned n none => n.string
  | _ => none

/-- `strings.ToLower` on a text of ASCII characters. -/
def asciiToLower (s : String) : String := String.mk (s.data.map Char.toLower)

/-- A value of the model that is a `float64`: a zero, or at most 53 significant bits, no bit
below `2^-1074` and a magnitude below `2^1024`; the infinities and the NaN. -/
def Float64.Valid : Float64 → Prop
  | .finite _ m e => m = 0 ∨ (m < 2 ^ 53 ∧ -1074 ≤ e ∧ (bitLength m : Int) + e ≤ 1024)
  | _ => True

/-- The rank of a lower-cased prefix: `k` is 1, `m` 2, `g` 3, `t` 4, `p` 5, any other
text 0. -/
def prefixRank (p : String) : Nat :=
  if p = "k" then 1
  else if p = "m" then 2
  else if p = "g" then 3
  else if p = "t" then 4
  else if p = "p" then 5
  else 0

/-- The base of the multiplier: 1024 when binary, 1000 otherwise. -/
def Number.base (n : Number) : Float64 :=
  if n.BinaryMultiple then .finite false 1024 0 else .finite false 1000 0

/-- A positive finite `float64` without a bit below `2^-1074`. -/
def Float64.PosFinite (x : Float64) : Prop :=
  ∃ (m : Nat) (e : Int), x = .finite false m e ∧ m ≠ 0 ∧ -1074 ≤ e

/-- A positive `float64`: positive and finite, or the positive infinity. -/
def Float64.PosOrInf (x : Float64) : Prop := x = .inf false ∨ x.PosFinite

/-- The base of the multiplier as a whole number. -/
def Number.baseNat (n : Number) : Nat := if n.BinaryMultiple then 1024 else 1000

/-- The tokens the options of an output append, ahead of `-y` and the path. -/
def Output.optionTokens (o : Output) : List String :=
  match o.Options with
  | some opts => appended opts.adaptCmd
  | none => []

/-- The pair of tokens the loop over `Customize` appends for an entry whose value is an
`int`, a `float64` or a `string`. -/
def pairTokens (kv : String × Astiffmpeg.Value) : List String :=
  match kv.2 with
  | .int v => ["-" ++ kv.1, Itoa v]
  | .float64 v => ["-" ++ kv.1, Itoa v.toInt]
  | .string v => ["-" ++ kv.1, v]
  | _ => []

/-- Two argument lists that are the same up to the order of the pass-through pairs of the
`Customize` maps in `maps`, each given in its two visiting orders: equal lists, the pairs of
one of the maps in its two orders, and concatenations of such lists. -/
inductive SameUpToPairOrder
    (maps : List (List (String × Astiffmpeg.Value) × List (String × Astiffmpeg.Value))) :
    List String → List String → Prop
  | same (ts : List String) : SameUpToPairOrder maps ts ts
  | block {l l' : List (String × Astiffmpeg.Value)} (hm : (l, l') ∈ maps) (h : l.Perm l') :
      SameUpToPairOrder maps (l.flatMap pairTokens) (l'.flatMap pairTokens)
  | append {a a' b b' : List String} (h : SameUpToPairOrder maps a a')
      (h' : SameUpToPairOrder maps b b') : SameUpToPairOrder maps (a ++ b) (a' ++ b')

/-- Two statements that end the same way and append the same variables and, up to the order
of the pass-through pairs of `maps`, the same tokens, whatever the command. -/
def Similar (maps : List (List (String × Astiffmpeg.Value) × List (String × Astiffmpeg.Value)))
    (s s' : Step) : Prop :=
  ∃ ts ts' es out, Emits s ts es out ∧ Emits s' ts' es out ∧ SameUpToPairOrder maps ts ts'

/-- The `Customize` maps of two lists of outputs, paired output by output. -/
def customizePairs (outs outs' : List Output) :
    List (List (String × Astiffmpeg.Value) × List (String × Astiffmpeg.Value)) :=
  (outs.zip outs').map (fun p => (p.1.customize, p.2.customize))

/-! ## Lemmas -/

theorem Emits.append (ts : List String) : Emits (Step.ofFn (fun cmd => cmd.append ts)) ts [] none := by
  intro cmd; simp [Step.ofFn, Cmd.append]

theorem Emits.skip : Emits (Step.ofFn id) [] [] none := by
  intro cmd; simp [Step.ofFn]

theorem Emits.args_eq {s : Step} {ts es : List String} {out : Option Failure}
    (h : Emits s ts es out) : appended s = ts := by
  simp [appended, h { Args := [], Env := [] }]

theorem Emits.wrapped {s : Step} {ts es : List String} {out : Option Failure}
    (h : Emits s ts es out) (msg : String) :
    Emits (s.wrapped msg) ts es (out.map (fun f => f.wrap msg)) := by
  intro cmd
  cases out <;> simp [Step.wrapped, h cmd]

theorem Emits.runSteps_nil : Emits (runSteps []) [] [] none := by
  intro cmd; simp [runSteps]

theorem Emits.runSteps_cons {s : Step} {ss : List Step} {ts es ts' es' : List String}
    {out : Option Failure} (h : Emits s ts es none) (h' : Emits (runSteps ss) ts' es' out) :
    Emits (runSteps (s :: ss)) (ts ++ ts') (es ++ es') out := by
  intro cmd
  simp [runSteps, h cmd, h' _, List.append_assoc]

theorem Emits.runSteps_fail {s : Step} {ts es : List String} {f : Failure}
    (h : Emits s ts es (some f)) (ss : List Step) :
    Emits (runSteps (s :: ss)) ts es (some f) := by
  intro cmd
  simp [runSteps, h cmd]

theorem Emits.rangeLoop_nil {α : Type} (body : Nat → α → Step) (idx : Nat) :
    Emits (rangeLoop body idx []) [] [] none := by
  intro cmd; simp [rangeLoop]

theorem Emits.rangeLoop_cons {α : Type} (body : Nat → α → Step) {idx : Nat} {x : α}
    {xs : List α} {ts es ts' es' : List String} {out : Option Failure}
    (h : Emits (body idx x) ts es none) (h' : Emits (rangeLoop body (idx + 1) xs) ts' es' out) :
    Emits (rangeLoop body idx (x :: xs)) (ts ++ ts') (es ++ es') out := by
  intro cmd
  simp [rangeLoop, h cmd, h' _, List.append_assoc]

theorem Emits.rangeLoop_fail {α : Type} (body : Nat → α → Step) {idx : Nat} {x : α}
    {ts es : List String} {f : Failure} (h : Emits (body idx x) ts es (some f)) (xs : List α) :
    Emits (rangeLoop body idx (x :: xs)) ts es (some f) := by
  intro cmd
  simp [rangeLoop, h cmd]

theorem Uniform.steps {ss : List Step} (h : ∀ s ∈ ss, Uniform s) : Uniform (Astiffmpeg.runSteps ss) := by
  induction ss with
  | nil => exact ⟨_, _, _, Emits.runSteps_nil⟩
  | cons s ss ih =>
    obtain ⟨ts, es, out, hs⟩ := h s (List.mem_cons_self _ _)
    obtain ⟨ts', es', out', hss⟩ := ih (fun t ht => h t (List.mem_cons_of_mem _ ht))
    cases out with
    | none => exact ⟨_, _, _, hs.runSteps_cons hss⟩
    | some f => exact ⟨_, _, _, hs.runSteps_fail ss⟩

theorem Uniform.loop {α : Type} {body : Nat → α → Step} (h : ∀ idx x, Uniform (body idx x))
    (idx : Nat) (xs : List α) : Uniform (Astiffmpeg.rangeLoop body idx xs) := by
  induction xs generalizing idx with
  | nil => exact ⟨_, _, _, Emits.rangeLoop_nil body idx⟩
  | cons x xs ih =>
    obtain ⟨ts, es, out, hx⟩ := h idx x
    obtain ⟨ts', es', out', hxs⟩ := ih (idx + 1)
    cases out with
    | none => exact ⟨_, _, _, Emits.rangeLoop_cons body hx hxs⟩
    | some f => exact ⟨_, _, _, Emits.rangeLoop_fail body hx xs⟩

theorem Uniform.wrapped_uniform {s : Step} (h : Uniform s) (msg : String) : Uniform (s.wrapped msg) := by
  obtain ⟨ts, es, out, hs⟩ := h
  exact ⟨_, _, _, hs.wrapped msg⟩

theorem Uniform.ofFn_append (ts : List String) : Uniform (Step.ofFn (fun cmd => cmd.append ts)) :=
  ⟨_, _, _, Emits.append ts⟩

/-- A uniform statement appends `appended s` to `Args`, whatever the command. -/
theorem Uniform.args_append {s : Step} (h : Uniform s) (cmd : Cmd) :
    (s cmd).1.Args = cmd.Args ++ appended s := by
  obtain ⟨ts, es, out, hs⟩ := h
  simp [hs.args_eq, hs cmd]

/-! ### Every emission step is uniform -/

theorem length_pos_iff_ne_empty (s : String) : s.length > 0 ↔ s ≠ "" := by
  cases s with
  | mk l =>
    cases l with
    | nil => simp [String.length]
    | cons c cs => simp [String.length, String.ext_iff]

theorem LogOptions.log_adaptCmd_eq (o : LogOptions) (cmd : Cmd) :
    o.adaptCmd cmd = { Args := cmd.Args ++ o.tokens, Env := cmd.Env ++ o.env } := by
  rcases o with ⟨_ | _ | _, level, rep⟩ <;>
    by_cases h : level = "" <;>
    simp [LogOptions.adaptCmd, LogOptions.tokens, LogOptions.env, Cmd.append, Cmd.appendEnv,
      length_pos_iff_ne_empty, h]

theorem GlobalOptions.global_adaptCmd_eq (g : GlobalOptions) (cmd : Cmd) :
    g.adaptCmd cmd = { Args := cmd.Args ++ g.tokens, Env := cmd.Env ++ g.env } := by
  rcases g with ⟨_ | l, _ | _, _ | _ | _, _ | _⟩ <;>
    simp [GlobalOptions.adaptCmd, GlobalOptions.tokens, GlobalOptions.env, Cmd.append,
      LogOptions.log_adaptCmd_eq]

theorem GlobalOptions.global_adaptCmd_emits (g : GlobalOptions) :
    Emits (Step.ofFn g.adaptCmd) g.tokens g.env none := by
  intro cmd; simp [Step.ofFn, GlobalOptions.global_adaptCmd_eq]

theorem MapOption.mapOption_adaptCmd_eq (o : MapOption) (cmd : Cmd) :
    o.adaptCmd cmd = cmd.append o.tokens := by
  rcases o with ⟨name, id, _ | s⟩ <;> by_cases h : name = "" <;>
    simp [MapOption.adaptCmd, MapOption.tokens, length_pos_iff_ne_empty, h]

theorem Cmd.append_append (cmd : Cmd) (ts ts' : List String) :
    (cmd.append ts).append ts' = cmd.append (ts ++ ts') := by
  simp [Cmd.append]

theorem Cmd.append_nil (cmd : Cmd) : cmd.append [] = cmd := by
  simp [Cmd.append]

theorem MapOptions.mapOptions_adaptCmd_eq (os : MapOptions) (cmd : Cmd) :
    MapOptions.adaptCmd os cmd = cmd.append (os.flatMap MapOption.tokens) := by
  unfold MapOptions.adaptCmd
  induction os generalizing cmd with
  | nil => simp [Cmd.append_nil]
  | cons o os ih =>
    rw [List.foldl_cons, ih, MapOption.mapOption_adaptCmd_eq, Cmd.append_append, List.flatMap_cons]

theorem Emits.of_append {f : Cmd → Cmd} {ts : List String} (h : ∀ cmd, f cmd = cmd.append ts) :
    Emits (Step.ofFn f) ts [] none := by
  intro cmd; simp [Step.ofFn, h, Cmd.append]

/-! ### The tokens of one field -/

theorem stepInt_emits (flag : String) (p : Option Int) :
    Emits (stepInt flag p) (intTokens flag p) [] none := by
  intro cmd; cases p <;> simp [stepInt, Step.ofFn, intTokens, Cmd.append]

theorem stepFloat_emits (flag : String) (p : Option Float64) (prec : Nat) :
    Emits (stepFloat flag p prec) (floatTokens flag p prec) [] none := by
  intro cmd; cases p <;> simp [stepFloat, Step.ofFn, floatTokens, Cmd.append]

theorem stepString_emits (flag s : String) :
    Emits (stepString flag s) (stringTokens flag s) [] none := by
  intro cmd
  by_cases h : s = "" <;>
    simp [stepString, Step.ofFn, stringTokens, Cmd.append, length_pos_iff_ne_empty, h]

theorem trimZerosRev_ne_none {l : List Char} {c : Char} (hc : c ∈ l) (h0 : c ≠ '0') :
    trimZerosRev l ≠ none := by
  induction l with
  | nil => simp at hc
  | cons d ds ih =>
    by_cases hd : d = '0'
    · have : c ∈ ds := by
        rcases List.mem_cons.mp hc with h | h
        · exact absurd (h.trans hd) h0
        · exact h
      simpa [trimZerosRev, hd] using ih this
    · simp [trimZerosRev, hd]

theorem FormatFloat_three_has_nonzero (v : Float64) :
    ∃ c ∈ (FormatFloat v 3).data, c ≠ '0' := by
  cases v with
  | nan => exact ⟨'N', by decide, by decide⟩
  | inf neg => cases neg <;> exact ⟨'I', by decide, by decide⟩
  | finite neg m e => exact ⟨'.', by simp [FormatFloat], by decide⟩

/-- `Number.string` never panics: the text of `FormatFloat` with three decimals holds a
character other than `0`, at which the trimming loop stops. -/
theorem Number.string_ne_none (n : Number) : n.string ≠ none := by
  rcases n with ⟨bin, byte, pfx, v⟩
  cases v <;> simp [Number.string]
  case float64 v =>
    obtain ⟨c, hc, h0⟩ := FormatFloat_three_has_nonzero v
    have := trimZerosRev_ne_none (List.mem_reverse.mpr hc) h0
    split <;> simp_all

theorem Number.string_eq_some (n : Number) : ∃ t, n.string = some t :=
  Option.ne_none_iff_exists'.mp n.string_ne_none

theorem stepBufSize_emits (p : Option Number) :
    Emits (fun cmd =>
      match p with
      | some n =>
        match n.string with
        | some t => (cmd.append ["-bufsize", t], none)
        | none => (cmd, some (.panic "index out of range"))
      | none => (cmd, none)) (numberTokens "-bufsize" p) [] none := by
  intro cmd
  cases p with
  | none => simp [numberTokens]
  | some n =>
    obtain ⟨t, ht⟩ := n.string_eq_some
    simp [numberTokens, ht, Cmd.append]

/-! ### Stream options and repeated options -/

theorem StreamOption.adaptCmd_ok {o : StreamOption} (name : String) {v : String}
    {fn : Astiffmpeg.Value → Except Failure String} (h : fn o.Value = .ok v) :
    Emits (o.adaptCmd name fn) [o.flag name, v] [] none := by
  intro cmd
  cases hs : o.Stream <;> simp [StreamOption.adaptCmd, StreamOption.flag, h, hs, Cmd.append]

theorem StreamOption.adaptCmd_fail {o : StreamOption} (name : String) {e : Failure}
    {fn : Astiffmpeg.Value → Except Failure String} (h : fn o.Value = .error e) :
    Emits (o.adaptCmd name fn) [] []
      (some (e.wrap ("astiffmpeg: adapting cmd for stream option " ++ name ++ " failed"))) := by
  intro cmd
  simp [StreamOption.adaptCmd, h]

theorem StreamOption.streamOption_uniform (o : StreamOption) (name : String)
    (fn : Astiffmpeg.Value → Except Failure String) : Uniform (o.adaptCmd name fn) := by
  cases h : fn o.Value with
  | ok v => exact ⟨_, _, _, StreamOption.adaptCmd_ok name h⟩
  | error e => exact ⟨_, _, _, StreamOption.adaptCmd_fail name h⟩

theorem streamOptionStep_ok (flag : String) {fn : Astiffmpeg.Value → Except Failure String}
    (idx : Nat) {ro : StreamOption} {v : String} (h : fn ro.Value = .ok v) :
    Emits (streamOptionStep flag fn idx ro) [ro.flag flag, v] [] none :=
  (StreamOption.adaptCmd_ok flag h).wrapped _

theorem streamOptionStep_fail (flag : String) {fn : Astiffmpeg.Value → Except Failure String}
    (idx : Nat) {ro : StreamOption} {e : Failure} (h : fn ro.Value = .error e) :
    Emits (streamOptionStep flag fn idx ro) [] [] (some (streamOptionError flag idx e)) :=
  (StreamOption.adaptCmd_fail flag h).wrapped _

theorem streamLoop_ok (flag : String) (fn : Astiffmpeg.Value → Except Failure String)
    (xs : List StreamOption) (h : ∀ ro ∈ xs, ∃ v, fn ro.Value = .ok v) (idx : Nat) :
    Emits (rangeLoop (streamOptionStep flag fn) idx xs) (streamTokens flag fn xs) [] none := by
  induction xs generalizing idx with
  | nil => exact Emits.rangeLoop_nil _ _
  | cons x xs ih =>
    obtain ⟨v, hv⟩ := h x (List.mem_cons_self _ _)
    have hxs := ih (fun ro hro => h ro (List.mem_cons_of_mem _ hro)) (idx + 1)
    have := Emits.rangeLoop_cons (streamOptionStep flag fn) (streamOptionStep_ok flag idx hv) hxs
    simpa [streamTokens, hv] using this

theorem streamLoop_bad (flag : String) (fn : Astiffmpeg.Value → Except Failure String)
    (pre : List StreamOption) (bad : StreamOption) (post : List StreamOption) (e : Failure)
    (hpre : ∀ ro ∈ pre, ∃ v, fn ro.Value = .ok v) (hbad : fn bad.Value = .error e) (idx : Nat) :
    Emits (rangeLoop (streamOptionStep flag fn) idx (pre ++ bad :: post))
      (streamTokens flag fn pre) [] (some (streamOptionError flag (idx + pre.length) e)) := by
  induction pre generalizing idx with
  | nil =>
    have := Emits.rangeLoop_fail (streamOptionStep flag fn)
      (streamOptionStep_fail flag idx hbad) post
    simpa [streamTokens] using this
  | cons x xs ih =>
    obtain ⟨v, hv⟩ := hpre x (List.mem_cons_self _ _)
    have hxs := ih (fun ro hro => hpre ro (List.mem_cons_of_mem _ hro)) (idx + 1)
    have := Emits.rangeLoop_cons (streamOptionStep flag fn) (streamOptionStep_ok flag idx hv) hxs
    have hidx : idx + 1 + xs.length = idx + (xs.length + 1) := by omega
    simpa [streamTokens, hv, hidx] using this

theorem stepStreamOptions_ok (flag : String) (fn : Astiffmpeg.Value → Except Failure String)
    (xs : List StreamOption) (h : ∀ ro ∈ xs, ∃ v, fn ro.Value = .ok v) :
    Emits (stepStreamOptions flag fn xs) (streamTokens flag fn xs) [] none :=
  streamLoop_ok flag fn xs h 0

theorem stepStreamOptions_bad (flag : String) (fn : Astiffmpeg.Value → Except Failure String)
    (pre : List StreamOption) (bad : StreamOption) (post : List StreamOption) (e : Failure)
    (hpre : ∀ ro ∈ pre, ∃ v, fn ro.Value = .ok v) (hbad : fn bad.Value = .error e) :
    Emits (stepStreamOptions flag fn (pre ++ bad :: post)) (streamTokens flag fn pre) []
      (some (streamOptionError flag pre.length e)) := by
  simpa [stepStreamOptions] using streamLoop_bad flag fn pre bad post e hpre hbad 0

/-- A list of stream options either has no entry the formatter rejects or splits at the
first such entry. -/
theorem streamOptions_split (fn : Astiffmpeg.Value → Except Failure String)
    (xs : List StreamOption) :
    (∀ ro ∈ xs, ∃ v, fn ro.Value = .ok v) ∨
    ∃ pre bad post e, xs = pre ++ bad :: post ∧ (∀ ro ∈ pre, ∃ v, fn ro.Value = .ok v) ∧
      fn bad.Value = .error e := by
  induction xs with
  | nil => left; simp
  | cons x xs ih =>
    cases hx : fn x.Value with
    | error e => right; exact ⟨[], x, xs, e, rfl, by simp, hx⟩
    | ok v =>
      rcases ih with h | ⟨pre, bad, post, e, hxs, hpre, hbad⟩
      · left
        intro ro hro
        rcases List.mem_cons.mp hro with h' | h'
        · exact ⟨v, h' ▸ hx⟩
        · exact h ro h'
      · right
        refine ⟨x :: pre, bad, post, e, by simp [hxs], ?_, hbad⟩
        intro ro hro
        rcases List.mem_cons.mp hro with h' | h'
        · exact ⟨v, h' ▸ hx⟩
        · exact hpre ro h'

/-! ### Uniformity of the option groups -/

theorem Emits.uniform {s : Step} {ts es : List String} {out : Option Failure}
    (h : Emits s ts es out) : Uniform s := ⟨ts, es, out, h⟩

theorem Uniform.steps_nil : Uniform (Astiffmpeg.runSteps []) := Emits.runSteps_nil.uniform

theorem Uniform.steps_cons {s : Step} {ss : List Step} (h : Uniform s) (h' : Uniform (Astiffmpeg.runSteps ss)) :
    Uniform (Astiffmpeg.runSteps (s :: ss)) := by
  obtain ⟨ts, es, out, hs⟩ := h
  obtain ⟨ts', es', out', hss⟩ := h'
  cases out with
  | none => exact (hs.runSteps_cons hss).uniform
  | some f => exact (hs.runSteps_fail ss).uniform

theorem stepStreamOptions_uniform (flag : String)
    (fn : Astiffmpeg.Value → Except Failure String) (xs : List StreamOption) :
    Uniform (stepStreamOptions flag fn xs) :=
  Uniform.loop (fun _ ro => (StreamOption.streamOption_uniform ro flag fn).wrapped_uniform _) 0 xs

theorem stepCustomize_uniform (key : String) (value : Astiffmpeg.Value) :
    Uniform (stepCustomize key value) := by
  cases value with
  | int v => exact ⟨["-" ++ key, Itoa v], [], none, fun cmd => by simp [stepCustomize, Cmd.append]⟩
  | float64 v =>
    exact ⟨["-" ++ key, Itoa v.toInt], [], none, fun cmd => by simp [stepCustomize, Cmd.append]⟩
  | string v => exact ⟨["-" ++ key, v], [], none, fun cmd => by simp [stepCustomize, Cmd.append]⟩
  | nil => exact ⟨[], [], some (.panic _), fun cmd => by simp [stepCustomize]; rfl⟩
  | bool v => exact ⟨[], [], some (.panic _), fun cmd => by simp [stepCustomize]; rfl⟩
  | number a b c d => exact ⟨[], [], some (.panic _), fun cmd => by simp [stepCustomize]; rfl⟩
  | filterOptions v => exact ⟨[], [], some (.panic _), fun cmd => by simp [stepCustomize]; rfl⟩
  | other v => exact ⟨[], [], some (.panic _), fun cmd => by simp [stepCustomize]; rfl⟩

theorem stepRemoveAudio_emits (s : String) :
    Emits (Step.ofFn (fun cmd => if s = "y" then cmd.append ["-an"] else cmd))
      (if s = "y" then ["-an"] else []) [] none := by
  intro cmd
  by_cases h : s = "y" <;> simp [Step.ofFn, Cmd.append, h]

theorem EncodingOptions.encoding_uniform (o : EncodingOptions) : Uniform o.adaptCmd := by
  unfold EncodingOptions.adaptCmd
  repeat (first | exact Uniform.steps_nil | (refine Uniform.steps_cons ?_ ?_; rotate_left))
  all_goals first
    | exact (stepInt_emits _ _).uniform
    | exact (stepFloat_emits _ _ _).uniform
    | exact (stepString_emits _ _).uniform
    | exact stepStreamOptions_uniform _ _ _
    | exact (stepBufSize_emits _).uniform
    | exact (stepRemoveAudio_emits _).uniform
    | exact Uniform.loop (fun _ (kv : String × Astiffmpeg.Value) => stepCustomize_uniform kv.1 kv.2) 0 _

theorem OutputOptions.outputOptions_uniform (o : OutputOptions) : Uniform o.adaptCmd := by
  unfold OutputOptions.adaptCmd
  refine Uniform.steps_cons ?_ (Uniform.steps_cons ?_ (Uniform.steps_cons (stepString_emits _ _).uniform Uniform.steps_nil))
  · cases o.Map with
    | none => exact Emits.skip.uniform
    | some m => exact (Emits.of_append (MapOptions.mapOptions_adaptCmd_eq m)).uniform
  · cases o.Encoding with
    | none => exact Emits.skip.uniform
    | some e => exact e.encoding_uniform.wrapped_uniform _

theorem Output.output_uniform (o : Output) : Uniform o.adaptCmd := by
  unfold Output.adaptCmd
  refine Uniform.steps_cons ?_ (Uniform.steps_cons (Uniform.ofFn_append _) Uniform.steps_nil)
  cases o.Options with
  | none => exact Emits.skip.uniform
  | some opts => exact opts.outputOptions_uniform.wrapped_uniform _

theorem DecodingOptions.decoding_uniform (o : DecodingOptions) : Uniform o.adaptCmd := by
  unfold DecodingOptions.adaptCmd
  repeat (first | exact Uniform.steps_nil | (refine Uniform.steps_cons ?_ ?_; rotate_left))
  · by_cases h : o.HardwareAcceleration.length > 0
    · cases hd : o.HardwareAccelerationDevice with
      | none => exact ⟨["-hwaccel", o.HardwareAcceleration], [], none, fun cmd => by
          simp [Step.ofFn, Cmd.append, h, hd]⟩
      | some d =>
        exact ⟨["-hwaccel", o.HardwareAcceleration, "-hwaccel_device", Itoa d], [], none,
          fun cmd => by simp [Step.ofFn, Cmd.append, h, hd]⟩
    · exact ⟨[], [], none, fun cmd => by simp [Step.ofFn, h]⟩
  · exact (stepString_emits "-deint" o.DeinterlacingMode).uniform
  · exact (stepString_emits "-t" o.Duration).uniform
  · exact (stepString_emits "-ss" o.Position).uniform
  · cases hd : o.DropSecondField with
    | none => exact ⟨[], [], none, fun cmd => by simp [Step.ofFn]⟩
    | some b =>
      exact ⟨["-drop_second_field", if b then "1" else "0"], [], none, fun cmd => by
        simp [Step.ofFn, Cmd.append]⟩
  · cases o.Codec with
    | none => exact Emits.skip.uniform
    | some c => exact (StreamOption.streamOption_uniform c _ _).wrapped_uniform _

theorem InputOptions.inputOptions_uniform (o : InputOptions) : Uniform o.adaptCmd := by
  unfold InputOptions.adaptCmd
  cases o.Decoding with
  | none => exact Emits.skip.uniform
  | some d => exact d.decoding_uniform.wrapped_uniform _

theorem Input.input_uniform (i : Input) : Uniform i.adaptCmd := by
  unfold Input.adaptCmd
  refine Uniform.steps_cons ?_ (Uniform.steps_cons (Uniform.ofFn_append _) Uniform.steps_nil)
  cases i.Options with
  | none => exact Emits.skip.uniform
  | some o => exact o.inputOptions_uniform.wrapped_uniform _

theorem ComplexFilterOptions.complex_adaptCmd_emits (o : ComplexFilterOptions) :
    Emits o.adaptCmd o.tokens [] none := by
  intro cmd
  by_cases h : o.chains = [] <;>
    simp [ComplexFilterOptions.adaptCmd, ComplexFilterOptions.tokens, Cmd.append, h,
      List.length_pos]

theorem Emits.env_eq {s : Step} {ts es : List String} {out : Option Failure}
    (h : Emits s ts es out) : appendedEnv s = es := by
  simp [appendedEnv, h { Args := [], Env := [] }]

theorem Emits.outcome_eq {s : Step} {ts es : List String} {out : Option Failure}
    (h : Emits s ts es out) : outcome s = out := by
  simp [outcome, h { Args := [], Env := [] }]

theorem Uniform.emits_appended {s : Step} (h : Uniform s) :
    Emits s (appended s) (appendedEnv s) (outcome s) := by
  obtain ⟨ts, es, out, hs⟩ := h
  rw [hs.args_eq, hs.env_eq, hs.outcome_eq]
  exact hs

theorem eachLoop_ok {α : Type} (kind : String) (adapt : α → Step) (xs : List α)
    (hu : ∀ x ∈ xs, Uniform (adapt x)) (hok : ∀ x ∈ xs, outcome (adapt x) = none) (idx : Nat) :
    Emits (rangeLoop (eachStep kind adapt) idx xs) (xs.flatMap (fun x => appended (adapt x)))
      (xs.flatMap (fun x => appendedEnv (adapt x))) none := by
  induction xs generalizing idx with
  | nil => exact Emits.rangeLoop_nil _ _
  | cons x xs ih =>
    have hx := (hu x (List.mem_cons_self _ _)).emits_appended
    rw [hok x (List.mem_cons_self _ _)] at hx
    have hxs := ih (fun y hy => hu y (List.mem_cons_of_mem _ hy))
      (fun y hy => hok y (List.mem_cons_of_mem _ hy)) (idx + 1)
    have hx' : Emits (eachStep kind adapt idx x) _ _ _ := hx.wrapped _
    have := Emits.rangeLoop_cons (eachStep kind adapt) hx' hxs
    simpa using this

theorem stepEach_ok {α : Type} (kind : String) (adapt : α → Step) (xs : List α)
    (hu : ∀ x ∈ xs, Uniform (adapt x)) (hok : ∀ x ∈ xs, outcome (adapt x) = none) :
    Emits (stepEach kind adapt xs) (xs.flatMap (fun x => appended (adapt x)))
      (xs.flatMap (fun x => appendedEnv (adapt x))) none :=
  eachLoop_ok kind adapt xs hu hok 0

theorem complexStep_emits (c : ComplexFilterOptions) :
    Emits (Step.ofFn (fun cmd => (c.adaptCmd cmd).1)) c.tokens [] none := by
  intro cmd
  simp [Step.ofFn, c.complex_adaptCmd_emits cmd]

/-- `BuildCmd` on inputs and outputs none of which fails. -/
theorem BuildCmd_ok (binaryPath : String) (env : List String) (g : GlobalOptions)
    (ins : List Input) (c : ComplexFilterOptions) (outs : List Output)
    (hin : ∀ i ∈ ins, outcome i.adaptCmd = none)
    (hout : ∀ o ∈ outs, outcome o.adaptCmd = none) :
    BuildCmd binaryPath env g ins c outs =
      ({ Args := [binaryPath] ++ (g.tokens ++ (ins.flatMap (fun i => appended i.adaptCmd)
            ++ (c.tokens ++ (outs.flatMap (fun o => appended o.adaptCmd) ++ [])))),
         Env := env ++ (g.env ++ (ins.flatMap (fun i => appendedEnv i.adaptCmd)
            ++ ([] ++ (outs.flatMap (fun o => appendedEnv o.adaptCmd) ++ [])))) }, none) :=
  Emits.runSteps_cons g.global_adaptCmd_emits
    (Emits.runSteps_cons
      (stepEach_ok "input" Input.adaptCmd ins (fun i _ => i.input_uniform) hin)
      (Emits.runSteps_cons (complexStep_emits c)
        (Emits.runSteps_cons
          (stepEach_ok "output" Output.adaptCmd outs (fun o _ => o.output_uniform) hout)
          Emits.runSteps_nil))) { Args := [binaryPath], Env := env }

theorem Input.input_bare (p : String) :
    Emits (Input.adaptCmd { Path := p }) ["-i", p] [] none :=
  Emits.runSteps_cons Emits.skip (Emits.runSteps_cons (Emits.append ["-i", p]) Emits.runSteps_nil)

theorem Output.output_bare (q : String) :
    Emits (Output.adaptCmd { Path := q }) ["-y", q] [] none :=
  Emits.runSteps_cons Emits.skip (Emits.runSteps_cons (Emits.append ["-y", q]) Emits.runSteps_nil)

theorem BuildCmd_bare (binaryPath : String) (env : List String) (ins outs : List String) :
    BuildCmd binaryPath env {} (ins.map (fun p => { Path := p })) {}
        (outs.map (fun q => { Path := q })) =
      ({ Args := [binaryPath, "-hide_banner"] ++ ins.flatMap (fun p => ["-i", p])
            ++ outs.flatMap (fun q => ["-y", q]),
         Env := env }, none) := by
  have hi : ∀ p : String, appended (Input.adaptCmd { Path := p }) = ["-i", p] :=
    fun p => (Input.input_bare p).args_eq
  have ho : ∀ q : String, appended (Output.adaptCmd { Path := q }) = ["-y", q] :=
    fun q => (Output.output_bare q).args_eq
  have hie : ∀ p : String, appendedEnv (Input.adaptCmd { Path := p }) = [] :=
    fun p => (Input.input_bare p).env_eq
  have hoe : ∀ q : String, appendedEnv (Output.adaptCmd { Path := q }) = [] :=
    fun q => (Output.output_bare q).env_eq
  rw [BuildCmd_ok]
  · have hg : GlobalOptions.tokens {} = ["-hide_banner"] := by decide
    have hge : GlobalOptions.env {} = [] := by decide
    have hc : ComplexFilterOptions.tokens {} = [] := by decide
    simp [List.flatMap_map, hi, ho, hie, hoe, hg, hge, hc]
  · intro i h
    obtain ⟨p, -, rfl⟩ := List.mem_map.mp h
    exact (Input.input_bare p).outcome_eq
  · intro o h
    obtain ⟨q, -, rfl⟩ := List.mem_map.mp h
    exact (Output.output_bare q).outcome_eq

theorem Emits.appends {s : Step} {ts : List String} (h : Emits s ts [] none) : Appends s ts :=
  Or.inl h

theorem Appends.nil : Appends (runSteps []) [] := Emits.runSteps_nil.appends

theorem Appends.cons {s : Step} {ss : List Step} {ts ts' : List String} (h : Appends s ts)
    (h' : Appends (runSteps ss) ts') : Appends (runSteps (s :: ss)) (ts ++ ts') := by
  rcases h with h | ⟨us, f, h⟩
  · rcases h' with h' | ⟨us', f', h'⟩
    · exact Or.inl (by simpa using Emits.runSteps_cons h h')
    · exact Or.inr ⟨ts ++ us', f', by simpa using Emits.runSteps_cons h h'⟩
  · exact Or.inr ⟨us, f, Emits.runSteps_fail h ss⟩

theorem Appends.result {s : Step} {ts : List String} (h : Appends s ts) (cmd : Cmd)
    (hok : (s cmd).2 = none) : s cmd = (cmd.append ts, none) := by
  rcases h with h | ⟨us, f, h⟩
  · simp [h cmd, Cmd.append]
  · simp [h cmd] at hok

theorem stepStreamOptions_appends (flag : String)
    (fn : Astiffmpeg.Value → Except Failure String) (xs : List StreamOption) :
    Appends (stepStreamOptions flag fn xs) (streamTokens flag fn xs) := by
  rcases streamOptions_split fn xs with h | ⟨pre, bad, post, e, rfl, hpre, hbad⟩
  · exact Or.inl (stepStreamOptions_ok flag fn xs h)
  · exact Or.inr ⟨_, _, stepStreamOptions_bad flag fn pre bad post e hpre hbad⟩

/-- A uniform statement is known everywhere once it is evaluated on the empty command. -/
theorem Uniform.eval_empty {s : Step} (h : Uniform s) {ts : List String} {out : Option Failure}
    (ha : appended s = ts) (he : appendedEnv s = []) (ho : outcome s = out) (cmd : Cmd) :
    s cmd = (cmd.append ts, out) := by
  have := h.emits_appended cmd
  rw [ha, he, ho] at this
  simpa [Cmd.append] using this

theorem Appends.congr_tokens {s : Step} {ts us : List String} (h : Appends s ts) (e : ts = us) :
    Appends s us := e ▸ h

theorem EncodingOptions.adaptCmd_appends (o : EncodingOptions) (hc : o.Customize = []) :
    Appends o.adaptCmd (encodingTokens o) := by
  have key :=
    (Appends.cons (stepInt_emits "-ar" o.AudioSamplerate).appends
    (Appends.cons (stepInt_emits "-ac" o.AudioChannels).appends
    (Appends.cons (stepInt_emits "-bf" o.BFrames).appends
    (Appends.cons (stepStreamOptions_appends "-b" fnNumber o.Bitrate)
    (Appends.cons (stepInt_emits "-b_strategy" o.BStrategy).appends
    (Appends.cons (stepBufSize_emits o.BufSize).appends
    (Appends.cons (stepStreamOptions_appends "-codec" fnString o.Codec)
    (Appends.cons (stepString_emits "-coder" o.Coder).appends
    (Appends.cons (stepFloat_emits "-cq" o.ConstantQuality 3).appends
    (Appends.cons (stepInt_emits "-crf" o.CRF).appends
    (Appends.cons (stepStreamOptions_appends "-filter" fnFilterOptions o.Filters)
    (Appends.cons (stepFloat_emits "-r" o.Framerate 3).appends
    (Appends.cons (stepString_emits "-s" o.FrameSize).appends
    (Appends.cons (stepInt_emits "-g" o.GOP).appends
    (Appends.cons (stepInt_emits "-keyint_min" o.KeyintMin).appends
    (Appends.cons (stepFloat_emits "-level" o.Level 1).appends
    (Appends.cons (stepStreamOptions_appends "-maxrate" fnNumber o.Maxrate)
    (Appends.cons (stepStreamOptions_appends "-minrate" fnNumber o.Minrate)
    (Appends.cons (stepString_emits "-preset" o.Preset).appends
    (Appends.cons (stepStreamOptions_appends "-profile" fnString o.Profile)
    (Appends.cons (stepString_emits "-rc" o.RateControl).appends
    (Appends.cons (stepInt_emits "-sc_threshold" o.SCThreshold).appends
    (Appends.cons (stepString_emits "-tune" o.Tune).appends
    (Appends.cons (stepInt_emits "-max_muxing_queue_size" o.MaxMuxingQSize).appends
    (Appends.cons (stepInt_emits "-hls_time" o.HlsTime).appends
    (Appends.cons (stepInt_emits "-hls_list_size" o.HlsListSize).appends
    (Appends.cons (stepString_emits "-hls_key_info_file" o.HlsKeyInfoFile).appends
    (Appends.cons (stepString_emits "-hls_segment_filename" o.HlsSegmentFileName).appends
    (Appends.cons (Emits.rangeLoop_nil (fun _ (kv : String × Astiffmpeg.Value) => stepCustomize kv.1 kv.2) 0).appends
    (Appends.cons (stepRemoveAudio_emits o.RemoveAudio).appends
    Appends.nil))))))))))))))))))))))))))))))
  unfold EncodingOptions.adaptCmd
  rw [hc]
  refine Appends.congr_tokens key ?_
  simp [encodingTokens]

theorem Repeated.fn_ok (r : Repeated) (v : Astiffmpeg.Value) (h : r.wellTyped v = true) :
    ∃ t, r.fn v = .ok t := by
  cases r <;> cases v <;> simp [Repeated.wellTyped] at h <;>
    first
    | exact ⟨_, rfl⟩
    | (rename_i bin byte pfx val
       obtain ⟨t, ht⟩ := Number.string_eq_some
         { BinaryMultiple := bin, ByteMultiple := byte, Prefix := pfx, Value := val }
       exact ⟨t, by simp [Repeated.fn, fnNumber, ht]⟩)

theorem Repeated.fn_bad (r : Repeated) (v : Astiffmpeg.Value) (h : r.wellTyped v = false) :
    r.fn v = .error (.error ("astiffmpeg: value should be " ++ r.typeName)) := by
  cases r <;> cases v <;> simp [Repeated.wellTyped] at h <;> rfl

theorem streamOptionError_text (r : Repeated) (idx : Nat) :
    streamOptionError r.flag idx (.error ("astiffmpeg: value should be " ++ r.typeName))
      = .error (badEntryError r idx) := by
  have e1 : " failed: astiffmpeg: adapting cmd for stream option " =
      " failed" ++ (": " ++ "astiffmpeg: adapting cmd for stream option ") := by decide
  have e2 : " failed: astiffmpeg: value should be " =
      " failed" ++ (": " ++ "astiffmpeg: value should be ") := by decide
  simp only [streamOptionError, Failure.wrap, badEntryError, e1, e2, String.append_assoc]

theorem Emits.cons_ok {s : Step} {ss : List Step} {ts ts' : List String} {out : Option Failure}
    (h : Emits s ts [] none) (h' : Emits (runSteps ss) ts' [] out) :
    Emits (runSteps (s :: ss)) (ts ++ ts') [] out := by
  simpa using Emits.runSteps_cons h h'

theorem Emits.congr {s : Step} {ts us : List String} {out : Option Failure}
    (h : Emits s ts [] out) (e : ts = us) : Emits s us [] out := e ▸ h

theorem Emits.eval {s : Step} {ts : List String} {out : Option Failure}
    (h : Emits s ts [] out) (cmd : Cmd) : s cmd = (cmd.append ts, out) := by
  simp [h cmd, Cmd.append]

theorem stepStreamOptions_wellTyped (r : Repeated) (xs : List StreamOption)
    (h : ∀ ro ∈ xs, r.wellTyped ro.Value = true) :
    Emits (stepStreamOptions r.flag r.fn xs) (streamTokens r.flag r.fn xs) [] none :=
  stepStreamOptions_ok r.flag r.fn xs (fun ro hro => r.fn_ok ro.Value (h ro hro))

theorem stepStreamOptions_badlyTyped (r : Repeated) (pre : List StreamOption)
    (bad : StreamOption) (post : List StreamOption)
    (hpre : ∀ ro ∈ pre, r.wellTyped ro.Value = true) (hbad : r.wellTyped bad.Value = false) :
    Emits (stepStreamOptions r.flag r.fn (pre ++ bad :: post)) (streamTokens r.flag r.fn pre) []
      (some (.error (badEntryError r pre.length))) := by
  rw [← streamOptionError_text]
  exact stepStreamOptions_bad r.flag r.fn pre bad post _
    (fun ro hro => r.fn_ok ro.Value (hpre ro hro)) (r.fn_bad bad.Value hbad)

theorem join_cons (s : String) (ss : List String) :
    String.join (s :: ss) = s ++ String.join ss := by
  apply String.ext
  simp [String.join_eq]

theorem foldl_append_eq {α : Type} (f : α → String) (xs : List α) (init : String) :
    xs.foldl (fun v x => v ++ f x) init = init ++ String.join (xs.map f) := by
  induction xs generalizing init with
  | nil => simp [String.join]
  | cons x xs ih => rw [List.foldl_cons, ih, List.map_cons, join_cons, String.append_assoc]

theorem ComplexFilter.render_eq (cf : ComplexFilter) : cf.render = chainText cf := by
  simp [ComplexFilter.render, chainText, foldl_append_eq]

theorem splitChain_eq (n : Int) : splitChain n = splitText n := by
  simp [splitChain, splitText, foldl_append_eq]

theorem length_ne_zero_iff (s : String) : s.length ≠ 0 ↔ s ≠ "" := by
  rw [← length_pos_iff_ne_empty]; omega

theorem renderLoop_eq (fs : List ComplexFilter) (acc : List String) :
    fs.foldl (fun vs cf =>
      let v := cf.render
      if v.length ≠ 0 then vs ++ [v] else vs) acc = acc ++ chainTexts fs := by
  induction fs generalizing acc with
  | nil => simp [chainTexts]
  | cons cf fs ih =>
    rw [List.foldl_cons, ih]
    by_cases h : chainText cf = ""
    · simp [chainTexts, ComplexFilter.render_eq, h]
    · simp [chainTexts, ComplexFilter.render_eq, h, length_ne_zero_iff]

theorem renderChains_eq (fs : List ComplexFilter) : renderChains fs = chainTexts fs := by
  unfold renderChains
  rw [renderLoop_eq]
  simp

theorem chainTexts_append (fs gs : List ComplexFilter) :
    chainTexts (fs ++ gs) = chainTexts fs ++ chainTexts gs := by
  simp [chainTexts]

theorem splitText_ne_empty (n : Int) : splitText n ≠ "" := by
  intro h
  have := congrArg String.length h
  simp only [splitText, String.length_append] at this
  have h6 : "split=".length = 6 := by decide
  have h0 : ("" : String).length = 0 := by decide
  omega

theorem chainText_split (n : Int) : chainText { Filters := [splitChain n] } = splitText n := by
  simp [chainText, splitChain_eq, String.join, String.intercalate, String.intercalate.go]

theorem chainTexts_split (n : Int) : chainTexts [{ Filters := [splitChain n] }] = [splitText n] := by
  simp [chainTexts, chainText_split, splitText_ne_empty]

theorem ComplexFilterOptions.adaptCmd_with_split (o : ComplexFilterOptions) (n : Int)
    (cmd : Cmd) (hn : o.OutputNum = some n) :
    o.adaptCmd cmd =
      (cmd.append ["-filter_complex",
        String.intercalate "," (chainTexts o.ComplexFilters ++ [splitText n])], none) := by
  have hc : o.chains = o.ComplexFilters ++ [{ Filters := [splitChain n] }] := by
    simp [ComplexFilterOptions.chains, hn]
  simp [ComplexFilterOptions.adaptCmd, hc, renderChains_eq, chainTexts_append, chainTexts_split]

theorem ComplexFilterOptions.adaptCmd_without_split (o : ComplexFilterOptions) (cmd : Cmd)
    (hn : o.OutputNum = none) (hne : o.ComplexFilters ≠ []) :
    o.adaptCmd cmd =
      (cmd.append ["-filter_complex", String.intercalate "," (chainTexts o.ComplexFilters)],
        none) := by
  have hc : o.chains = o.ComplexFilters := by simp [ComplexFilterOptions.chains, hn]
  simp [ComplexFilterOptions.adaptCmd, hc, renderChains_eq, List.length_pos, hne]

/-- A uniform statement ends the same way on every command. -/
theorem Uniform.outcome_everywhere {s : Step} (h : Uniform s) (cmd : Cmd) : (s cmd).2 = outcome s := by
  simp [h.emits_appended cmd]

theorem trimZerosRev_eq_dropWhile {l : List Char} (h : trimZerosRev l ≠ none) :
    trimZerosRev l = some (l.dropWhile (fun c => c = '0')) := by
  induction l with
  | nil => simp [trimZerosRev] at h
  | cons c cs ih =>
    by_cases hc : c = '0'
    · simp [trimZerosRev, hc] at h ⊢
      exact ih h
    · simp [trimZerosRev, hc]

theorem Number.string_float64 (n : Number) (v : Float64) (h : n.Value = .float64 v) :
    n.string = some (trimNumeric (FormatFloat v 3) ++ n.markers) := by
  obtain ⟨c, hc, h0⟩ := FormatFloat_three_has_nonzero v
  have hne := trimZerosRev_ne_none (List.mem_reverse.mpr hc) h0
  simp [Number.string, h, trimZerosRev_eq_dropWhile hne, trimNumeric, Number.markers]

theorem stepCustomize_panics (key : String) (value : Astiffmpeg.Value)
    (h : value.customizable = false) :
    ∃ msg, Emits (stepCustomize key value) [] [] (some (.panic msg)) := by
  cases value <;> simp [Value.customizable] at h <;>
    exact ⟨_, fun cmd => by simp [stepCustomize]; rfl⟩

theorem eachLoop_fail {α : Type} (kind : String) (adapt : α → Step) (pre : List α) (bad : α)
    (post : List α) (f : Failure) (hu : ∀ x, Uniform (adapt x))
    (hpre : ∀ x ∈ pre, outcome (adapt x) = none) (hbad : outcome (adapt bad) = some f)
    (idx : Nat) :
    Emits (rangeLoop (eachStep kind adapt) idx (pre ++ bad :: post))
      (pre.flatMap (fun x => appended (adapt x)) ++ appended (adapt bad))
      (pre.flatMap (fun x => appendedEnv (adapt x)) ++ appendedEnv (adapt bad))
      (some (f.wrap ("astiffmpeg: adapting cmd for " ++ kind ++ " #"
        ++ toString (idx + pre.length) ++ " failed"))) := by
  induction pre generalizing idx with
  | nil =>
    have hx := (hu bad).emits_appended
    rw [hbad] at hx
    have hx' : Emits (eachStep kind adapt idx bad) _ _ _ := hx.wrapped _
    simpa using Emits.rangeLoop_fail (eachStep kind adapt) hx' post
  | cons x xs ih =>
    have hx := (hu x).emits_appended
    rw [hpre x (List.mem_cons_self _ _)] at hx
    have hx' : Emits (eachStep kind adapt idx x) _ _ _ := hx.wrapped _
    have hxs := ih (fun y hy => hpre y (List.mem_cons_of_mem _ hy)) (idx + 1)
    have := Emits.rangeLoop_cons (eachStep kind adapt) hx' hxs
    have hidx : idx + 1 + xs.length = idx + (xs.length + 1) := by omega
    simpa [hidx] using this

theorem stepEach_fail {α : Type} (kind : String) (adapt : α → Step) (pre : List α) (bad : α)
    (post : List α) (f : Failure) (hu : ∀ x, Uniform (adapt x))
    (hpre : ∀ x ∈ pre, outcome (adapt x) = none) (hbad : outcome (adapt bad) = some f) :
    Emits (stepEach kind adapt (pre ++ bad :: post))
      (pre.flatMap (fun x => appended (adapt x)) ++ appended (adapt bad))
      (pre.flatMap (fun x => appendedEnv (adapt x)) ++ appendedEnv (adapt bad))
      (some (f.wrap ("astiffmpeg: adapting cmd for " ++ kind ++ " #"
        ++ toString pre.length ++ " failed"))) := by
  simpa [stepEach] using eachLoop_fail kind adapt pre bad post f hu hpre hbad 0

theorem Uniform.prefix_args {s : Step} (h : Uniform s) (cmd : Cmd) :
    cmd.Args <+: (s cmd).1.Args := by
  rw [h.args_append cmd]
  exact List.prefix_append _ _

theorem BuildCmd_input_fails (binaryPath : String) (env : List String) (g : GlobalOptions)
    (pre : List Input) (bad : Input) (post : List Input) (c : ComplexFilterOptions)
    (outs : List Output) (f : Failure)
    (hpre : ∀ i ∈ pre, outcome i.adaptCmd = none) (hbad : outcome bad.adaptCmd = some f) :
    (BuildCmd binaryPath env g (pre ++ bad :: post) c outs).1.Args =
        [binaryPath] ++ g.tokens ++ pre.flatMap (fun i => appended i.adaptCmd)
          ++ appended bad.adaptCmd ∧
    (BuildCmd binaryPath env g (pre ++ bad :: post) c outs).2 =
        some (f.wrap ("astiffmpeg: adapting cmd for input #" ++ toString pre.length
          ++ " failed")) := by
  have h := Emits.runSteps_cons g.global_adaptCmd_emits
    (Emits.runSteps_fail
      (stepEach_fail "input" Input.adaptCmd pre bad post f (fun i => i.input_uniform) hpre hbad)
      [Step.ofFn (fun cmd => (c.adaptCmd cmd).1), stepEach "output" Output.adaptCmd outs])
    { Args := [binaryPath], Env := env }
  simp only [BuildCmd, h]
  simp

theorem BuildCmd_output_fails (binaryPath : String) (env : List String) (g : GlobalOptions)
    (ins : List Input) (c : ComplexFilterOptions) (pre : List Output) (bad : Output)
    (post : List Output) (f : Failure)
    (hin : ∀ i ∈ ins, outcome i.adaptCmd = none)
    (hpre : ∀ o ∈ pre, outcome o.adaptCmd = none) (hbad : outcome bad.adaptCmd = some f) :
    (BuildCmd binaryPath env g ins c (pre ++ bad :: post)).1.Args =
        [binaryPath] ++ g.tokens ++ ins.flatMap (fun i => appended i.adaptCmd) ++ c.tokens
          ++ pre.flatMap (fun o => appended o.adaptCmd) ++ appended bad.adaptCmd ∧
    (BuildCmd binaryPath env g ins c (pre ++ bad :: post)).2 =
        some (f.wrap ("astiffmpeg: adapting cmd for output #" ++ toString pre.length
          ++ " failed")) := by
  have h := Emits.runSteps_cons g.global_adaptCmd_emits
    (Emits.runSteps_cons
      (stepEach_ok "input" Input.adaptCmd ins (fun i _ => i.input_uniform) hin)
      (Emits.runSteps_cons (complexStep_emits c)
        (Emits.runSteps_fail
          (stepEach_fail "output" Output.adaptCmd pre bad post f (fun o => o.output_uniform)
            hpre hbad) [])))
    { Args := [binaryPath], Env := env }
  simp only [BuildCmd, h]
  simp

theorem perm_eq_of_length_le_one {α : Type} {l l' : List α} (h : l.Perm l')
    (hl : l.length ≤ 1) : l = l' := by
  match l, hl with
  | [], _ => exact (List.nil_perm.mp h).symm
  | [a], _ => exact List.singleton_perm.mp h

theorem EncodingOptions.encoding_eq_of_sameAs {a b : EncodingOptions} (h : a.sameAs b)
    (hl : a.Customize.length ≤ 1) : a = b := by
  obtain ⟨hf, hp⟩ := h
  have hc := perm_eq_of_length_le_one hp hl
  cases a; cases b
  simp only [EncodingOptions.mk.injEq] at hf ⊢
  simp_all

theorem Output.output_eq_of_sameAs {a b : Output} (h : a.sameAs b) (hl : a.customize.length ≤ 1) :
    a = b := by
  rcases a with ⟨_ | ⟨ea, fa, ma⟩, pa⟩ <;> rcases b with ⟨_ | ⟨eb, fb, mb⟩, pb⟩ <;>
    simp [Output.sameAs, OutputOptions.sameAs] at h ⊢
  · exact h
  · obtain ⟨hp, hf, hm, he⟩ := h
    refine ⟨⟨?_, hf, hm⟩, hp⟩
    cases ea <;> cases eb <;> simp at he ⊢
    exact EncodingOptions.encoding_eq_of_sameAs he (by simpa [Output.customize] using hl)

theorem outputs_eq_of_sameAs {outs outs' : List Output}
    (h : List.Forall₂ Output.sameAs outs outs')
    (hl : ∀ o ∈ outs, o.customize.length ≤ 1) : outs = outs' := by
  induction h with
  | nil => rfl
  | cons hab _ ih =>
    rw [Output.output_eq_of_sameAs hab (hl _ (List.mem_cons_self _ _)),
      ih (fun o ho => hl o (List.mem_cons_of_mem _ ho))]

theorem numberFromString_eq (ParseFloat : List Byte → Float64 × Option NumError)
    (i : List Byte) :
    numberFromString ParseFloat i =
      numberFromRest ParseFloat (hasSuffixByte (trimSuffixByte i 0x42) 0x69)
        (hasSuffixByte i 0x42) (stripMarkers i) := rfl

theorem numberFromRest_panics_iff (ParseFloat : List Byte → Float64 × Option NumError)
    (bin byte : Bool) (bs : List Byte) :
    (∃ msg, numberFromRest ParseFloat bin byte bs = .panicked msg) ↔ bs = [] := by
  cases h : bs.getLast? with
  | none =>
    have : bs = [] := by cases bs <;> simp_all
    simp [numberFromRest, this]
  | some c =>
    have hne : bs ≠ [] := by rintro rfl; simp at h
    simp only [numberFromRest, h, hne, iff_false]
    rintro ⟨msg, hm⟩
    split at hm <;> simp at hm

theorem concat_eq_singleton_iff (l : List Byte) (d c : Byte) :
    l ++ [d] = [c] ↔ l = [] ∧ d = c := by
  constructor
  · intro h
    have h1 := congrArg List.length h
    have hl : l = [] := by
      cases l with
      | nil => rfl
      | cons x xs => simp at h1
    subst hl
    simpa using h
  · rintro ⟨rfl, rfl⟩; rfl

theorem trimSuffixByte_concat_self (l : List Byte) (c : Byte) :
    trimSuffixByte (l ++ [c]) c = l := by
  simp [trimSuffixByte, hasSuffixByte]

theorem trimSuffixByte_concat_ne (l : List Byte) {d c : Byte} (h : d ≠ c) :
    trimSuffixByte (l ++ [d]) c = l ++ [d] := by
  simp [trimSuffixByte, hasSuffixByte, h]

theorem trimSuffixByte_eq_nil_iff (bs : List Byte) (c : Byte) :
    trimSuffixByte bs c = [] ↔ bs = [] ∨ bs = [c] := by
  rcases List.eq_nil_or_concat bs with rfl | ⟨l, d, rfl⟩
  · simp [trimSuffixByte, hasSuffixByte]
  · rw [List.concat_eq_append]
    by_cases hd : d = c
    · subst hd
      rw [trimSuffixByte_concat_self, concat_eq_singleton_iff]
      simp
    · rw [trimSuffixByte_concat_ne l hd, concat_eq_singleton_iff]
      simp [hd]

theorem stripMarkers_eq_nil_iff (bs : List Byte) :
    stripMarkers bs = [] ↔
      bs = [] ∨ bs = [0x42] ∨ bs = [0x69] ∨ bs = [0x69, 0x42] := by
  unfold stripMarkers
  rcases List.eq_nil_or_concat bs with rfl | ⟨l, d, rfl⟩
  · simp [trimSuffixByte, hasSuffixByte]
  · rw [List.concat_eq_append]
    by_cases hd : d = 0x42
    · subst hd
      rw [trimSuffixByte_concat_self, trimSuffixByte_eq_nil_iff, concat_eq_singleton_iff,
        concat_eq_singleton_iff]
      have h2 : l ++ [(0x42 : Byte)] = [0x69, 0x42] ↔ l = [0x69] := by
        rw [show ([0x69, 0x42] : List Byte) = [0x69] ++ [0x42] from rfl]
        exact List.append_left_inj _
      rw [h2]
      simp
    · rw [trimSuffixByte_concat_ne l hd, trimSuffixByte_eq_nil_iff, concat_eq_singleton_iff,
        concat_eq_singleton_iff]
      have h2 : ¬ l ++ [d] = [0x69, 0x42] := by
        rw [show ([0x69, 0x42] : List Byte) = [0x69] ++ [0x42] from rfl]
        intro h
        exact hd (by simpa using (List.append_inj' h rfl).2)
      simp [hd, h2]

theorem trimSuffixByte_append (bs : List Byte) (c : Byte) :
    bs = trimSuffixByte bs c ++ (if hasSuffixByte bs c then [c] else []) := by
  rcases List.eq_nil_or_concat bs with rfl | ⟨l, d, rfl⟩
  · simp [trimSuffixByte, hasSuffixByte]
  · rw [List.concat_eq_append]
    by_cases hd : d = c
    · subst hd
      simp [trimSuffixByte, hasSuffixByte]
    · simp [trimSuffixByte, hasSuffixByte, hd]

theorem text_eq_stripped (i : List Byte) :
    i = stripMarkers i
      ++ (if hasSuffixByte (trimSuffixByte i 0x42) 0x69 then [0x69] else [])
      ++ (if hasSuffixByte i 0x42 then [0x42] else []) := by
  have h1 := trimSuffixByte_append i 0x42
  have h2 := trimSuffixByte_append (trimSuffixByte i 0x42) 0x69
  simp only [stripMarkers]
  rw [← h2, ← h1]

theorem getLast?_eq_some_append {bs : List Byte} {c : Byte} (h : bs.getLast? = some c) :
    bs = bs.dropLast ++ [c] :=
  (List.dropLast_append_getLast? c (by simp [h])).symm

theorem numberFromRest_returned (ParseFloat : List Byte → Float64 × Option NumError)
    (bin byte : Bool) (bs : List Byte) (n : Number)
    (h : numberFromRest ParseFloat bin byte bs = .returned n none) :
    ∃ (num pfx : List Byte) (v : Float64),
      bs = num ++ pfx ∧ pfx.length ≤ 1 ∧ (∀ c ∈ pfx, ¬ (0x30 ≤ c.val ∧ c.val ≤ 0x39)) ∧
      ParseFloat num = (v, none) ∧
      n = { BinaryMultiple := bin, ByteMultiple := byte, Prefix := runeText pfx,
            Value := .float64 v } := by
  unfold numberFromRest at h
  split at h
  · simp at h
  · rename_i c hc
    split at h
    · simp only [ParseOutcome.returned.injEq] at h
      refine ⟨bs, [], (ParseFloat bs).1, by simp, by decide, by simp, ?_, h.1.symm⟩
      exact Prod.ext rfl h.2
    · rename_i hd
      simp only [ParseOutcome.returned.injEq] at h
      refine ⟨bs.dropLast, [c], (ParseFloat bs.dropLast).1, getLast?_eq_some_append hc,
        by simp, by simpa using hd, Prod.ext rfl h.2, ?_⟩
      rw [← h.1]
      rfl

theorem numberFromString_returned (ParseFloat : List Byte → Float64 × Option NumError)
    (t : List Byte) (n : Number) (h : numberFromString ParseFloat t = .returned n none) :
    ∃ (num pfx : List Byte) (v : Float64),
      t = num ++ pfx ++ (if n.BinaryMultiple then [0x69] else [])
        ++ (if n.ByteMultiple then [0x42] else []) ∧
      pfx.length ≤ 1 ∧ (∀ c ∈ pfx, ¬ (0x30 ≤ c.val ∧ c.val ≤ 0x39)) ∧
      n.Prefix = runeText pfx ∧ ParseFloat num = (v, none) ∧ n.Value = .float64 v := by
  rw [numberFromString_eq] at h
  obtain ⟨num, pfx, v, hcs, hp, hnd, hv, rfl⟩ := numberFromRest_returned ParseFloat _ _ _ n h
  refine ⟨num, pfx, v, ?_, hp, hnd, rfl, hv, rfl⟩
  rw [← hcs]
  exact text_eq_stripped t

theorem bitLengthAux_bounds (fuel n : Nat) (h : n ≤ fuel) :
    n < 2 ^ bitLengthAux fuel n ∧ (n ≠ 0 → 2 ^ (bitLengthAux fuel n - 1) ≤ n) := by
  induction fuel generalizing n with
  | zero =>
    have : n = 0 := by omega
    subst this
    simp [bitLengthAux]
  | succ fuel ih =>
    by_cases hn : n = 0
    · subst hn; simp [bitLengthAux]
    · have h2 : n / 2 ≤ fuel := by omega
      obtain ⟨hlt, hle⟩ := ih (n / 2) h2
      simp only [bitLengthAux, hn, if_false, Nat.add_sub_cancel]
      refine ⟨?_, fun _ => ?_⟩
      · rw [Nat.pow_succ]; omega
      · by_cases h0 : n / 2 = 0
        · have hb : bitLengthAux fuel (n / 2) = 0 := by
            rw [h0]; cases fuel <;> simp [bitLengthAux]
          rw [hb]; simp; omega
        · have := hle h0
          have hpos : 0 < bitLengthAux fuel (n / 2) := by
            by_contra hc
            have hz : bitLengthAux fuel (n / 2) = 0 := by omega
            rw [hz] at hlt
            simp at hlt
            exact h0 hlt
          have e : bitLengthAux fuel (n / 2) = (bitLengthAux fuel (n / 2) - 1) + 1 := by omega
          rw [e, Nat.pow_succ]
          omega

theorem bitLength_lt (m : Nat) : m < 2 ^ bitLength m :=
  (bitLengthAux_bounds m m (Nat.le_refl m)).1

theorem bitLength_le {m : Nat} (h : m ≠ 0) : 2 ^ (bitLength m - 1) ≤ m :=
  (bitLengthAux_bounds m m (Nat.le_refl m)).2 h

theorem bitLength_pos {m : Nat} (h : m ≠ 0) : 0 < bitLength m := by
  by_contra hc
  have hz : bitLength m = 0 := by omega
  have := bitLength_lt m
  rw [hz] at this
  simp at this
  exact h this

theorem bitLength_le_of_lt {m k : Nat} (h : m < 2 ^ k) : bitLength m ≤ k := by
  by_cases hm : m = 0
  · subst hm
    have : bitLength 0 = 0 := rfl
    omega
  · have h1 := bitLength_le hm
    by_contra hc
    have h2 : k ≤ bitLength m - 1 := by omega
    have h3 : 2 ^ k ≤ 2 ^ (bitLength m - 1) := Nat.pow_le_pow_right (by decide) h2
    omega

theorem lt_bitLength_of_le {m k : Nat} (h : 2 ^ k ≤ m) : k < bitLength m := by
  have h1 := bitLength_lt m
  by_contra hc
  have h2 : bitLength m ≤ k := by omega
  have h3 : 2 ^ bitLength m ≤ 2 ^ k := Nat.pow_le_pow_right (by decide) h2
  omega

theorem Float64.round_of_valid (neg : Bool) (m : Nat) (e : Int)
    (h : Float64.Valid (.finite neg m e)) : Float64.round neg m e = .finite neg m e := by
  unfold Float64.round
  by_cases hm : m = 0
  · simp [hm]
  · rcases h with h | ⟨h1, h2, h3⟩
    · exact absurd h hm
    · have hb : bitLength m ≤ 53 := bitLength_le_of_lt h1
      have hk : max ((bitLength m : Int) - 53) (-1074 - e) ≤ 0 := by omega
      have ho : ¬ (1024 < (bitLength m : Int) + e) := by omega
      simp [hm, hk, ho]

theorem div_lt_of_bitLength (m kk : Nat) (h : bitLength m ≤ 53 + kk) :
    m / 2 ^ kk < 2 ^ 53 := by
  have h1 := bitLength_lt m
  have h2 : 2 ^ bitLength m ≤ 2 ^ (53 + kk) := Nat.pow_le_pow_right (by decide) h
  rw [Nat.div_lt_iff_lt_mul (Nat.two_pow_pos kk), ← Nat.pow_add]
  omega

theorem roundedUp_bounds (d q r : Nat) :
    q ≤ (if d < 2 * r ∨ 2 * r = d ∧ q % 2 = 1 then q + 1 else q) ∧
    (if d < 2 * r ∨ 2 * r = d ∧ q % 2 = 1 then q + 1 else q) ≤ q + 1 := by
  split <;> omega

theorem Float64.round_valid (neg : Bool) (m : Nat) (e : Int) :
    (Float64.round neg m e).Valid := by
  unfold Float64.round
  by_cases hm : m = 0
  · simp [hm, Float64.Valid]
  · simp only [hm, if_false]
    by_cases hk : max ((bitLength m : Int) - 53) (-1074 - e) ≤ 0
    · simp only [hk, if_true]
      split
      · trivial
      · rename_i ho
        right
        refine ⟨?_, by omega, by omega⟩
        have hb : bitLength m ≤ 53 := by omega
        exact Nat.lt_of_lt_of_le (bitLength_lt m) (Nat.pow_le_pow_right (by decide) hb)
    · simp only [hk, if_false]
      have hkpos : 0 < max ((bitLength m : Int) - 53) (-1074 - e) := by omega
      generalize hkdef : max ((bitLength m : Int) - 53) (-1074 - e) = k at hkpos ⊢
      have hq := div_lt_of_bitLength m k.toNat (by omega)
      have hr := roundedUp_bounds (2 ^ k.toNat) (m / 2 ^ k.toNat) (m % 2 ^ k.toNat)
      generalize (if 2 ^ k.toNat < 2 * (m % 2 ^ k.toNat) ∨
          2 * (m % 2 ^ k.toNat) = 2 ^ k.toNat ∧ m / 2 ^ k.toNat % 2 = 1
        then m / 2 ^ k.toNat + 1 else m / 2 ^ k.toNat) = q' at hr ⊢
      split
      · left; rfl
      · split
        · split
          · trivial
          · right
            refine ⟨by decide, by omega, ?_⟩
            have : bitLength (2 ^ 52) = 53 := by decide
            omega
        · split
          · trivial
          · right
            exact ⟨by omega, by omega, by omega⟩

theorem Float64.mul_one (x : Float64) (h : x.Valid) : x.mul (.finite false 1 0) = x := by
  cases x with
  | nan => rfl
  | inf a => simp [Float64.mul]
  | finite a m e =>
    simp only [Float64.mul, Nat.mul_one, Int.add_zero, Bool.bne_false]
    exact Float64.round_of_valid a m e h

theorem Float64.mul_valid (x y : Float64) : (x.mul y).Valid := by
  cases x <;> cases y <;> simp only [Float64.mul] <;>
    first
    | exact Float64.round_valid _ _ _
    | trivial
    | (split <;> trivial)

theorem Float64.ofInt_valid (v : Int) : (Float64.ofInt v).Valid :=
  Float64.round_valid _ _ _

theorem Number.base_pow_one (n : Number) : Pow n.base 1 = n.base := by
  unfold Number.base
  split <;> decide

theorem Number.scale_eq (ToLower : String → String) (n : Number) (o : Float64)
    (h : o.Valid) :
    n.scale ToLower o =
      (o.mul (if n.ByteMultiple then .finite false 8 0 else .finite false 1 0)).mul
        (Pow n.base (prefixRank (ToLower n.Prefix))) := by
  have hv : (if n.ByteMultiple then o.mul (.finite false 8 0) else o).Valid := by
    split
    · exact Float64.mul_valid _ _
    · exact h
  have hb : o.mul (if n.ByteMultiple then .finite false 8 0 else .finite false 1 0)
      = (if n.ByteMultiple then o.mul (.finite false 8 0) else o) := by
    split
    · rfl
    · exact Float64.mul_one o h
  rw [hb]
  unfold Number.scale prefixRank
  simp only []
  change _ = (if n.ByteMultiple then o.mul (.finite false 8 0) else o).mul (Pow n.base _)
  split
  · rw [Number.base_pow_one]; rfl
  · split
    · rfl
    · split
      · rfl
      · split
        · rfl
        · split
          · rfl
          · exact (Float64.mul_one _ hv).symm

theorem Float64.round_pos_cases (m : Nat) (e : Int) (hm : m ≠ 0) (he : -1074 ≤ e) :
    Float64.round false m e = .inf false ∨
    ∃ (a ka : Nat), Float64.round false m e = .finite false a (e + ka) ∧
      2 ^ (bitLength m - 1) ≤ a * 2 ^ ka ∧ a * 2 ^ ka ≤ 2 ^ bitLength m := by
  have hlt := bitLength_lt m
  have hle := bitLength_le hm
  have hpos := bitLength_pos hm
  unfold Float64.round
  simp only [hm, if_false]
  by_cases hk : max ((bitLength m : Int) - 53) (-1074 - e) ≤ 0
  · simp only [hk, if_true]
    split
    · left; rfl
    · right
      exact ⟨m, 0, by simp, by simpa using hle, by simpa using Nat.le_of_lt hlt⟩
  · simp only [hk, if_false]
    have hkeq : max ((bitLength m : Int) - 53) (-1074 - e) = ((bitLength m - 53 : Nat) : Int) := by
      omega
    have hb : 53 < bitLength m := by omega
    rw [hkeq]
    simp only [Int.toNat_ofNat]
    generalize hkk : bitLength m - 53 = kk at *
    have hbl : bitLength m = 53 + kk := by omega
    have hq1 : m / 2 ^ kk < 2 ^ 53 := div_lt_of_bitLength m kk (by omega)
    have hq2 : 2 ^ 52 ≤ m / 2 ^ kk := by
      rw [Nat.le_div_iff_mul_le (Nat.two_pow_pos kk), ← Nat.pow_add]
      have : 52 + kk = bitLength m - 1 := by omega
      rw [this]; exact hle
    have hr := roundedUp_bounds (2 ^ kk) (m / 2 ^ kk) (m % 2 ^ kk)
    generalize (if 2 ^ kk < 2 * (m % 2 ^ kk) ∨
        2 * (m % 2 ^ kk) = 2 ^ kk ∧ m / 2 ^ kk % 2 = 1
      then m / 2 ^ kk + 1 else m / 2 ^ kk) = q' at hr ⊢
    have e52 : (2 : Nat) ^ (bitLength m - 1) = 2 ^ 52 * 2 ^ kk := by
      rw [← Nat.pow_add]; congr 1; omega
    have e53 : (2 : Nat) ^ bitLength m = 2 ^ 53 * 2 ^ kk := by
      rw [← Nat.pow_add]; congr 1
    split
    · omega
    · split
      · split
        · left; rfl
        · right
          refine ⟨2 ^ 52, kk + 1, ?_, ?_, ?_⟩
          · congr 1; push_cast; omega
          · rw [e52, Nat.pow_succ]
            exact Nat.mul_le_mul_left _ (Nat.le_mul_of_pos_right _ (by decide))
          · rw [e53, Nat.pow_succ]
            exact Nat.le_of_eq (by ring)
      · split
        · left; rfl
        · right
          refine ⟨q', kk, rfl, ?_, ?_⟩
          · rw [e52]
            exact Nat.mul_le_mul_right _ (by omega)
          · rw [e53]
            exact Nat.mul_le_mul_right _ (by omega)

theorem Float64.round_posOrInf (m : Nat) (e : Int) (hm : m ≠ 0) (he : -1074 ≤ e) :
    (Float64.round false m e).PosOrInf := by
  rcases Float64.round_pos_cases m e hm he with h | ⟨a, ka, h, h1, _⟩
  · exact Or.inl h
  · refine Or.inr ⟨a, e + ka, h, ?_, by omega⟩
    intro ha
    subst ha
    have := Nat.two_pow_pos (bitLength m - 1)
    omega

theorem Float64.lt_of_scaled (e : Int) (a ka b kb : Nat) (h : a * 2 ^ ka < b * 2 ^ kb) :
    Float64.lt (.finite false a (e + ka)) (.finite false b (e + kb)) = true := by
  simp only [Float64.lt, Bool.false_eq_true, if_false, Int.one_mul, decide_eq_true_eq]
  norm_cast
  rcases Nat.le_total ka kb with hk | hk
  · have e1 : (e + (ka : Int) - min (e + (ka : Int)) (e + (kb : Int))).toNat = 0 := by omega
    have e2 : (e + (kb : Int) - min (e + (ka : Int)) (e + (kb : Int))).toNat = kb - ka := by
      omega
    rw [e1, e2]
    have e3 : b * 2 ^ kb = b * 2 ^ (kb - ka) * 2 ^ ka := by
      rw [Nat.mul_assoc, ← Nat.pow_add]; congr 2; omega
    rw [e3] at h
    simpa using Nat.lt_of_mul_lt_mul_right h
  · have e1 : (e + (ka : Int) - min (e + (ka : Int)) (e + (kb : Int))).toNat = ka - kb := by
      omega
    have e2 : (e + (kb : Int) - min (e + (ka : Int)) (e + (kb : Int))).toNat = 0 := by omega
    rw [e1, e2]
    have e3 : a * 2 ^ ka = a * 2 ^ (ka - kb) * 2 ^ kb := by
      rw [Nat.mul_assoc, ← Nat.pow_add]; congr 2; omega
    rw [e3] at h
    simpa using Nat.lt_of_mul_lt_mul_right h

theorem Float64.round_lt_round (m1 m2 : Nat) (e : Int) (hm1 : m1 ≠ 0) (h4 : 4 * m1 ≤ m2)
    (he : -1074 ≤ e) (hfin : Float64.round false m1 e ≠ .inf false) :
    Float64.lt (Float64.round false m1 e) (Float64.round false m2 e) = true := by
  have hm2 : m2 ≠ 0 := by omega
  rcases Float64.round_pos_cases m1 e hm1 he with h | ⟨a, ka, h, _, ha⟩
  · exact absurd h hfin
  · rw [h]
    rcases Float64.round_pos_cases m2 e hm2 he with h2 | ⟨b, kb, h2, hb, _⟩
    · rw [h2]; rfl
    · rw [h2]
      apply Float64.lt_of_scaled
      have h1 := bitLength_le hm1
      have hpos := bitLength_pos hm1
      have h5 : 2 ^ (bitLength m1 + 1) ≤ m2 := by
        have : 2 ^ (bitLength m1 + 1) = 4 * 2 ^ (bitLength m1 - 1) := by
          have : bitLength m1 + 1 = 2 + (bitLength m1 - 1) := by omega
          rw [this, Nat.pow_add]
        omega
      have h6 := lt_bitLength_of_le h5
      have h7 : 2 ^ (bitLength m1 + 1) ≤ 2 ^ (bitLength m2 - 1) :=
        Nat.pow_le_pow_right (by decide) (by omega)
      have h8 : 2 ^ bitLength m1 < 2 ^ (bitLength m1 + 1) :=
        Nat.pow_lt_pow_right (by decide) (by omega)
      omega

theorem Number.pow_base (n : Number) (r : Nat) (h : r ≤ 5) :
    Pow n.base r = .finite false (n.baseNat ^ r) 0 := by
  unfold Number.base Number.baseNat
  have hr : r = 0 ∨ r = 1 ∨ r = 2 ∨ r = 3 ∨ r = 4 ∨ r = 5 := by omega
  split <;> rcases hr with h | h | h | h | h | h <;> subst h <;> decide

theorem prefixRank_le (p : String) : prefixRank p ≤ 5 := by
  unfold prefixRank
  repeat (first | split | omega)

theorem Float64.PosOrInf.mul_const {x : Float64} (h : x.PosOrInf) (c : Nat) (hc : c ≠ 0) :
    (x.mul (.finite false c 0)).PosOrInf := by
  rcases h with h | ⟨m, e, h, hm, he⟩
  · subst h
    left
    simp [Float64.mul, hc]
  · subst h
    simp only [Float64.mul, Int.add_zero]
    exact Float64.round_posOrInf _ _ (Nat.mul_ne_zero hm hc) he

theorem Float64.PosOrInf.mul_const_lt {x : Float64} (h : x.PosOrInf) (c1 c2 : Nat)
    (hc1 : c1 ≠ 0) (h4 : 4 * c1 ≤ c2) (hfin : x.mul (.finite false c1 0) ≠ .inf false) :
    Float64.lt (x.mul (.finite false c1 0)) (x.mul (.finite false c2 0)) = true := by
  rcases h with h | ⟨m, e, h, hm, he⟩
  · subst h
    exact absurd (by simp [Float64.mul, hc1]) hfin
  · subst h
    simp only [Float64.mul, Int.add_zero] at hfin ⊢
    refine Float64.round_lt_round _ _ e (Nat.mul_ne_zero hm hc1) ?_ he hfin
    calc 4 * (m * c1) = m * (4 * c1) := by ring
      _ ≤ m * c2 := Nat.mul_le_mul_left _ h4

theorem Float64.posOrInf_of_pos {x : Float64} (hv : x.Valid)
    (h : Float64.lt (.finite false 0 0) x = true) : x.PosOrInf := by
  cases x with
  | nan => simp [Float64.lt] at h
  | inf a =>
    left
    simp [Float64.lt] at h
    rw [h]
  | finite a m e =>
    right
    have hm : m ≠ 0 := by
      intro h0
      subst h0
      cases a <;> simp [Float64.lt] at h
    have ha : a = false := by
      cases a
      · rfl
      · simp only [Float64.lt, decide_eq_true_eq] at h
        exfalso
        have h1 : (0 : Int) ≤ ((m * 2 ^ (e - min 0 e).toNat : Nat) : Int) := Int.ofNat_nonneg _
        simp only [if_true, Bool.false_eq_true, if_false] at h
        omega
    subst ha
    rcases hv with h0 | ⟨_, h2, _⟩
    · exact absurd h0 hm
    · exact ⟨m, e, rfl, hm, h2⟩

theorem Float64.ofInt_posOrInf (v : Int) (h : 0 < v) : (Float64.ofInt v).PosOrInf := by
  unfold Float64.ofInt
  have : decide (v < 0) = false := by simp; omega
  rw [this]
  exact Float64.round_posOrInf _ _ (by omega) (by decide)

theorem Number.baseNat_pow_lt (n : Number) {r s : Nat} (h : r < s) :
    n.baseNat ^ r ≠ 0 ∧ 4 * n.baseNat ^ r ≤ n.baseNat ^ s := by
  have hb : 4 ≤ n.baseNat := by unfold Number.baseNat; split <;> decide
  have hpos : 0 < n.baseNat ^ r := Nat.pos_pow_of_pos _ (by omega)
  refine ⟨by omega, ?_⟩
  have e : s = r + 1 + (s - r - 1) := by omega
  rw [e, Nat.pow_add, Nat.pow_succ]
  have h1 : 0 < n.baseNat ^ (s - r - 1) := Nat.pos_pow_of_pos _ (by omega)
  calc 4 * n.baseNat ^ r ≤ n.baseNat ^ r * n.baseNat := by
        rw [Nat.mul_comm]; exact Nat.mul_le_mul_left _ hb
    _ ≤ n.baseNat ^ r * n.baseNat * n.baseNat ^ (s - r - 1) := Nat.le_mul_of_pos_right _ h1

theorem Number.scale_lt_scale (ToLower : String → String) (n : Number) (p q : String)
    (o : Float64) (hv : o.Valid) (ho : o.PosOrInf)
    (hr : prefixRank (ToLower p) < prefixRank (ToLower q))
    (hfin : Number.scale ToLower { n with Prefix := p } o ≠ .inf false) :
    Float64.lt (Number.scale ToLower { n with Prefix := p } o)
      (Number.scale ToLower { n with Prefix := q } o) = true := by
  rw [Number.scale_eq ToLower _ o hv] at hfin ⊢
  rw [Number.scale_eq ToLower _ o hv]
  have hbp : Number.base { n with Prefix := p } = n.base := rfl
  have hbq : Number.base { n with Prefix := q } = n.base := rfl
  simp only [hbp, hbq] at hfin ⊢
  rw [Number.pow_base n _ (prefixRank_le _)] at hfin ⊢
  rw [Number.pow_base n _ (prefixRank_le _)]
  have hx : (o.mul (if n.ByteMultiple then .finite false 8 0 else .finite false 1 0)).PosOrInf := by
    split
    · exact ho.mul_const 8 (by decide)
    · exact ho.mul_const 1 (by decide)
  have hb := Number.baseNat_pow_lt n hr
  exact hx.mul_const_lt _ _ hb.1 hb.2 hfin

/-- A list all of whose elements satisfy `p`, or its first element that does not. -/
theorem first_not {α : Type} (p : α → Prop) (xs : List α) :
    (∀ x ∈ xs, p x) ∨
    ∃ pre bad post, xs = pre ++ bad :: post ∧ (∀ x ∈ pre, p x) ∧ ¬ p bad := by
  induction xs with
  | nil => exact Or.inl (fun _ h => absurd h (List.not_mem_nil _))
  | cons x xs ih =>
    by_cases hx : p x
    · rcases ih with h | ⟨pre, bad, post, e, hpre, hbad⟩
      · left
        intro y hy
        rcases List.mem_cons.mp hy with rfl | hy
        · exact hx
        · exact h y hy
      · right
        refine ⟨x :: pre, bad, post, by simp [e], ?_, hbad⟩
        intro y hy
        rcases List.mem_cons.mp hy with rfl | hy
        · exact hx
        · exact hpre y hy
    · exact Or.inr ⟨[], x, xs, rfl, fun _ h => absurd h (List.not_mem_nil _), hx⟩

/-- When `BuildCmd` succeeds, the emission of every input and of every output succeeds. -/
theorem BuildCmd_succeeds (binaryPath : String) (env : List String) (g : GlobalOptions)
    (ins : List Input) (c : ComplexFilterOptions) (outs : List Output)
    (hok : (BuildCmd binaryPath env g ins c outs).2 = none) :
    (∀ i ∈ ins, outcome i.adaptCmd = none) ∧ (∀ o ∈ outs, outcome o.adaptCmd = none) := by
  rcases first_not (fun i : Input => outcome i.adaptCmd = none) ins with
    hin | ⟨pre, bad, post, e, hpre, hbad⟩
  · refine ⟨hin, ?_⟩
    rcases first_not (fun o : Output => outcome o.adaptCmd = none) outs with
      hout | ⟨pre, bad, post, e, hpre, hbad⟩
    · exact hout
    · exfalso
      subst e
      cases hf : outcome bad.adaptCmd with
      | none => exact hbad hf
      | some f =>
        rw [(BuildCmd_output_fails binaryPath env g ins c pre bad post f hin hpre hf).2] at hok
        exact Option.noConfusion hok
  · exfalso
    subst e
    cases hf : outcome bad.adaptCmd with
    | none => exact hbad hf
    | some f =>
      rw [(BuildCmd_input_fails binaryPath env g pre bad post c outs f hpre hf).2] at hok
      exact Option.noConfusion hok

/-- An output whose emission succeeds appends the tokens of its options, then `-y` and its
path. -/
theorem Output.appended_of_ok (o : Output) (h : outcome o.adaptCmd = none) :
    appended o.adaptCmd = o.optionTokens ++ ["-y", o.Path] := by
  rcases o with ⟨_ | opts, path⟩
  · exact (Output.output_bare path).args_eq
  · have hu := opts.outputOptions_uniform.emits_appended
    cases hf : outcome opts.adaptCmd with
    | none =>
      rw [hf] at hu
      have hw := hu.wrapped "astiffmpeg: adapting cmd for output failed"
      have := (Emits.runSteps_cons hw
        (Emits.runSteps_cons (Emits.append ["-y", path]) Emits.runSteps_nil)).args_eq
      simpa [Output.adaptCmd, Output.optionTokens] using this
    | some f =>
      rw [hf] at hu
      have hw := hu.wrapped "astiffmpeg: adapting cmd for output failed"
      have := (Emits.runSteps_fail hw
        [Step.ofFn (fun cmd => cmd.append ["-y", path])]).outcome_eq
      simp [Output.adaptCmd] at h this
      rw [this] at h
      exact Option.noConfusion h

theorem outputs_appended_of_ok (outs : List Output)
    (h : ∀ o ∈ outs, outcome o.adaptCmd = none) :
    outs.flatMap (fun o => appended o.adaptCmd) =
      outs.flatMap (fun o => o.optionTokens ++ ["-y", o.Path]) := by
  induction outs with
  | nil => rfl
  | cons o os ih =>
    simp only [List.flatMap_cons]
    rw [Output.appended_of_ok o (h o (List.mem_cons_self _ _)),
      ih (fun x hx => h x (List.mem_cons_of_mem _ hx))]

theorem SameUpToPairOrder.perm {maps : List (List (String × Astiffmpeg.Value) × List (String × Astiffmpeg.Value))}
    {a b : List String} (h : SameUpToPairOrder maps a b) : a.Perm b := by
  induction h with
  | same ts => exact List.Perm.refl ts
  | block _ h => exact h.flatMap_right _
  | append _ _ ih ih' => exact ih.append ih'

theorem Similar.of_uniform {maps : List (List (String × Astiffmpeg.Value) × List (String × Astiffmpeg.Value))}
    {s : Step} (h : Uniform s) : Similar maps s s := by
  obtain ⟨ts, es, out, hs⟩ := h
  exact ⟨ts, ts, es, out, hs, hs, .same ts⟩

theorem Similar.similar_nil {maps : List (List (String × Astiffmpeg.Value) × List (String × Astiffmpeg.Value))} :
    Similar maps (runSteps []) (runSteps []) :=
  Similar.of_uniform Uniform.steps_nil

theorem Similar.similar_cons {maps : List (List (String × Astiffmpeg.Value) × List (String × Astiffmpeg.Value))}
    {s s' : Step} {ss ss' : List Step} (h : Similar maps s s')
    (h' : Similar maps (runSteps ss) (runSteps ss')) :
    Similar maps (runSteps (s :: ss)) (runSteps (s' :: ss')) := by
  obtain ⟨ts, ts', es, out, hs, hs', hr⟩ := h
  obtain ⟨us, us', fs, out', hss, hss', hr'⟩ := h'
  cases out with
  | none => exact ⟨_, _, _, _, hs.runSteps_cons hss, hs'.runSteps_cons hss', hr.append hr'⟩
  | some f => exact ⟨_, _, _, _, hs.runSteps_fail ss, hs'.runSteps_fail ss', hr⟩

theorem Similar.wrapped_similar {maps : List (List (String × Astiffmpeg.Value) × List (String × Astiffmpeg.Value))}
    {s s' : Step} (h : Similar maps s s') (msg : String) :
    Similar maps (s.wrapped msg) (s'.wrapped msg) := by
  obtain ⟨ts, ts', es, out, hs, hs', hr⟩ := h
  exact ⟨_, _, _, _, hs.wrapped msg, hs'.wrapped msg, hr⟩

theorem Similar.each {maps : List (List (String × Astiffmpeg.Value) × List (String × Astiffmpeg.Value))}
    {α : Type} (kind : String) (adapt : α → Step) {xs xs' : List α}
    (h : List.Forall₂ (fun x x' => Similar maps (adapt x) (adapt x')) xs xs') (idx : Nat) :
    Similar maps (rangeLoop (eachStep kind adapt) idx xs) (rangeLoop (eachStep kind adapt) idx xs') := by
  induction h generalizing idx with
  | nil => exact Similar.of_uniform (Emits.rangeLoop_nil _ _).uniform
  | cons hx _ ih =>
    obtain ⟨ts, ts', es, out, hs, hs', hr⟩ := hx.wrapped_similar
      ("astiffmpeg: adapting cmd for " ++ kind ++ " #" ++ toString idx ++ " failed")
    obtain ⟨us, us', fs, out', hss, hss', hr'⟩ := ih (idx + 1)
    cases out with
    | none =>
      exact ⟨_, _, _, _, Emits.rangeLoop_cons (eachStep kind adapt) hs hss,
        Emits.rangeLoop_cons (eachStep kind adapt) hs' hss', hr.append hr'⟩
    | some f =>
      exact ⟨_, _, _, _, Emits.rangeLoop_fail (eachStep kind adapt) hs _,
        Emits.rangeLoop_fail (eachStep kind adapt) hs' _, hr⟩

/-- The loop over a `Customize` map whose values are all of a rendered kind appends the pair
of every entry in visiting order and does not fail. -/
theorem customizeLoop_emits (l : List (String × Astiffmpeg.Value))
    (hc : ∀ kv ∈ l, kv.2.customizable = true) (idx : Nat) :
    Emits (rangeLoop (fun _ kv => stepCustomize kv.1 kv.2) idx l) (l.flatMap pairTokens) []
      none := by
  induction l generalizing idx with
  | nil => exact Emits.rangeLoop_nil _ _
  | cons kv l ih =>
    have hkv : Emits (stepCustomize kv.1 kv.2) (pairTokens kv) [] none := by
      have := hc kv (List.mem_cons_self _ _)
      rcases kv with ⟨k, v⟩
      cases v <;> simp [Value.customizable] at this <;>
        exact fun cmd => by simp [stepCustomize, pairTokens, Cmd.append]
    have := Emits.rangeLoop_cons (fun _ (kv : String × Astiffmpeg.Value) => stepCustomize kv.1 kv.2)
      hkv (ih (fun x hx => hc x (List.mem_cons_of_mem _ hx)) (idx + 1))
    simpa using this

theorem customizeLoop_similar {maps : List (List (String × Astiffmpeg.Value) × List (String × Astiffmpeg.Value))}
    {l l' : List (String × Astiffmpeg.Value)} (hm : (l, l') ∈ maps) (hp : l.Perm l')
    (hc : ∀ kv ∈ l, kv.2.customizable = true) :
    Similar maps (rangeLoop (fun _ kv => stepCustomize kv.1 kv.2) 0 l)
      (rangeLoop (fun _ kv => stepCustomize kv.1 kv.2) 0 l') :=
  ⟨_, _, _, _, customizeLoop_emits l hc 0,
    customizeLoop_emits l' (fun kv hkv => hc kv (hp.mem_iff.mpr hkv)) 0, .block hm hp⟩

theorem EncodingOptions.similar_of_perm {maps : List (List (String × Astiffmpeg.Value) × List (String × Astiffmpeg.Value))}
    (e : EncodingOptions) (l' : List (String × Astiffmpeg.Value)) (hm : (e.Customize, l') ∈ maps)
    (hp : e.Customize.Perm l')
    (hc : ∀ kv ∈ e.Customize, kv.2.customizable = true) :
    Similar maps e.adaptCmd (EncodingOptions.adaptCmd { e with Customize := l' }) := by
  unfold EncodingOptions.adaptCmd
  repeat (first | exact Similar.similar_nil | (refine Similar.similar_cons ?_ ?_; rotate_left))
  all_goals first
    | exact Similar.of_uniform (stepInt_emits _ _).uniform
    | exact Similar.of_uniform (stepFloat_emits _ _ _).uniform
    | exact Similar.of_uniform (stepString_emits _ _).uniform
    | exact Similar.of_uniform (stepStreamOptions_uniform _ _ _)
    | exact Similar.of_uniform (stepBufSize_emits _).uniform
    | exact Similar.of_uniform (stepRemoveAudio_emits _).uniform
    | exact customizeLoop_similar hm hp hc

theorem EncodingOptions.encoding_similar {maps : List (List (String × Astiffmpeg.Value) × List (String × Astiffmpeg.Value))}
    {a b : EncodingOptions} (h : a.sameAs b) (hm : (a.Customize, b.Customize) ∈ maps)
    (hc : ∀ kv ∈ a.Customize, kv.2.customizable = true) : Similar maps a.adaptCmd b.adaptCmd := by
  obtain ⟨hf, hp⟩ := h
  have hb : b = { a with Customize := b.Customize } := by
    cases a; cases b
    simp only [EncodingOptions.mk.injEq] at hf ⊢
    simp_all
  rw [hb]
  exact a.similar_of_perm b.Customize hm hp hc

theorem Output.output_similar {maps : List (List (String × Astiffmpeg.Value) × List (String × Astiffmpeg.Value))}
    {a b : Output} (h : a.sameAs b) (hmem : (a.customize, b.customize) ∈ maps)
    (hc : ∀ kv ∈ a.customize, kv.2.customizable = true) : Similar maps a.adaptCmd b.adaptCmd := by
  rcases a with ⟨_ | ⟨ea, fa, ma⟩, pa⟩ <;> rcases b with ⟨_ | ⟨eb, fb, mb⟩, pb⟩ <;>
    simp [Output.sameAs, OutputOptions.sameAs] at h
  · subst h
    exact Similar.of_uniform (Output.output_uniform _)
  · obtain ⟨hp, hf, hm, he⟩ := h
    subst hp hf hm
    unfold Output.adaptCmd
    refine Similar.similar_cons ?_ (Similar.of_uniform
      (Uniform.steps_cons (Uniform.ofFn_append _) Uniform.steps_nil))
    refine Similar.wrapped_similar ?_ _
    unfold OutputOptions.adaptCmd
    refine Similar.similar_cons (Similar.of_uniform ?_) (Similar.similar_cons ?_
      (Similar.of_uniform (Uniform.steps_cons (stepString_emits _ _).uniform Uniform.steps_nil)))
    · cases ma with
      | none => exact Emits.skip.uniform
      | some m => exact (Emits.of_append (MapOptions.mapOptions_adaptCmd_eq m)).uniform
    · cases ea <;> cases eb <;> simp at he
      · exact Similar.of_uniform Emits.skip.uniform
      · exact (EncodingOptions.encoding_similar he (by simpa [Output.customize] using hmem)
          (by simpa [Output.customize] using hc)).wrapped_similar _

theorem outputs_similar {maps : List (List (String × Astiffmpeg.Value) × List (String × Astiffmpeg.Value))}
    {outs outs' : List Output} (h : List.Forall₂ Output.sameAs outs outs')
    (hm : ∀ p ∈ customizePairs outs outs', p ∈ maps)
    (hc : ∀ o ∈ outs, ∀ kv ∈ o.customize, kv.2.customizable = true) :
    List.Forall₂ (fun x x' => Similar maps (Output.adaptCmd x) (Output.adaptCmd x'))
      outs outs' := by
  induction h with
  | nil => exact List.Forall₂.nil
  | cons hab _ ih =>
    refine List.Forall₂.cons
      (Output.output_similar hab (hm _ ?_) (hc _ (List.mem_cons_self _ _)))
      (ih (fun p hp => hm p ?_) (fun o ho => hc o (List.mem_cons_of_mem _ ho)))
    · simp [customizePairs]
    · simp only [customizePairs, List.zip_cons_cons, List.map_cons, List.mem_cons]
      exact Or.inr hp

theorem BuildCmd_similar (binaryPath : String) (env : List String) (g : GlobalOptions)
    (ins : List Input) (c : ComplexFilterOptions) {outs outs' : List Output}
    (h : List.Forall₂ Output.sameAs outs outs')
    (hc : ∀ o ∈ outs, ∀ kv ∈ o.customize, kv.2.customizable = true) :
    ∃ ts ts' es out, SameUpToPairOrder (customizePairs outs outs') ts ts' ∧
      BuildCmd binaryPath env g ins c outs =
        ({ Args := [binaryPath] ++ ts, Env := env ++ es }, out) ∧
      BuildCmd binaryPath env g ins c outs' =
        ({ Args := [binaryPath] ++ ts', Env := env ++ es }, out) := by
  have hs : Similar (customizePairs outs outs')
      (runSteps [Step.ofFn g.adaptCmd, stepEach "input" Input.adaptCmd ins,
        Step.ofFn (fun cmd => (c.adaptCmd cmd).1), stepEach "output" Output.adaptCmd outs])
      (runSteps [Step.ofFn g.adaptCmd, stepEach "input" Input.adaptCmd ins,
        Step.ofFn (fun cmd => (c.adaptCmd cmd).1), stepEach "output" Output.adaptCmd outs']) :=
    Similar.similar_cons (Similar.of_uniform g.global_adaptCmd_emits.uniform)
      (Similar.similar_cons
        (Similar.of_uniform (Uniform.loop
          (fun _ (i : Input) => i.input_uniform.wrapped_uniform _) 0 ins))
        (Similar.similar_cons (Similar.of_uniform (complexStep_emits c).uniform)
          (Similar.similar_cons (Similar.each "output" Output.adaptCmd (outputs_similar h (fun _ hp => hp) hc) 0)
            Similar.similar_nil)))
  obtain ⟨ts, ts', es, out, e, e', hr⟩ := hs
  exact ⟨ts, ts', es, out, hr, e { Args := [binaryPath], Env := env },
    e' { Args := [binaryPath], Env := env }⟩

theorem toNat_ofNat_byte (c : Byte) : (Char.ofNat c.val).toNat = c.val := by
  have h : c.val.isValidChar := Or.inl (by have := c.isLt; omega)
  simp only [Char.ofNat, h, dite_true, Char.toNat, Char.ofNatAux]
  rfl

theorem ofNat_val_byte (c : Byte) : (Fin.ofNat c.val : Byte) = c := by
  apply Fin.ext
  simp [Fin.ofNat, Nat.mod_eq_of_lt c.isLt]

theorem utf8_runeText_ascii (pfx : List Byte) (h : ∀ c ∈ pfx, c.val < 0x80) :
    utf8 (runeText pfx) = pfx := by
  induction pfx with
  | nil => rfl
  | cons c cs ih =>
    have hc := h c (List.mem_cons_self _ _)
    have ih' := ih (fun x hx => h x (List.mem_cons_of_mem _ hx))
    simp only [utf8, runeText, List.map_cons, List.flatMap_cons] at ih' ⊢
    rw [ih']
    simp only [utf8EncodeChar, toNat_ofNat_byte, hc, if_true]
    simp [ofNat_val_byte]

theorem utf8_runeText_high (c : Byte) (h : 0x80 ≤ c.val) :
    utf8 (runeText [c]) = [Fin.ofNat (0xC0 + c.val / 0x40), Fin.ofNat (0x80 + c.val % 0x40)] := by
  have h1 : ¬ c.val < 0x80 := by omega
  have h2 : c.val < 0x800 := by have := c.isLt; omega
  simp [utf8, runeText, utf8EncodeChar, toNat_ofNat_byte, h1, h2]

/-! ## The claims -/

/-- C1: when no input and no output emission fails, the argument list `BuildCmd` returns
is the binary path, then the tokens of the global options, then the tokens of every input in
list order, then the tokens of the complex filter, then the tokens of every output in list
order; the tokens of a group are what its `adaptCmd` appends (`appended`). -/
theorem BuildCmd_token_order (binaryPath : String) (env : List String) (g : GlobalOptions)
    (ins : List Input) (c : ComplexFilterOptions) (outs : List Output)
    (hin : ∀ i ∈ ins, outcome i.adaptCmd = none)
    (hout : ∀ o ∈ outs, outcome o.adaptCmd = none) :
    (BuildCmd binaryPath env g ins c outs).2 = none ∧
    (BuildCmd binaryPath env g ins c outs).1.Args =
      [binaryPath] ++ appended (Step.ofFn g.adaptCmd)
        ++ ins.flatMap (fun i => appended i.adaptCmd)
        ++ appended c.adaptCmd
        ++ outs.flatMap (fun o => appended o.adaptCmd) := by
  rw [BuildCmd_ok binaryPath env g ins c outs hin hout, g.global_adaptCmd_emits.args_eq,
    c.complex_adaptCmd_emits.args_eq]
  simp

theorem BuildCmd_token_order_witness :
    (∀ i ∈ [({ Path := "a.mp4" } : Input)], outcome i.adaptCmd = none) ∧
    (∀ o ∈ [({ Path := "b.mp4", Options := some { Format := "mp4" } } : Output)],
      outcome o.adaptCmd = none) ∧
    (BuildCmd "ffmpeg" [] { Overwrite := some true } [{ Path := "a.mp4" }]
        { OutputNum := some 1 } [{ Path := "b.mp4", Options := some { Format := "mp4" } }]).1.Args
      = ["ffmpeg", "-hide_banner", "-y", "-i", "a.mp4", "-filter_complex", "split=1[out0]",
          "-f", "mp4", "-y", "b.mp4"] :=
  ⟨by decide, by decide,
    (BuildCmd_token_order "ffmpeg" [] { Overwrite := some true } [{ Path := "a.mp4" }]
      { OutputNum := some 1 } [{ Path := "b.mp4", Options := some { Format := "mp4" } }]
      (by decide) (by decide)).2.trans (by decide)⟩

/-- C2: with zero-valued global options, inputs and outputs that carry no options and an empty
complex filter, `BuildCmd` succeeds and returns the binary path, `-hide_banner`, one pair
`-i`, path per input in order and one pair `-y`, path per output in order; for two inputs
and one output the tokens end in `-i p0 -i p1 -y q`. -/
theorem BuildCmd_no_options (binaryPath : String) (env : List String) :
    (∀ ins outs : List String,
      BuildCmd binaryPath env {} (ins.map (fun p => { Path := p })) {}
          (outs.map (fun q => { Path := q })) =
        ({ Args := [binaryPath, "-hide_banner"] ++ ins.flatMap (fun p => ["-i", p])
              ++ outs.flatMap (fun q => ["-y", q]),
           Env := env }, none)) ∧
    (∀ p0 p1 q : String,
      BuildCmd binaryPath env {} [{ Path := p0 }, { Path := p1 }] {} [{ Path := q }] =
        ({ Args := [binaryPath, "-hide_banner", "-i", p0, "-i", p1, "-y", q], Env := env },
          none)) :=
  ⟨BuildCmd_bare binaryPath env, fun p0 p1 q => BuildCmd_bare binaryPath env [p0, p1] [q]⟩

/-- C3: on an `EncodingOptions` with an empty `Customize` on which emission succeeds,
`adaptCmd` appends the tokens of the present fields in the fixed order of `encodingTokens`
(`-ar`, `-ac`, `-bf`, `-b`, `-b_strategy`, `-bufsize`, `-codec`, `-coder`, `-cq`, `-crf`,
`-filter`, `-r`, `-s`, `-g`, `-keyint_min`, `-level`, `-maxrate`, `-minrate`, `-preset`,
`-profile`, `-rc`, `-sc_threshold`, `-tune`, `-max_muxing_queue_size`, `-hls_time`,
`-hls_list_size`, `-hls_key_info_file`, `-hls_segment_filename`, `-an`); options with only
`CRF = 23` and `Preset = "fast"` emit exactly `-crf 23 -preset fast`. -/
theorem EncodingOptions.adaptCmd_fixed_order (o : EncodingOptions) (cmd : Cmd)
    (hc : o.Customize = []) (hok : (o.adaptCmd cmd).2 = none) :
    o.adaptCmd cmd = (cmd.append (encodingTokens o), none) ∧
    ∀ cmd' : Cmd, EncodingOptions.adaptCmd { CRF := some 23, Preset := "fast" } cmd' =
      (cmd'.append ["-crf", "23", "-preset", "fast"], none) :=
  ⟨(o.adaptCmd_appends hc).result cmd hok,
    (EncodingOptions.encoding_uniform _).eval_empty (by decide) (by decide) (by decide)⟩

theorem EncodingOptions.adaptCmd_fixed_order_witness :
    (EncodingOptions.adaptCmd
        { Preset := "fast", CRF := some 23, AudioChannels := some 2,
          Codec := [{ Stream := some { Typ := "v" }, Value := .string "libx264" }],
          Bitrate := [{ Value := .number false false "M" (.int 2) }] }
        { Args := ["ffmpeg"], Env := [] }).1.Args =
      ["ffmpeg", "-ac", "2", "-b", "2M", "-codec:v", "libx264", "-crf", "23", "-preset", "fast"] :=
  (congrArg (fun r => r.1.Args)
    (EncodingOptions.adaptCmd_fixed_order
      { Preset := "fast", CRF := some 23, AudioChannels := some 2,
        Codec := [{ Stream := some { Typ := "v" }, Value := .string "libx264" }],
        Bitrate := [{ Value := .number false false "M" (.int 2) }] }
      { Args := ["ffmpeg"], Env := [] } rfl (by decide)).1).trans (by decide)

/-- C4: absent and zero differ. Each optional integer field of `EncodingOptions`, when it is
the only field set, to any value `n` (zero included), makes `adaptCmd` append exactly the
two tokens flag and decimal text of `n` (`CRF = 0` gives `-crf 0`); an `EncodingOptions`
with no field set appends nothing. -/
theorem EncodingOptions.adaptCmd_absent_vs_zero (n : Int) (cmd : Cmd) :
    EncodingOptions.adaptCmd { AudioSamplerate := some n } cmd = (cmd.append ["-ar", Itoa n], none) ∧
    EncodingOptions.adaptCmd { AudioChannels := some n } cmd = (cmd.append ["-ac", Itoa n], none) ∧
    EncodingOptions.adaptCmd { BFrames := some n } cmd = (cmd.append ["-bf", Itoa n], none) ∧
    EncodingOptions.adaptCmd { BStrategy := some n } cmd = (cmd.append ["-b_strategy", Itoa n], none) ∧
    EncodingOptions.adaptCmd { CRF := some n } cmd = (cmd.append ["-crf", Itoa n], none) ∧
    EncodingOptions.adaptCmd { GOP := some n } cmd = (cmd.append ["-g", Itoa n], none) ∧
    EncodingOptions.adaptCmd { KeyintMin := some n } cmd = (cmd.append ["-keyint_min", Itoa n], none) ∧
    EncodingOptions.adaptCmd { SCThreshold := some n } cmd = (cmd.append ["-sc_threshold", Itoa n], none) ∧
    EncodingOptions.adaptCmd { MaxMuxingQSize := some n } cmd = (cmd.append ["-max_muxing_queue_size", Itoa n], none) ∧
    EncodingOptions.adaptCmd { HlsTime := some n } cmd = (cmd.append ["-hls_time", Itoa n], none) ∧
    EncodingOptions.adaptCmd { HlsListSize := some n } cmd = (cmd.append ["-hls_list_size", Itoa n], none) ∧
    EncodingOptions.adaptCmd { CRF := some 0 } cmd = (cmd.append ["-crf", "0"], none) ∧
    EncodingOptions.adaptCmd {} cmd = (cmd, none) :=
  ⟨rfl, rfl, rfl, rfl, rfl, rfl, rfl, rfl, rfl, rfl, rfl,
    (EncodingOptions.encoding_uniform _).eval_empty (by decide) (by decide) (by decide) cmd, rfl⟩

/-- C5: when a repeated option of `EncodingOptions` has its first badly-typed entry at index
`pre.length` (the entries `pre` before it and every entry of the repeated options emitted
earlier are well typed), `adaptCmd` returns the error that names the flag and that index,
and the tokens it has appended are those of the fields before the option followed by the
pairs of the entries in `pre`: nothing for the bad entry, for a later entry or for a later
field. -/
theorem EncodingOptions.adaptCmd_first_bad_entry (o : EncodingOptions) (r : Repeated)
    (pre : List StreamOption) (bad : StreamOption) (post : List StreamOption) (cmd : Cmd)
    (hearlier : ∀ e ∈ r.earlier, ∀ ro ∈ e.entries o, e.wellTyped ro.Value = true)
    (hsplit : r.entries o = pre ++ bad :: post)
    (hpre : ∀ ro ∈ pre, r.wellTyped ro.Value = true)
    (hbad : r.wellTyped bad.Value = false) :
    o.adaptCmd cmd =
      (cmd.append (tokensBefore r o ++ streamTokens r.flag r.fn pre),
        some (.error (badEntryError r pre.length))) := by
  cases r with
  | bitrate =>
    have hs : o.Bitrate = pre ++ bad :: post := hsplit
    have hfail : Emits (stepStreamOptions (Repeated.flag .bitrate) (Repeated.fn .bitrate) o.Bitrate) _ [] _ :=
      hs ▸ stepStreamOptions_badlyTyped .bitrate pre bad post hpre hbad
    exact Emits.eval (Emits.congr
      (Emits.cons_ok (stepInt_emits "-ar" o.AudioSamplerate)
      (Emits.cons_ok (stepInt_emits "-ac" o.AudioChannels)
      (Emits.cons_ok (stepInt_emits "-bf" o.BFrames)
      (Emits.runSteps_fail hfail _))))
      (by simp [tokensBefore, Repeated.flag, Repeated.fn])) cmd
  | codec =>
    have hs : o.Codec = pre ++ bad :: post := hsplit
    have h_bitrate := stepStreamOptions_wellTyped .bitrate o.Bitrate
      (hearlier .bitrate (by simp [Repeated.earlier]))
    have hfail : Emits (stepStreamOptions (Repeated.flag .codec) (Repeated.fn .codec) o.Codec) _ [] _ :=
      hs ▸ stepStreamOptions_badlyTyped .codec pre bad post hpre hbad
    exact Emits.eval (Emits.congr
      (Emits.cons_ok (stepInt_emits "-ar" o.AudioSamplerate)
      (Emits.cons_ok (stepInt_emits "-ac" o.AudioChannels)
      (Emits.cons_ok (stepInt_emits "-bf" o.BFrames)
      (Emits.cons_ok h_bitrate
      (Emits.cons_ok (stepInt_emits "-b_strategy" o.BStrategy)
      (Emits.cons_ok (stepBufSize_emits o.BufSize)
      (Emits.runSteps_fail hfail _)))))))
      (by simp [tokensBefore, Repeated.flag, Repeated.fn])) cmd
  | filters =>
    have hs : o.Filters = pre ++ bad :: post := hsplit
    have h_bitrate := stepStreamOptions_wellTyped .bitrate o.Bitrate
      (hearlier .bitrate (by simp [Repeated.earlier]))
    have h_codec := stepStreamOptions_wellTyped .codec o.Codec
      (hearlier .codec (by simp [Repeated.earlier]))
    have hfail : Emits (stepStreamOptions (Repeated.flag .filters) (Repeated.fn .filters) o.Filters) _ [] _ :=
      hs ▸ stepStreamOptions_badlyTyped .filters pre bad post hpre hbad
    exact Emits.eval (Emits.congr
      (Emits.cons_ok (stepInt_emits "-ar" o.AudioSamplerate)
      (Emits.cons_ok (stepInt_emits "-ac" o.AudioChannels)
      (Emits.cons_ok (stepInt_emits "-bf" o.BFrames)
      (Emits.cons_ok h_bitrate
      (Emits.cons_ok (stepInt_emits "-b_strategy" o.BStrategy)
      (Emits.cons_ok (stepBufSize_emits o.BufSize)
      (Emits.cons_ok h_codec
      (Emits.cons_ok (stepString_emits "-coder" o.Coder)
      (Emits.cons_ok (stepFloat_emits "-cq" o.ConstantQuality 3)
      (Emits.cons_ok (stepInt_emits "-crf" o.CRF)
      (Emits.runSteps_fail hfail _)))))))))))
      (by simp [tokensBefore, Repeated.flag, Repeated.fn])) cmd
  | maxrate =>
    have hs : o.Maxrate = pre ++ bad :: post := hsplit
    have h_bitrate := stepStreamOptions_wellTyped .bitrate o.Bitrate
      (hearlier .bitrate (by simp [Repeated.earlier]))
    have h_codec := stepStreamOptions_wellTyped .codec o.Codec
      (hearlier .codec (by simp [Repeated.earlier]))
    have h_filters := stepStreamOptions_wellTyped .filters o.Filters
      (hearlier .filters (by simp [Repeated.earlier]))
    have hfail : Emits (stepStreamOptions (Repeated.flag .maxrate) (Repeated.fn .maxrate) o.Maxrate) _ [] _ :=
      hs ▸ stepStreamOptions_badlyTyped .maxrate pre bad post hpre hbad
    exact Emits.eval (Emits.congr
      (Emits.cons_ok (stepInt_emits "-ar" o.AudioSamplerate)
      (Emits.cons_ok (stepInt_emits "-ac" o.AudioChannels)
      (Emits.cons_ok (stepInt_emits "-bf" o.BFrames)
      (Emits.cons_ok h_bitrate
      (Emits.cons_ok (stepInt_emits "-b_strategy" o.BStrategy)
      (Emits.cons_ok (stepBufSize_emits o.BufSize)
      (Emits.cons_ok h_codec
      (Emits.cons_ok (stepString_emits "-coder" o.Coder)
      (Emits.cons_ok (stepFloat_emits "-cq" o.ConstantQuality 3)
      (Emits.cons_ok (stepInt_emits "-crf" o.CRF)
      (Emits.cons_ok h_filters
      (Emits.cons_ok (stepFloat_emits "-r" o.Framerate 3)
      (Emits.cons_ok (stepString_emits "-s" o.FrameSize)
      (Emits.cons_ok (stepInt_emits "-g" o.GOP)
      (Emits.cons_ok (stepInt_emits "-keyint_min" o.KeyintMin)
      (Emits.cons_ok (stepFloat_emits "-level" o.Level 1)
      (Emits.runSteps_fail hfail _)))))))))))))))))
      (by simp [tokensBefore, Repeated.flag, Repeated.fn])) cmd
  | minrate =>
    have hs : o.Minrate = pre ++ bad :: post := hsplit
    have h_bitrate := stepStreamOptions_wellTyped .bitrate o.Bitrate
      (hearlier .bitrate (by simp [Repeated.earlier]))
    have h_codec := stepStreamOptions_wellTyped .codec o.Codec
      (hearlier .codec (by simp [Repeated.earlier]))
    have h_filters := stepStreamOptions_wellTyped .filters o.Filters
      (hearlier .filters (by simp [Repeated.earlier]))
    have h_maxrate := stepStreamOptions_wellTyped .maxrate o.Maxrate
      (hearlier .maxrate (by simp [Repeated.earlier]))
    have hfail : Emits (stepStreamOptions (Repeated.flag .minrate) (Repeated.fn .minrate) o.Minrate) _ [] _ :=
      hs ▸ stepStreamOptions_badlyTyped .minrate pre bad post hpre hbad
    exact Emits.eval (Emits.congr
      (Emits.cons_ok (stepInt_emits "-ar" o.AudioSamplerate)
      (Emits.cons_ok (stepInt_emits "-ac" o.AudioChannels)
      (Emits.cons_ok (stepInt_emits "-bf" o.BFrames)
      (Emits.cons_ok h_bitrate
      (Emits.cons_ok (stepInt_emits "-b_strategy" o.BStrategy)
      (Emits.cons_ok (stepBufSize_emits o.BufSize)
      (Emits.cons_ok h_codec
      (Emits.cons_ok (stepString_emits "-coder" o.Coder)
      (Emits.cons_ok (stepFloat_emits "-cq" o.ConstantQuality 3)
      (Emits.cons_ok (stepInt_emits "-crf" o.CRF)
      (Emits.cons_ok h_filters
      (Emits.cons_ok (stepFloat_emits "-r" o.Framerate 3)
      (Emits.cons_ok (stepString_emits "-s" o.FrameSize)
      (Emits.cons_ok (stepInt_emits "-g" o.GOP)
      (Emits.cons_ok (stepInt_emits "-keyint_min" o.KeyintMin)
      (Emits.cons_ok (stepFloat_emits "-level" o.Level 1)
      (Emits.cons_ok h_maxrate
      (Emits.runSteps_fail hfail _))))))))))))))))))
      (by simp [tokensBefore, Repeated.flag, Repeated.fn])) cmd
  | profile =>
    have hs : o.Profile = pre ++ bad :: post := hsplit
    have h_bitrate := stepStreamOptions_wellTyped .bitrate o.Bitrate
      (hearlier .bitrate (by simp [Repeated.earlier]))
    have h_codec := stepStreamOptions_wellTyped .codec o.Codec
      (hearlier .codec (by simp [Repeated.earlier]))
    have h_filters := stepStreamOptions_wellTyped .filters o.Filters
      (hearlier .filters (by simp [Repeated.earlier]))
    have h_maxrate := stepStreamOptions_wellTyped .maxrate o.Maxrate
      (hearlier .maxrate (by simp [Repeated.earlier]))
    have h_minrate := stepStreamOptions_wellTyped .minrate o.Minrate
      (hearlier .minrate (by simp [Repeated.earlier]))
    have hfail : Emits (stepStreamOptions (Repeated.flag .profile) (Repeated.fn .profile) o.Profile) _ [] _ :=
      hs ▸ stepStreamOptions_badlyTyped .profile pre bad post hpre hbad
    exact Emits.eval (Emits.congr
      (Emits.cons_ok (stepInt_emits "-ar" o.AudioSamplerate)
      (Emits.cons_ok (stepInt_emits "-ac" o.AudioChannels)
      (Emits.cons_ok (stepInt_emits "-bf" o.BFrames)
      (Emits.cons_ok h_bitrate
      (Emits.cons_ok (stepInt_emits "-b_strategy" o.BStrategy)
      (Emits.cons_ok (stepBufSize_emits o.BufSize)
      (Emits.cons_ok h_codec
      (Emits.cons_ok (stepString_emits "-coder" o.Coder)
      (Emits.cons_ok (stepFloat_emits "-cq" o.ConstantQuality 3)
      (Emits.cons_ok (stepInt_emits "-crf" o.CRF)
      (Emits.cons_ok h_filters
      (Emits.cons_ok (stepFloat_emits "-r" o.Framerate 3)
      (Emits.cons_ok (stepString_emits "-s" o.FrameSize)
      (Emits.cons_ok (stepInt_emits "-g" o.GOP)
      (Emits.cons_ok (stepInt_emits "-keyint_min" o.KeyintMin)
      (Emits.cons_ok (stepFloat_emits "-level" o.Level 1)
      (Emits.cons_ok h_maxrate
      (Emits.cons_ok h_minrate
      (Emits.cons_ok (stepString_emits "-preset" o.Preset)
      (Emits.runSteps_fail hfail _))))))))))))))))))))
      (by simp [tokensBefore, Repeated.flag, Repeated.fn])) cmd

theorem EncodingOptions.adaptCmd_first_bad_entry_witness :
    (∀ e ∈ Repeated.earlier .codec,
      ∀ ro ∈ e.entries
        { AudioChannels := some 2, Bitrate := [{ Value := .number false false "M" (.int 2) }],
          Codec := [{ Value := .string "libx264" }, { Value := .int 1 },
            { Value := .string "aac" }],
          Preset := "fast" }, e.wellTyped ro.Value = true) ∧
    (∀ ro ∈ [({ Value := .string "libx264" } : StreamOption)],
      Repeated.wellTyped .codec ro.Value = true) ∧
    Repeated.wellTyped .codec (.int 1) = false ∧
    EncodingOptions.adaptCmd
        { AudioChannels := some 2, Bitrate := [{ Value := .number false false "M" (.int 2) }],
          Codec := [{ Value := .string "libx264" }, { Value := .int 1 },
            { Value := .string "aac" }],
          Preset := "fast" }
        { Args := ["ffmpeg"], Env := [] } =
      ({ Args := ["ffmpeg", "-ac", "2", "-b", "2M", "-codec", "libx264"], Env := [] },
        some (.error ("astiffmpeg: adapting cmd for -codec option #1 failed: "
          ++ "astiffmpeg: adapting cmd for stream option -codec failed: "
          ++ "astiffmpeg: value should be a string"))) :=
  ⟨by decide, by decide, rfl,
    (EncodingOptions.adaptCmd_first_bad_entry
      { AudioChannels := some 2, Bitrate := [{ Value := .number false false "M" (.int 2) }],
        Codec := [{ Value := .string "libx264" }, { Value := .int 1 },
          { Value := .string "aac" }],
        Preset := "fast" }
      .codec [{ Value := .string "libx264" }] { Value := .int 1 } [{ Value := .string "aac" }]
      { Args := ["ffmpeg"], Env := [] } (by decide) rfl (by decide) rfl).trans (by decide)⟩

/-- C6 (as the code has it): with `OutputNum = N` set and a non-empty list of declared
chains, the synthetic chain `split=N[out0]...[out(N-1)]` is the last chain of the rendered
`-filter_complex` value: it follows the rendering of every declared chain. -/
theorem ComplexFilterOptions.split_chain_last (o : ComplexFilterOptions) (n : Int) (cmd : Cmd)
    (hn : o.OutputNum = some n) (_hne : o.ComplexFilters ≠ []) :
    o.adaptCmd cmd =
      (cmd.append ["-filter_complex",
        String.intercalate "," (chainTexts o.ComplexFilters ++ [splitText n])], none) :=
  o.adaptCmd_with_split n cmd hn

theorem ComplexFilterOptions.split_chain_last_witness :
    ComplexFilterOptions.OutputNum
        { OutputNum := some 2, ComplexFilters := [{ Filters := ["scale=640:360"] }] } = some 2 ∧
    ComplexFilterOptions.ComplexFilters
        { OutputNum := some 2, ComplexFilters := [{ Filters := ["scale=640:360"] }] } ≠ [] ∧
    ComplexFilterOptions.adaptCmd
        { OutputNum := some 2, ComplexFilters := [{ Filters := ["scale=640:360"] }] }
        { Args := ["ffmpeg"], Env := [] } =
      ({ Args := ["ffmpeg", "-filter_complex", "scale=640:360,split=2[out0][out1]"], Env := [] },
        none) :=
  ⟨rfl, by decide,
    (ComplexFilterOptions.split_chain_last
      { OutputNum := some 2, ComplexFilters := [{ Filters := ["scale=640:360"] }] } 2
      { Args := ["ffmpeg"], Env := [] } rfl (by decide)).trans (by decide)⟩

/-- C6 as stated fails: with `OutputNum = 2` and the declared chain `scale=640:360` the
rendered value is `scale=640:360,split=2[out0][out1]`, which does not begin with the
synthetic chain. -/
theorem ComplexFilterOptions.split_chain_first_counterexample :
    ComplexFilterOptions.adaptCmd
        { OutputNum := some 2, ComplexFilters := [{ Filters := ["scale=640:360"] }] }
        { Args := [], Env := [] } =
      ({ Args := ["-filter_complex", "scale=640:360,split=2[out0][out1]"], Env := [] }, none) ∧
    ¬ ∃ rest : String,
      (ComplexFilterOptions.adaptCmd
        { OutputNum := some 2, ComplexFilters := [{ Filters := ["scale=640:360"] }] }
        { Args := [], Env := [] }).1.Args = ["-filter_complex", splitChain 2 ++ rest] := by
  refine ⟨by decide, ?_⟩
  rintro ⟨rest, h⟩
  have hv : (ComplexFilterOptions.adaptCmd
        { OutputNum := some 2, ComplexFilters := [{ Filters := ["scale=640:360"] }] }
        { Args := [], Env := [] }).1.Args
      = ["-filter_complex", "scale=640:360,split=2[out0][out1]"] := by decide
  have hs : splitChain 2 = "split=2[out0][out1]" := by decide
  rw [hv, hs] at h
  have h2 := congrArg (fun l => (l.map String.data).map (fun cs => cs.take 2)) h
  simp at h2

/-- C7: with `OutputNum = N` (`N ≥ 0`) and no declared chain, `adaptCmd` appends exactly
`-filter_complex` and `split=N` followed by the labels `[out0]`, ..., `[out(N-1)]` in
increasing order, each once; for `N = 2` the value is `split=2[out0][out1]`. -/
theorem ComplexFilterOptions.split_only (cmd : Cmd) :
    (∀ N : Nat,
      ComplexFilterOptions.adaptCmd { OutputNum := some (N : Int), ComplexFilters := [] } cmd =
        (cmd.append ["-filter_complex",
          "split=" ++ Itoa N
            ++ String.join ((List.range N).map (fun i => "[out" ++ Itoa i ++ "]"))], none)) ∧
    ComplexFilterOptions.adaptCmd { OutputNum := some 2, ComplexFilters := [] } cmd =
      (cmd.append ["-filter_complex", "split=2[out0][out1]"], none) := by
  have h : ∀ N : Nat,
      ComplexFilterOptions.adaptCmd { OutputNum := some (N : Int), ComplexFilters := [] } cmd =
        (cmd.append ["-filter_complex",
          "split=" ++ Itoa N
            ++ String.join ((List.range N).map (fun i => "[out" ++ Itoa i ++ "]"))], none) := by
    intro N
    rw [ComplexFilterOptions.adaptCmd_with_split _ (N : Int) cmd rfl]
    simp [chainTexts, splitText, String.intercalate, String.intercalate.go]
  refine ⟨h, ?_⟩
  have h2 := h 2
  have e : "split=" ++ Itoa ((2 : Nat) : Int)
      ++ String.join ((List.range 2).map (fun i => "[out" ++ Itoa (i : Int) ++ "]"))
      = "split=2[out0][out1]" := by decide
  rw [e] at h2
  exact h2

/-- C8: without `OutputNum` and with at least one chain, the value after `-filter_complex`
is the `,`-join, in declaration order, of the chain texts that are not empty, the text of a
chain being its input specifiers in brackets, its filters joined by `,` and its output
specifiers in brackets. -/
theorem ComplexFilterOptions.chains_joined (o : ComplexFilterOptions) (cmd : Cmd)
    (hn : o.OutputNum = none) (hne : o.ComplexFilters ≠ []) :
    o.adaptCmd cmd =
      (cmd.append ["-filter_complex",
        String.intercalate ","
          ((o.ComplexFilters.map (fun cf =>
              String.join (cf.InputStreams.map (fun i => "[" ++ i.string ++ "]"))
                ++ String.intercalate "," cf.Filters
                ++ String.join (cf.OutputStreams.map (fun s => "[" ++ s.string ++ "]")))).filter
            (fun v => v ≠ ""))], none) :=
  o.adaptCmd_without_split cmd hn hne

theorem ComplexFilterOptions.chains_joined_witness :
    ComplexFilterOptions.OutputNum
        { ComplexFilters :=
            [{ InputStreams := [{ Name := "0:v" }, { Typ := "a", Index := some 1 }],
               Filters := ["scale=640:360", "fps=25"],
               OutputStreams := [{ Name := "v0" }] },
             {},
             { Filters := ["anull"] }] } = none ∧
    ComplexFilterOptions.adaptCmd
        { ComplexFilters :=
            [{ InputStreams := [{ Name := "0:v" }, { Typ := "a", Index := some 1 }],
               Filters := ["scale=640:360", "fps=25"],
               OutputStreams := [{ Name := "v0" }] },
             {},
             { Filters := ["anull"] }] }
        { Args := ["ffmpeg"], Env := [] } =
      ({ Args := ["ffmpeg", "-filter_complex", "[0:v][a:1]scale=640:360,fps=25[v0],anull"],
         Env := [] }, none) :=
  ⟨rfl,
    (ComplexFilterOptions.chains_joined
      { ComplexFilters :=
          [{ InputStreams := [{ Name := "0:v" }, { Typ := "a", Index := some 1 }],
             Filters := ["scale=640:360", "fps=25"],
             OutputStreams := [{ Name := "v0" }] },
           {},
           { Filters := ["anull"] }] }
      { Args := ["ffmpeg"], Env := [] } rfl (by decide)).trans (by decide)⟩

/-- C9: a `ComplexFilterOptions` with no `OutputNum` and no chain appends no token: the
command is unchanged, so it contributes no `-filter_complex` flag. -/
theorem ComplexFilterOptions.empty_graph (cmd : Cmd) :
    ComplexFilterOptions.adaptCmd { OutputNum := none, ComplexFilters := [] } cmd = (cmd, none) ∧
    "-filter_complex" ∉ appended
      (ComplexFilterOptions.adaptCmd { OutputNum := none, ComplexFilters := [] }) :=
  ⟨rfl, by decide⟩

/-- C10: a `StreamSpecifier` with a non-empty `Name` renders as exactly `Name`, whatever its
`Type` and `Index`. -/
theorem StreamSpecifier.name_dominates (s : StreamSpecifier) (h : s.Name ≠ "") :
    s.string = s.Name := by
  simp [StreamSpecifier.string, (length_pos_iff_ne_empty s.Name).mpr h]

theorem StreamSpecifier.name_dominates_witness :
    StreamSpecifier.Name { Name := "0:v", Typ := "a", Index := some 1 } ≠ "" ∧
    StreamSpecifier.string { Name := "0:v", Typ := "a", Index := some 1 } = "0:v" :=
  ⟨by decide, StreamSpecifier.name_dominates { Name := "0:v", Typ := "a", Index := some 1 }
    (by decide)⟩

/-- C11: a `StreamSpecifier` with an empty `Name` renders as `Type`, `:` and the decimal
index when both are set, as `Type` alone when only `Type` is set, as the decimal index alone
when only `Index` is set, and as the empty string when neither is set. -/
theorem StreamSpecifier.string_without_name (s : StreamSpecifier) (h : s.Name = "") :
    (∀ idx, s.Typ ≠ "" → s.Index = some idx → s.string = s.Typ ++ ":" ++ Itoa idx) ∧
    (s.Typ ≠ "" → s.Index = none → s.string = s.Typ) ∧
    (∀ idx, s.Typ = "" → s.Index = some idx → s.string = Itoa idx) ∧
    (s.Typ = "" → s.Index = none → s.string = "") := by
  have hn : ¬ s.Name.length > 0 := by rw [length_pos_iff_ne_empty]; simp [h]
  refine ⟨fun idx ht hi => ?_, fun ht hi => ?_, fun idx ht hi => ?_, fun ht hi => ?_⟩
  · simp [StreamSpecifier.string, hn, hi, (length_pos_iff_ne_empty s.Typ).mpr ht]
  · simp [StreamSpecifier.string, hn, hi, (length_pos_iff_ne_empty s.Typ).mpr ht]
  · simp [StreamSpecifier.string, h, hi, ht]
  · simp [StreamSpecifier.string, h, hi, ht]

theorem StreamSpecifier.string_without_name_witness :
    StreamSpecifier.string { Typ := "a", Index := some 1 } = "a:1" ∧
    StreamSpecifier.string { Typ := "v" } = "v" ∧
    StreamSpecifier.string { Index := some 1 } = "1" ∧
    StreamSpecifier.string {} = "" :=
  ⟨(StreamSpecifier.string_without_name { Typ := "a", Index := some 1 } rfl).1 1
      (by decide) rfl,
    (StreamSpecifier.string_without_name { Typ := "v" } rfl).2.1 (by decide) rfl,
    (StreamSpecifier.string_without_name { Index := some 1 } rfl).2.2.1 1 rfl rfl,
    (StreamSpecifier.string_without_name {} rfl).2.2.2 rfl rfl⟩

/-- C14: `Number.string` returns, for an `int` value, its decimal text followed by the
prefix, `i` when binary and `B` when byte; for a `float64` value, the same with the numeric
part being the value formatted with 3 decimals and stripped of trailing zeros and of a
trailing `.` (100.0 gives `100`, 1.5 gives `1.5`, 0.0 gives `0`); for a value of any other
kind, the empty string. -/
theorem Number.string_spec (n : Number) :
    (∀ v : Int, n.Value = .int v →
      n.string = some (Itoa v ++ n.Prefix ++ (if n.BinaryMultiple then "i" else "")
        ++ (if n.ByteMultiple then "B" else ""))) ∧
    (∀ v : Float64, n.Value = .float64 v →
      n.string = some (trimNumeric (FormatFloat v 3) ++ n.Prefix
        ++ (if n.BinaryMultiple then "i" else "") ++ (if n.ByteMultiple then "B" else ""))) ∧
    ((∀ v : Int, n.Value ≠ .int v) → (∀ v : Float64, n.Value ≠ .float64 v) →
      n.string = some "") ∧
    trimNumeric (FormatFloat (.finite false 100 0) 3) = "100" ∧
    trimNumeric (FormatFloat (.finite false 3 (-1)) 3) = "1.5" ∧
    trimNumeric (FormatFloat (.finite false 0 0) 3) = "0" := by
  refine ⟨fun v h => ?_, fun v h => ?_, fun hi hf => ?_, by decide, by decide, by decide⟩
  · simp [Number.string, h, String.append_assoc]
  · simp [Number.string_float64 n v h, Number.markers, String.append_assoc]
  · rcases n with ⟨bin, byte, pfx, val⟩
    cases val <;> simp_all [Number.string]

theorem Number.string_spec_witness :
    Number.string { Value := .int 128, Prefix := "K", BinaryMultiple := true } = some "128Ki" ∧
    Number.string
      { Value := .float64 (.finite false 3 (-1)), Prefix := "M", ByteMultiple := true }
      = some "1.5MB" ∧
    Number.string { Value := .string "2M", Prefix := "M" } = some "" :=
  ⟨((Number.string_spec
        { Value := .int 128, Prefix := "K", BinaryMultiple := true }).1 128 rfl).trans
      (by decide),
    ((Number.string_spec
        { Value := .float64 (.finite false 3 (-1)), Prefix := "M", ByteMultiple := true }).2.1
      (.finite false 3 (-1)) rfl).trans (by decide),
    (Number.string_spec { Value := .string "2M", Prefix := "M" }).2.2.1
      (fun v => by simp) (fun v => by simp)⟩

/-- C17 (what the code does): an `EncodingOptions` whose only `Customize` entry holds a value
that is neither an `int`, a `float64` nor a `string` makes `adaptCmd` panic; no error is
returned. A `bool`, a `nil` value and a slice are instances. -/
theorem EncodingOptions.adaptCmd_customize_panic (key : String) (cmd : Cmd) :
    (∀ value : Astiffmpeg.Value, value.customizable = false →
      ∃ msg, EncodingOptions.adaptCmd { Customize := [(key, value)] } cmd
        = (cmd, some (.panic msg))) ∧
    EncodingOptions.adaptCmd { Customize := [(key, .bool true)] } cmd
      = (cmd, some (.panic "interface conversion: interface {} is not string")) ∧
    EncodingOptions.adaptCmd { Customize := [(key, .nil)] } cmd
      = (cmd, some (.panic "invalid memory address or nil pointer dereference")) ∧
    EncodingOptions.adaptCmd { Customize := [(key, .other "[]string")] } cmd
      = (cmd, some (.panic "interface conversion: interface {} is not string")) := by
  refine ⟨fun value h => ?_, rfl, rfl, rfl⟩
  cases value <;> simp [Value.customizable] at h <;> exact ⟨_, rfl⟩

/-- C19: the command `Exec` has assembled when it runs the process is the one `BuildCmd`
returns for the same global options, inputs and outputs and an empty complex filter, and
`Exec` fails before the run exactly when that `BuildCmd` call fails, with the same error
(which names the input or output index). -/
theorem Exec_eq_BuildCmd (binaryPath : String) (env : List String) (g : GlobalOptions)
    (ins : List Input) (outs : List Output) :
    Exec binaryPath env g ins outs = BuildCmd binaryPath env g ins {} outs := by
  have hskip : ∀ cmd : Cmd, (ComplexFilterOptions.adaptCmd {} cmd).1 = cmd := fun _ => rfl
  simp only [Exec, BuildCmd, runSteps, Step.ofFn, hskip]

/-- C20: every emission step only appends. For every option group the argument list after
`adaptCmd` has the list before the call as a prefix, whether or not the call fails. When
`BuildCmd` fails at input or output `k` (`pre.length`), the command it returns still holds
the binary path, the global tokens, the tokens of every input and output before `k` (and of
the complex filter when an output fails) and the tokens entry `k` appended before it failed,
and the failure is the one of entry `k` wrapped with the index. -/
theorem adaptCmd_only_appends (cmd : Cmd) :
    (∀ g : GlobalOptions, cmd.Args <+: (g.adaptCmd cmd).Args) ∧
    (∀ l : LogOptions, cmd.Args <+: (l.adaptCmd cmd).Args) ∧
    (∀ i : Input, cmd.Args <+: (i.adaptCmd cmd).1.Args) ∧
    (∀ d : DecodingOptions, cmd.Args <+: (d.adaptCmd cmd).1.Args) ∧
    (∀ o : Output, cmd.Args <+: (o.adaptCmd cmd).1.Args) ∧
    (∀ e : EncodingOptions, cmd.Args <+: (e.adaptCmd cmd).1.Args) ∧
    (∀ m : MapOptions, cmd.Args <+: (MapOptions.adaptCmd m cmd).Args) ∧
    (∀ c : ComplexFilterOptions, cmd.Args <+: (c.adaptCmd cmd).1.Args) ∧
    (∀ (binaryPath : String) (env : List String) (g : GlobalOptions) (pre : List Input)
        (bad : Input) (post : List Input) (c : ComplexFilterOptions) (outs : List Output)
        (f : Failure),
      (∀ i ∈ pre, outcome i.adaptCmd = none) → outcome bad.adaptCmd = some f →
      (BuildCmd binaryPath env g (pre ++ bad :: post) c outs).1.Args =
          [binaryPath] ++ appended (Step.ofFn g.adaptCmd)
            ++ pre.flatMap (fun i => appended i.adaptCmd) ++ appended bad.adaptCmd ∧
      (BuildCmd binaryPath env g (pre ++ bad :: post) c outs).2 =
          some (f.wrap ("astiffmpeg: adapting cmd for input #" ++ toString pre.length
            ++ " failed"))) ∧
    (∀ (binaryPath : String) (env : List String) (g : GlobalOptions) (ins : List Input)
        (c : ComplexFilterOptions) (pre : List Output) (bad : Output) (post : List Output)
        (f : Failure),
      (∀ i ∈ ins, outcome i.adaptCmd = none) → (∀ o ∈ pre, outcome o.adaptCmd = none) →
      outcome bad.adaptCmd = some f →
      (BuildCmd binaryPath env g ins c (pre ++ bad :: post)).1.Args =
          [binaryPath] ++ appended (Step.ofFn g.adaptCmd)
            ++ ins.flatMap (fun i => appended i.adaptCmd) ++ appended c.adaptCmd
            ++ pre.flatMap (fun o => appended o.adaptCmd) ++ appended bad.adaptCmd ∧
      (BuildCmd binaryPath env g ins c (pre ++ bad :: post)).2 =
          some (f.wrap ("astiffmpeg: adapting cmd for output #" ++ toString pre.length
            ++ " failed"))) := by
  refine ⟨fun g => ?_, fun l => ?_, fun i => i.input_uniform.prefix_args cmd,
    fun d => d.decoding_uniform.prefix_args cmd, fun o => o.output_uniform.prefix_args cmd,
    fun e => e.encoding_uniform.prefix_args cmd, fun m => ?_,
    fun c => c.complex_adaptCmd_emits.uniform.prefix_args cmd, ?_, ?_⟩
  · rw [g.global_adaptCmd_eq]; exact List.prefix_append _ _
  · rw [l.log_adaptCmd_eq]; exact List.prefix_append _ _
  · rw [MapOptions.mapOptions_adaptCmd_eq]; exact List.prefix_append _ _
  · intro binaryPath env g pre bad post c outs f hpre hbad
    rw [g.global_adaptCmd_emits.args_eq]
    exact BuildCmd_input_fails binaryPath env g pre bad post c outs f hpre hbad
  · intro binaryPath env g ins c pre bad post f hin hpre hbad
    rw [g.global_adaptCmd_emits.args_eq, c.complex_adaptCmd_emits.args_eq]
    exact BuildCmd_output_fails binaryPath env g ins c pre bad post f hin hpre hbad

theorem adaptCmd_only_appends_witness :
    (BuildCmd "ffmpeg" [] {} [{ Path := "0.mp4" }]
        {}
        [{ Path := "1.mp4" },
         { Path := "2.mp4",
           Options := some
            { Format := "mp4",
              Encoding := some { AudioChannels := some 2, Codec := [{ Value := .int 1 }] } } },
         { Path := "3.mp4" }]).1.Args =
      ["ffmpeg", "-hide_banner", "-i", "0.mp4", "-y", "1.mp4", "-ac", "2"] ∧
    (BuildCmd "ffmpeg" [] {} [{ Path := "0.mp4" }]
        {}
        [{ Path := "1.mp4" },
         { Path := "2.mp4",
           Options := some
            { Format := "mp4",
              Encoding := some { AudioChannels := some 2, Codec := [{ Value := .int 1 }] } } },
         { Path := "3.mp4" }]).2 =
      some (.error ("astiffmpeg: adapting cmd for output #1 failed: "
        ++ "astiffmpeg: adapting cmd for output failed: "
        ++ "astiffmpeg: adapting cmd for encoding options failed: "
        ++ "astiffmpeg: adapting cmd for -codec option #0 failed: "
        ++ "astiffmpeg: adapting cmd for stream option -codec failed: "
        ++ "astiffmpeg: value should be a string")) :=
  have h := (adaptCmd_only_appends { Args := [], Env := [] }).2.2.2.2.2.2.2.2.2
    "ffmpeg" [] {} [{ Path := "0.mp4" }] {} [{ Path := "1.mp4" }]
    { Path := "2.mp4",
      Options := some
        { Format := "mp4",
          Encoding := some { AudioChannels := some 2, Codec := [{ Value := .int 1 }] } } }
    [{ Path := "3.mp4" }]
    (.error ("astiffmpeg: adapting cmd for output failed: "
        ++ "astiffmpeg: adapting cmd for encoding options failed: "
        ++ "astiffmpeg: adapting cmd for -codec option #0 failed: "
        ++ "astiffmpeg: adapting cmd for stream option -codec failed: "
        ++ "astiffmpeg: value should be a string"))
    (by decide) (by decide) rfl
  ⟨h.1.trans (by decide), h.2.trans rfl⟩

/-- C18 as stated fails: the map `{"a": 1, "b": 2}` in `Customize` can be visited in both
orders, and the two calls of `BuildCmd` then return different argument sequences. -/
theorem BuildCmd_deterministic_counterexample :
    List.Forall₂ Output.sameAs
      [{ Path := "out.mp4",
         Options := some { Encoding := some { Customize := [("a", .int 1), ("b", .int 2)] } } }]
      [{ Path := "out.mp4",
         Options := some { Encoding := some { Customize := [("b", .int 2), ("a", .int 1)] } } }] ∧
    (BuildCmd "ffmpeg" [] {} [{ Path := "in.mp4" }] {}
      [{ Path := "out.mp4",
         Options := some { Encoding := some { Customize := [("a", .int 1), ("b", .int 2)] } } }]
      ).1.Args
      = ["ffmpeg", "-hide_banner", "-i", "in.mp4", "-a", "1", "-b", "2", "-y", "out.mp4"] ∧
    (BuildCmd "ffmpeg" [] {} [{ Path := "in.mp4" }] {}
      [{ Path := "out.mp4",
         Options := some { Encoding := some { Customize := [("b", .int 2), ("a", .int 1)] } } }]
      ).1.Args
      = ["ffmpeg", "-hide_banner", "-i", "in.mp4", "-b", "2", "-a", "1", "-y", "out.mp4"] ∧
    BuildCmd "ffmpeg" [] {} [{ Path := "in.mp4" }] {}
      [{ Path := "out.mp4",
         Options := some { Encoding := some { Customize := [("a", .int 1), ("b", .int 2)] } } }]
    ≠ BuildCmd "ffmpeg" [] {} [{ Path := "in.mp4" }] {}
      [{ Path := "out.mp4",
         Options := some { Encoding := some { Customize := [("b", .int 2), ("a", .int 1)] } } }] :=
  ⟨List.Forall₂.cons ⟨rfl, rfl, rfl, rfl, List.Perm.swap _ _ _⟩ List.Forall₂.nil,
    by decide, by decide, by decide⟩

/-- C15: for a `Number` whose `Value` is an `int` or a `float64` `v`, `float64()` is
`v × c × m^r` in `float64` arithmetic, where `c` is 8 for a byte multiple and 1 otherwise,
`m` is 1024 for a binary multiple and 1000 otherwise, and `r` is the rank of the lower-cased
prefix (`k` 1, `m` 2, `g` 3, `t` 4, `p` 5, anything else 0). -/
theorem Number.float64_spec (ToLower : String → String) (n : Number) :
    (∀ v : Int, n.Value = .int v →
      n.float64 ToLower =
        ((Float64.ofInt v).mul
            (if n.ByteMultiple then .finite false 8 0 else .finite false 1 0)).mul
          (Pow (if n.BinaryMultiple then .finite false 1024 0 else .finite false 1000 0)
            (prefixRank (ToLower n.Prefix)))) ∧
    (∀ v : Float64, n.Value = .float64 v → v.Valid →
      n.float64 ToLower =
        (v.mul (if n.ByteMultiple then .finite false 8 0 else .finite false 1 0)).mul
          (Pow (if n.BinaryMultiple then .finite false 1024 0 else .finite false 1000 0)
            (prefixRank (ToLower n.Prefix)))) := by
  refine ⟨fun v h => ?_, fun v h hv => ?_⟩
  · simp only [Number.float64, h]
    exact Number.scale_eq ToLower n _ (Float64.ofInt_valid v)
  · simp only [Number.float64, h]
    exact Number.scale_eq ToLower n v hv

theorem Number.float64_spec_witness :
    Number.float64 asciiToLower
        { Value := .float64 (.finite false 3 (-1)), Prefix := "K", BinaryMultiple := true,
          ByteMultiple := true } = .finite false 24576 (-1) ∧
    Number.float64 asciiToLower { Value := .int 2, Prefix := "M" } = .finite false 2000000 0 :=
  ⟨((Number.float64_spec asciiToLower
        { Value := .float64 (.finite false 3 (-1)), Prefix := "K", BinaryMultiple := true,
          ByteMultiple := true }).2 (.finite false 3 (-1)) rfl
      (Or.inr ⟨by decide, by decide, by decide⟩)).trans (by decide),
    ((Number.float64_spec asciiToLower { Value := .int 2, Prefix := "M" }).1 2 rfl).trans
      (by decide)⟩

/-- C16: for a fixed base value above zero (an `int` or a `float64`) and fixed
`BinaryMultiple` and `ByteMultiple` flags, `float64()` is strictly increasing in the rank of
the prefix as long as the smaller magnitude has not overflowed: when the rank of `p` is below
the rank of `q` and the magnitude with `p` is not the positive infinity, the magnitude with
`p` is less than the magnitude with `q`; in particular K, M, G, T, P in that order. -/
theorem Number.float64_strict_mono (ToLower : String → String) (n : Number) (p q : String)
    (hv : (∃ v : Int, n.Value = .int v ∧ 0 < v) ∨
      (∃ v : Float64, n.Value = .float64 v ∧ v.Valid ∧
        Float64.lt (.finite false 0 0) v = true))
    (hr : prefixRank (ToLower p) < prefixRank (ToLower q))
    (hfin : Number.float64 ToLower { n with Prefix := p } ≠ .inf false) :
    Float64.lt (Number.float64 ToLower { n with Prefix := p })
      (Number.float64 ToLower { n with Prefix := q }) = true := by
  rcases hv with ⟨v, hn, hpos⟩ | ⟨v, hn, hvalid, hpos⟩
  · simp only [Number.float64, hn] at hfin ⊢
    exact Number.scale_lt_scale ToLower n p q _ (Float64.ofInt_valid v)
      (Float64.ofInt_posOrInf v hpos) hr hfin
  · simp only [Number.float64, hn] at hfin ⊢
    exact Number.scale_lt_scale ToLower n p q v hvalid
      (Float64.posOrInf_of_pos hvalid hpos) hr hfin

theorem Number.float64_strict_mono_witness :
    Float64.lt
      (Number.float64 asciiToLower { Value := .int 3, Prefix := "K", ByteMultiple := true })
      (Number.float64 asciiToLower { Value := .int 3, Prefix := "M", ByteMultiple := true })
      = true :=
  Number.float64_strict_mono asciiToLower { Value := .int 3, ByteMultiple := true } "K" "M"
    (Or.inl ⟨3, rfl, by decide⟩) (by decide) (by decide)

theorem Number.float64_strict_mono_counterexample :
    Float64.lt (Number.float64 asciiToLower { Value := .int 0, Prefix := "K" })
        (Number.float64 asciiToLower { Value := .int 0, Prefix := "M" }) = false ∧
    Float64.lt (Number.float64 asciiToLower { Value := .int (-1), Prefix := "K" })
        (Number.float64 asciiToLower { Value := .int (-1), Prefix := "M" }) = false ∧
    Float64.lt
        (Number.float64 asciiToLower { Value := .float64 (.finite false 1 1000), Prefix := "T" })
        (Number.float64 asciiToLower { Value := .float64 (.finite false 1 1000), Prefix := "P" })
      = false := by
  decide

/-- C21: the per-output overwrite flag ignores the global setting. For global options whose
`Overwrite` is present and false and a non-empty output list on which `BuildCmd` succeeds,
the arguments start with the binary path, `-hide_banner`, the `-loglevel` pair when a level
is set, and then the global `-n`; they end with, for every output in list order, the tokens
of its options followed by `-y` and its path, so every output path comes directly after a
`-y`, and `-n` and `-y` both occur. -/
theorem BuildCmd_overwrite_ignored (binaryPath : String) (env : List String)
    (g : GlobalOptions) (ins : List Input) (c : ComplexFilterOptions) (outs : List Output)
    (hg : g.Overwrite = some false) (hne : outs ≠ [])
    (hok : (BuildCmd binaryPath env g ins c outs).2 = none) :
    (∃ rest, (BuildCmd binaryPath env g ins c outs).1.Args =
      [binaryPath, "-hide_banner"] ++ (match g.Log with | some l => l.tokens | none => [])
        ++ ["-n"] ++ rest) ∧
    (∃ front, (BuildCmd binaryPath env g ins c outs).1.Args =
      front ++ outs.flatMap (fun o => o.optionTokens ++ ["-y", o.Path])) ∧
    (∀ o ∈ outs, ∃ pre post, (BuildCmd binaryPath env g ins c outs).1.Args =
      pre ++ ["-y", o.Path] ++ post) ∧
    "-n" ∈ (BuildCmd binaryPath env g ins c outs).1.Args ∧
    "-y" ∈ (BuildCmd binaryPath env g ins c outs).1.Args := by
  obtain ⟨hin, hout⟩ := BuildCmd_succeeds binaryPath env g ins c outs hok
  have houts : outs.flatMap (fun o => appended o.adaptCmd) =
      outs.flatMap (fun o => o.optionTokens ++ ["-y", o.Path]) :=
    outputs_appended_of_ok outs hout
  have hall : ∀ o ∈ outs, ∃ pre post, (BuildCmd binaryPath env g ins c outs).1.Args =
      pre ++ ["-y", o.Path] ++ post := by
    intro o ho
    obtain ⟨l, r, e⟩ := List.append_of_mem ho
    rw [BuildCmd_ok binaryPath env g ins c outs hin hout, houts]
    subst e
    refine ⟨[binaryPath] ++ (g.tokens ++ (ins.flatMap (fun i => appended i.adaptCmd)
        ++ (c.tokens ++ (l.flatMap (fun o => o.optionTokens ++ ["-y", o.Path])
          ++ o.optionTokens)))),
      r.flatMap (fun o => o.optionTokens ++ ["-y", o.Path]), ?_⟩
    simp
  refine ⟨?_, ?_, hall, ?_, ?_⟩
  · rw [BuildCmd_ok binaryPath env g ins c outs hin hout]
    refine ⟨(if g.NoStats then ["-nostats"] else []) ++ (if g.Report then ["-report"] else [])
      ++ (ins.flatMap (fun i => appended i.adaptCmd)
        ++ (c.tokens ++ (outs.flatMap (fun o => appended o.adaptCmd) ++ []))), ?_⟩
    cases hl : g.Log <;> simp [GlobalOptions.tokens, hg, hl]
  · rw [BuildCmd_ok binaryPath env g ins c outs hin hout, houts]
    exact ⟨[binaryPath] ++ (g.tokens ++ (ins.flatMap (fun i => appended i.adaptCmd)
      ++ c.tokens)), by simp⟩
  · rw [BuildCmd_ok binaryPath env g ins c outs hin hout]
    simp [GlobalOptions.tokens, hg]
  · cases outs with
    | nil => exact absurd rfl hne
    | cons o os =>
      obtain ⟨pre, post, e⟩ := hall o (List.mem_cons_self _ _)
      rw [e]
      simp

theorem BuildCmd_overwrite_ignored_witness :
    (BuildCmd "ffmpeg" [] { Overwrite := some false, Log := some { Level := "error" } }
        [{ Path := "a.mp4" }] {}
        [{ Path := "b.mp4", Options := some { Format := "mp4" } }, { Path := "c.mkv" }]).1.Args
      = ["ffmpeg", "-hide_banner", "-loglevel", "error", "-n", "-i", "a.mp4",
          "-f", "mp4", "-y", "b.mp4", "-y", "c.mkv"] ∧
    "-n" ∈ (BuildCmd "ffmpeg" [] { Overwrite := some false, Log := some { Level := "error" } }
        [{ Path := "a.mp4" }] {}
        [{ Path := "b.mp4", Options := some { Format := "mp4" } }, { Path := "c.mkv" }]).1.Args ∧
    "-y" ∈ (BuildCmd "ffmpeg" [] { Overwrite := some false, Log := some { Level := "error" } }
        [{ Path := "a.mp4" }] {}
        [{ Path := "b.mp4", Options := some { Format := "mp4" } }, { Path := "c.mkv" }]).1.Args :=
  ⟨by decide,
    (BuildCmd_overwrite_ignored "ffmpeg" []
      { Overwrite := some false, Log := some { Level := "error" } } [{ Path := "a.mp4" }] {}
      [{ Path := "b.mp4", Options := some { Format := "mp4" } }, { Path := "c.mkv" }]
      rfl (by decide) (by decide)).2.2.2⟩

/-- C18 (as the code has it): determinism up to the order in which `range` visits a
`Customize` map. The lists `outs` and `outs'` stand for the same outputs, every `Customize`
map in the visiting order of one of two calls. When every `Customize` value is an `int`, a
`float64` or a `string`, the two calls of `BuildCmd` end the same way (no failure, or the
same failure), return the same environment, and return argument lists that are the same up
to the order of the pass-through pairs of an output's `Customize` map, hence the same tokens
in the same numbers; when every `Customize` holds at most one entry the two calls return the
same command. -/
theorem BuildCmd_deterministic (binaryPath : String) (env : List String) (g : GlobalOptions)
    (ins : List Input) (c : ComplexFilterOptions) (outs outs' : List Output)
    (hsame : List.Forall₂ Output.sameAs outs outs')
    (hkind : ∀ o ∈ outs, ∀ kv ∈ o.customize, kv.2.customizable = true) :
    (BuildCmd binaryPath env g ins c outs).2 = (BuildCmd binaryPath env g ins c outs').2 ∧
    (BuildCmd binaryPath env g ins c outs).1.Env =
      (BuildCmd binaryPath env g ins c outs').1.Env ∧
    SameUpToPairOrder (customizePairs outs outs') (BuildCmd binaryPath env g ins c outs).1.Args
      (BuildCmd binaryPath env g ins c outs').1.Args ∧
    List.Perm (BuildCmd binaryPath env g ins c outs).1.Args
      (BuildCmd binaryPath env g ins c outs').1.Args ∧
    ((∀ o ∈ outs, o.customize.length ≤ 1) →
      BuildCmd binaryPath env g ins c outs = BuildCmd binaryPath env g ins c outs') := by
  obtain ⟨ts, ts', es, out, hr, e, e'⟩ := BuildCmd_similar binaryPath env g ins c hsame hkind
  have hrel : SameUpToPairOrder (customizePairs outs outs') ([binaryPath] ++ ts)
      ([binaryPath] ++ ts') := .append (.same _) hr
  refine ⟨by rw [e, e'], by rw [e, e'], by rw [e, e']; exact hrel,
    by rw [e, e']; exact hrel.perm, fun hone => ?_⟩
  rw [outputs_eq_of_sameAs hsame hone]

theorem BuildCmd_deterministic_witness :
    (BuildCmd "ffmpeg" [] {} [{ Path := "in.mp4" }] {}
      [{ Path := "out.mp4",
         Options := some { Encoding := some { CRF := some 23, Customize := [("threads", .int 4), ("movflags", .string "faststart")], RemoveAudio := "y" } } }]).1.Args
      = ["ffmpeg", "-hide_banner", "-i", "in.mp4", "-crf", "23", "-threads", "4", "-movflags",
          "faststart", "-an", "-y", "out.mp4"] ∧
    (BuildCmd "ffmpeg" [] {} [{ Path := "in.mp4" }] {}
      [{ Path := "out.mp4",
         Options := some { Encoding := some { CRF := some 23, Customize := [("movflags", .string "faststart"), ("threads", .int 4)], RemoveAudio := "y" } } }]).1.Args
      = ["ffmpeg", "-hide_banner", "-i", "in.mp4", "-crf", "23", "-movflags", "faststart",
          "-threads", "4", "-an", "-y", "out.mp4"] ∧
    List.Perm
      (BuildCmd "ffmpeg" [] {} [{ Path := "in.mp4" }] {}
        [{ Path := "out.mp4",
           Options := some { Encoding := some { CRF := some 23, Customize := [("threads", .int 4), ("movflags", .string "faststart")], RemoveAudio := "y" } } }]).1.Args
      (BuildCmd "ffmpeg" [] {} [{ Path := "in.mp4" }] {}
        [{ Path := "out.mp4",
           Options := some { Encoding := some { CRF := some 23, Customize := [("movflags", .string "faststart"), ("threads", .int 4)], RemoveAudio := "y" } } }]).1.Args :=
  ⟨by decide, by decide,
    (BuildCmd_deterministic "ffmpeg" [] {} [{ Path := "in.mp4" }] {}
      [{ Path := "out.mp4",
         Options := some { Encoding := some { CRF := some 23, Customize := [("threads", .int 4), ("movflags", .string "faststart")], RemoveAudio := "y" } } }]
      [{ Path := "out.mp4",
         Options := some { Encoding := some { CRF := some 23, Customize := [("movflags", .string "faststart"), ("threads", .int 4)], RemoveAudio := "y" } } }]
      (List.Forall₂.cons ⟨rfl, rfl, rfl, rfl, List.Perm.swap _ _ _⟩ List.Forall₂.nil)
      (by decide)).2.2.2.1⟩

/-- C12 (what the code does): `numberFromString` panics, indexing the empty text, exactly
on the texts that are empty once a trailing `B` and a trailing `i` are stripped, that is on
`""`, `"B"`, `"i"` and `"iB"`, whatever `ParseFloat` returns; no parse error comes back. The
texts are taken byte by byte, so every Go `string` is covered. -/
theorem numberFromString_panics (ParseFloat : List Byte → Float64 × Option NumError) :
    numberFromString ParseFloat (utf8 "") = .panicked "index out of range [-1]" ∧
    numberFromString ParseFloat (utf8 "B") = .panicked "index out of range [-1]" ∧
    numberFromString ParseFloat (utf8 "i") = .panicked "index out of range [-1]" ∧
    numberFromString ParseFloat (utf8 "iB") = .panicked "index out of range [-1]" ∧
    ∀ i : List Byte, (∃ msg, numberFromString ParseFloat i = .panicked msg) ↔
      (i = utf8 "" ∨ i = utf8 "B" ∨ i = utf8 "i" ∨ i = utf8 "iB") :=
  ⟨rfl, rfl, rfl, rfl, fun i => by
    rw [numberFromString_eq, numberFromRest_panics_iff, stripMarkers_eq_nil_iff]
    rfl⟩

/-- C13 (as the code has it): round trip. When `numberFromString` parses the text `t`, of
at most 800 bytes, with no error, `t` is a numeric text `num`, then a prefix `pfx` of at
most one byte, which is not a digit, then `i` when the number is binary, then `B` when it is
a byte multiple. `string()` of the number is the `float64` that `strconv.ParseFloat` returns
for `num`, printed with 3 decimals and stripped of trailing zeros and of a trailing `.`,
followed by the prefix and by the same `i` and `B`. The prefix of the number is the
character whose code is the prefix byte: the same letter for an ASCII byte, two other bytes
for a byte from `0x80` on. The texts `2M`, `128Ki` and `1.5KiB` come back unchanged. -/
theorem numberFromString_round_trip :
    (∀ (t : List Byte) (n : Number), t.length ≤ 800 →
      numberFromString strconv.ParseFloat t = .returned n none →
      ∃ (num pfx : List Byte) (v : Float64),
        t = num ++ pfx ++ (if n.BinaryMultiple then utf8 "i" else [])
          ++ (if n.ByteMultiple then utf8 "B" else []) ∧
        pfx.length ≤ 1 ∧ (∀ c ∈ pfx, ¬ (0x30 ≤ c.val ∧ c.val ≤ 0x39)) ∧
        strconv.ParseFloat num = (v, none) ∧
        n.Prefix = runeText pfx ∧
        ((∀ c ∈ pfx, c.val < 0x80) → utf8 n.Prefix = pfx) ∧
        (∀ c ∈ pfx, 0x80 ≤ c.val →
          utf8 n.Prefix = [Fin.ofNat (0xC0 + c.val / 0x40), Fin.ofNat (0x80 + c.val % 0x40)]) ∧
        n.string = some (trimNumeric (FormatFloat v 3) ++ n.Prefix
          ++ (if n.BinaryMultiple then "i" else "")
          ++ (if n.ByteMultiple then "B" else ""))) ∧
    roundTrip (utf8 "2M") = some "2M" ∧
    roundTrip (utf8 "128Ki") = some "128Ki" ∧
    roundTrip (utf8 "1.5KiB") = some "1.5KiB" := by
  refine ⟨fun t n _ h => ?_, by decide, by decide, by decide⟩
  obtain ⟨num, pfx, v, ht, hp, hnd, hpfx, hv, hval⟩ :=
    numberFromString_returned strconv.ParseFloat t n h
  refine ⟨num, pfx, v, ht, hp, hnd, hv, hpfx, ?_, ?_, ?_⟩
  · intro hascii
    rw [hpfx]
    exact utf8_runeText_ascii pfx hascii
  · intro c hc hhigh
    have e : pfx = [c] := by
      rcases pfx with _ | ⟨x, _ | ⟨y, ys⟩⟩
      · simp at hc
      · simp at hc
        rw [hc]
      · simp at hp
    rw [hpfx, e]
    exact utf8_runeText_high c hhigh
  · rw [Number.string_float64 n v hval, Number.markers]
    simp [String.append_assoc]

theorem numberFromString_round_trip_witness :
    ∃ (num pfx : List Byte) (v : Float64),
      utf8 "3.25GiB" = num ++ pfx ++ utf8 "i" ++ utf8 "B" ∧
      strconv.ParseFloat num = (v, none) ∧
      Number.string { BinaryMultiple := true, ByteMultiple := true, Prefix := "G",
                      Value := .float64 (strconv.ParseFloat (utf8 "3.25")).1 } =
        some (trimNumeric (FormatFloat v 3) ++ "G" ++ "i" ++ "B") := by
  obtain ⟨num, pfx, v, h1, _, _, h2, _, _, _, h3⟩ :=
    numberFromString_round_trip.1 (utf8 "3.25GiB")
      { BinaryMultiple := true, ByteMultiple := true, Prefix := "G",
        Value := .float64 (strconv.ParseFloat (utf8 "3.25")).1 } (by decide) (by decide)
  exact ⟨num, pfx, v, h1, h2, h3⟩

/-- C13 as stated fails: the numeric part goes through a `float64` before it is printed, so
`9007199254740993K` comes back as `9007199254740992K` and `1.0635M` as `1.063M`; and a prefix
byte from `0x80` on comes back as two bytes, the text of the bytes `31 ff` as `31 c3 bf`. -/
theorem numberFromString_round_trip_counterexample :
    roundTrip (utf8 "9007199254740993K") = some "9007199254740992K" ∧
    roundTrip (utf8 "1.0635M") = some "1.063M" ∧
    roundTrip [0x31, 0xFF] = some "1ÿ" ∧
    utf8 "1ÿ" = [0x31, 0xC3, 0xBF] := by
  decide

end Astiffmpeg
